import Mathlib

/-!
# Service-discovery change propagation (registry/event/event_listener.go)

A shallow embedding of `ServiceInstancesChangedListener` and of its operations
`OnEvent`, `getMetadataInfo`, `AddListenerAndNotify`, `RemoveListener` and `Accept`.
The script router of `cluster/router/script` is embedded in namespace `RouterScript`, after
the definitions of this part; the theorems on both parts follow the definitions.

Modelling conventions

* A Go map is an association list (`mapGet`, `mapSet`, `mapDel`).  Go leaves the
  iteration order of `range` over a map (and of `HashSet.Values`) unspecified, so
  every such loop iterates over `ord.pick tick m`, a permutation of the entries
  chosen by a `RangeOrder` oracle; `tick` counts the range statements executed so
  far, so two executions of the same loop may use different orders.
* A pointer is modelled by the record it points to; records that stand for heap
  objects carry an `addr` field that tells distinct objects with equal contents
  apart.  The `ServiceMetadata` field written by `SetServiceMetadata` lives in a
  separate table keyed by the instance (`World.serviceMetadata`), so that the
  instance lists stored in `allInstances` are lists of pointers, as in the source.
* The collaborators outside the file (metadata services, `ToURLs`) are parameters
  collected in `Env`; calls to the resolver and to `Notify` are recorded in logs.
* A nil-pointer dereference is the outcome `panicked`.
-/

namespace RegistryEvent

/-! ## Go maps as association lists -/

/-- The value stored under key `k` (`m[k]`), `none` when the key is absent. -/
def mapGet {κ ν : Type} [DecidableEq κ] : List (κ × ν) → κ → Option ν
  | [], _ => none
  | (k', v) :: rest, k => if k' = k then some v else mapGet rest k

/-- The statement `delete(m, k)`. -/
def mapDel {κ ν : Type} [DecidableEq κ] : List (κ × ν) → κ → List (κ × ν)
  | [], _ => []
  | (k', v) :: rest, k => if k' = k then mapDel rest k else (k', v) :: mapDel rest k

/-- The assignment `m[k] = v`: any previous entry for `k` is dropped. -/
def mapSet {κ ν : Type} [DecidableEq κ] (m : List (κ × ν)) (k : κ) (v : ν) : List (κ × ν) :=
  (k, v) :: mapDel m k

/-- Iteration-order oracle for `range` over a map: `pick tick m` is the order in which
the range statement number `tick` visits the entries `m`; it is always a permutation. -/
structure RangeOrder where
  pick : {α : Type} → Nat → List α → List α
  perm : ∀ {α : Type} (tick : Nat) (l : List α), (pick tick l).Perm l

/-- The order in which entries were inserted, most recent first. -/
def RangeOrder.stored : RangeOrder where
  pick := fun _ l => l
  perm := fun _ l => List.Perm.refl l

/-- The reverse of `RangeOrder.stored`. -/
def RangeOrder.reversed : RangeOrder where
  pick := fun _ l => l.reverse
  perm := fun _ l => List.reverse_perm l

/-! ## Data model -/

/-- Errors are carried as their message. -/
abbrev Err := String

/-- Modelled from the spec: the type `common.URL` is declared outside the source files; it
is a resolved endpoint descriptor, kept here as its rendering. -/
structure URL where
  raw : String
deriving DecidableEq, Repr

/-- Modelled from the spec: the type `common.ServiceInfo` is declared outside the source
files; of a descriptor, `OnEvent` reads the protocol and the derived match-key returned by
`GetMatchKey()`.  The source keys a map by `*common.ServiceInfo`, so the record stands for
the object behind the pointer and `addr` is its identity. -/
structure ServiceInfo where
  addr : Nat
  Protocol : String
  MatchKey : String
deriving DecidableEq, Repr

/-- Modelled from the spec: the type `common.MetadataInfo` is declared outside the source
files; the document of a revision, with its revision identifier and its `ServiceInfo`
descriptors (the values of the `Services` map).  A nil `*common.MetadataInfo` is `none`. -/
structure MetadataInfo where
  Revision : String
  Services : List ServiceInfo
deriving DecidableEq, Repr

/-- Modelled from the spec: the interface `registry.ServiceInstance` is declared outside the
source files; an instance has a host and a metadata mapping, `Metadata` being the result of
`GetMetadata()` with `none` for the nil map.  Instances are pointers: the record stands for
the object and `addr` is its identity; the reference to the resolved `MetadataInfo` that
`SetServiceMetadata` writes is kept in `World.serviceMetadata`. -/
structure ServiceInstance where
  addr : Nat
  Host : String
  Metadata : Option (List (String × String))
deriving DecidableEq, Repr

/-- Modelled from the spec: the event actions of package `remoting`, declared outside the
source files; the notifications of this file use the action add. -/
inductive EventType where
  | EventTypeAdd
  | EventTypeDel
  | EventTypeUpdate
deriving DecidableEq, Repr

/-- Modelled from the spec: the type `registry.ServiceEvent`, declared outside the source
files; a notification carries an action and one URL. -/
structure ServiceEvent where
  Action : EventType
  Service : URL
deriving DecidableEq, Repr

/-- Modelled from the spec: the interface `registry.NotifyListener`, declared outside the
source files; a listener is a notify callback, known here by its identity only. -/
structure NotifyListener where
  id : Nat
deriving DecidableEq, Repr

/-- Modelled from the spec: the interface `observer.Event` and the type
`registry.ServiceInstancesChangedEvent` are declared outside the source files; an event is
either a change event carrying a service name and a full instance list, or an event of some
other type. -/
inductive Event where
  | ServiceInstancesChangedEvent (ServiceName : String) (Instances : List ServiceInstance)
  | otherEvent (tag : String)
deriving DecidableEq, Repr

/-- The struct `ServiceInstancesChangedListener` (source lines 39-46).  Its maps are made by
the constructor and no operation assigns nil to them, so a map is never nil here;
`ServiceNames` is the set of watched service names. -/
structure ServiceInstancesChangedListener where
  ServiceNames : List String
  listeners : List (String × NotifyListener)
  serviceUrls : List (String × List URL)
  revisionToMetadata : List (String × MetadataInfo)
  allInstances : List (String × List ServiceInstance)
deriving DecidableEq, Repr

/-- Source lines 48-56. -/
def NewServiceInstancesChangedListener (services : List String) : ServiceInstancesChangedListener where
  ServiceNames := services
  listeners := []
  serviceUrls := []
  revisionToMetadata := []
  allInstances := []

/-- Everything an operation of the listener can read or change: the listener itself,
the `ServiceMetadata` field of every instance, and the logs of the calls made to the
metadata resolver and to `Notify` (with the key under which the listener is stored). -/
structure World where
  lstn : ServiceInstancesChangedListener
  serviceMetadata : List (ServiceInstance × Option MetadataInfo)
  resolverCalls : List (ServiceInstance × String)
  notified : List (String × NotifyListener × ServiceEvent)
deriving DecidableEq, Repr

/-- The collaborators that live outside the source files, taken as parameters. -/
structure Env where
  /-- The function `extension.GetRemoteMetadataService()`: an error, or the service. -/
  GetRemoteMetadataService : Except Err Unit
  /-- The remote service method `GetMetadata(instance)`. -/
  GetMetadata : ServiceInstance → Except Err (Option MetadataInfo)
  /-- The method `GetMetadataInfo(revision)` of the local proxy obtained for an instance. -/
  GetMetadataInfo : ServiceInstance → String → Except Err (Option MetadataInfo)
  /-- The method `ToURLs()` of an instance, which may read its `ServiceMetadata`. -/
  ToURLs : ServiceInstance → Option MetadataInfo → List URL

/-- Modelled from the spec: the constant `constant.EXPORTED_SERVICES_REVISION_PROPERTY_NAME`
is declared outside the source files; it is the metadata key that carries the revision. -/
def EXPORTED_SERVICES_REVISION_PROPERTY_NAME : String := "dubbo.exported-services.revision"

/-- Modelled from the spec: the constant `constant.METADATA_STORAGE_TYPE_PROPERTY_NAME`
is declared outside the source files; it is the metadata key of the storage mode. -/
def METADATA_STORAGE_TYPE_PROPERTY_NAME : String := "dubbo.metadata.storage-type"

/-- Modelled from the spec: the constant `constant.DEFAULT_METADATA_STORAGE_TYPE`, the
local-proxy mode used when the instance carries no metadata. -/
def DEFAULT_METADATA_STORAGE_TYPE : String := "local"

/-- Modelled from the spec: the constant `constant.REMOTE_METADATA_STORAGE_TYPE`, the
"remote" storage mode. -/
def REMOTE_METADATA_STORAGE_TYPE : String := "remote"

/-- The expression `instance.GetMetadata()[EXPORTED_SERVICES_REVISION_PROPERTY_NAME]`: reading
an absent key of a Go map yields the empty string. -/
def revisionOf (inst : ServiceInstance) : String :=
  match inst.Metadata with
  | none => ""
  | some md => (mapGet md EXPORTED_SERVICES_REVISION_PROPERTY_NAME).getD ""

/-- The value of the `ServiceMetadata` field of an instance, nil when never set. -/
def serviceMetadataOf (w : World) (inst : ServiceInstance) : Option MetadataInfo :=
  (mapGet w.serviceMetadata inst).getD none

/-! ## getMetadataInfo -/

/-- Source lines 146-172.  The parameter `metadataInfo` is overwritten before it is read. -/
def getMetadataInfo (env : Env) (inst : ServiceInstance) (_metadataInfo : Option MetadataInfo)
    (revision : String) : Except Err (Option MetadataInfo) :=
  let metadataStorageType : String :=
    match inst.Metadata with
    | none => DEFAULT_METADATA_STORAGE_TYPE
    | some md => (mapGet md METADATA_STORAGE_TYPE_PROPERTY_NAME).getD ""
  if metadataStorageType = REMOTE_METADATA_STORAGE_TYPE then
    match env.GetRemoteMetadataService with
    | .error err => .error err
    | .ok _ =>
      match env.GetMetadata inst with
      | .error err => .error err
      | .ok metadataInfo => .ok metadataInfo
  else
    match env.GetMetadataInfo inst revision with
    | .error err => .error err
    | .ok metadataInfo => .ok metadataInfo

/-! ## OnEvent -/

/-- The local variables of `OnEvent` together with the world.  A `*gxset.HashSet` is the
pair of its address and its elements; `nextSet` is the next free address.  `aliased`
records that `lstn.revisionToMetadata` and `newRevisionToMetadata` are the same map
object (after line 105 has run once). -/
structure Pass where
  world : World
  revisionToInstances : List (String × List (Option ServiceInstance))
  newRevisionToMetadata : List (String × MetadataInfo)
  localServiceToRevisions : List (ServiceInfo × (Nat × List String))
  protocolRevisionsToUrls : List (String × List (Nat × List URL))
  newServiceURLs : List (String × List URL)
  nextSet : Nat
  aliased : Bool
  tick : Nat
deriving Repr

/-- How a loop body ends: it falls through to the next iteration, the function returns
an error, or the goroutine panics. -/
inductive Flow where
  | next (st : Pass)
  | ret (err : Err) (st : Pass)
  | panic (st : Pass)
deriving Repr

/-- How a call of `OnEvent` ends. -/
inductive Outcome where
  | returned (err : Option Err)
  | panicked
deriving DecidableEq, Repr

/-- Outcome of a call and the world it leaves behind. -/
structure Result where
  outcome : Outcome
  world : World
deriving DecidableEq, Repr

/-- Lines 97-100: allocate the revision set of `service` when it has none, then add
`revision` to it. -/
def addRevision (revision : String) (st : Pass) (service : ServiceInfo) : Pass :=
  match mapGet st.localServiceToRevisions service with
  | none =>
    { st with
      localServiceToRevisions := mapSet st.localServiceToRevisions service (st.nextSet, [revision])
      nextSet := st.nextSet + 1 }
  | some (ptr, revs) =>
    { st with
      localServiceToRevisions :=
        mapSet st.localServiceToRevisions service
          (ptr, if revision ∈ revs then revs else revs ++ [revision]) }

/-- The call `instance.SetServiceMetadata(metadataInfo)` of line 95. -/
def SetServiceMetadata (st : Pass) (inst : ServiceInstance) (metadataInfo : Option MetadataInfo) :
    Pass :=
  { st with
    world := { st.world with
      serviceMetadata := mapSet st.world.serviceMetadata inst metadataInfo } }

/-- Line 103, `newRevisionToMetadata[revision] = metadataInfo`: once the listener's cache is
the same map object, the entry shows there as well. -/
def storeRevision (st : Pass) (revision : String) (metadataInfo : MetadataInfo) : Pass :=
  { st with
    newRevisionToMetadata := mapSet st.newRevisionToMetadata revision metadataInfo
    world := { st.world with
      lstn := { st.world.lstn with
        revisionToMetadata :=
          if st.aliased then mapSet st.newRevisionToMetadata revision metadataInfo
          else st.world.lstn.revisionToMetadata } } }

/-- Lines 96-101: the loop over `metadataInfo.Services`, visited in the order `services`. -/
def rangeServices (revision : String) (services : List ServiceInfo) (st : Pass) : Pass :=
  services.foldl (addRevision revision) { st with tick := st.tick + 1 }

/-- Lines 95-103, for a non-nil `metadataInfo`. -/
def recordMetadata (ord : RangeOrder) (st : Pass) (inst : ServiceInstance) (revision : String)
    (metadataInfo : MetadataInfo) : Pass :=
  storeRevision
    (rangeServices revision (ord.pick st.tick metadataInfo.Services)
      (SetServiceMetadata st inst (some metadataInfo)))
    revision metadataInfo

/-- Lines 83-87: file the instance under its revision; a new list starts with the eight
nil entries of `make([]registry.ServiceInstance, 8)`. -/
def fileInstance (st : Pass) (inst : ServiceInstance) (revision : String) : Pass :=
  { st with
    revisionToInstances :=
      mapSet st.revisionToInstances revision
        ((match mapGet st.revisionToInstances revision with
          | none => List.replicate 8 none
          | some subInstances => subInstances) ++ [some inst]) }

/-- The call of `getMetadataInfo` at line 90, as it shows in the resolver log. -/
def logResolverCall (st : Pass) (inst : ServiceInstance) (revision : String) : Pass :=
  { st with
    world := { st.world with
      resolverCalls := st.world.resolverCalls ++ [(inst, revision)] } }

/-- Lines 74-103: the body of the loop over the instances of one service name.  When the
resolver returns a nil `metadataInfo` without an error, line 96 dereferences it. -/
def instanceBody (env : Env) (ord : RangeOrder) (st : Pass) (inst : ServiceInstance) : Flow :=
  match inst.Metadata with
  | none => .next st
  | some _ =>
    if "0" = revisionOf inst then .next st
    else
      match mapGet (fileInstance st inst (revisionOf inst)).world.lstn.revisionToMetadata
          (revisionOf inst) with
      | some metadataInfo =>
        .next (recordMetadata ord (fileInstance st inst (revisionOf inst)) inst (revisionOf inst)
          metadataInfo)
      | none =>
        match getMetadataInfo env inst none (revisionOf inst) with
        | .error err =>
          .ret err (logResolverCall (fileInstance st inst (revisionOf inst)) inst (revisionOf inst))
        | .ok none =>
          .panic (SetServiceMetadata
            (logResolverCall (fileInstance st inst (revisionOf inst)) inst (revisionOf inst))
            inst none)
        | .ok (some metadataInfo) =>
          .next (recordMetadata ord
            (logResolverCall (fileInstance st inst (revisionOf inst)) inst (revisionOf inst))
            inst (revisionOf inst) metadataInfo)

/-- Lines 73-104: the loop over the instances of one service name. -/
def rangeInstances (env : Env) (ord : RangeOrder) : List ServiceInstance → Pass → Flow
  | [], st => .next st
  | inst :: rest, st =>
    match instanceBody env ord st inst with
    | .next st1 => rangeInstances env ord rest st1
    | .ret err st1 => .ret err st1
    | .panic st1 => .panic st1

/-- Lines 120-124: the URLs of the non-nil instances filed under one revision. -/
def instancesURLs (env : Env) (w : World) : List (Option ServiceInstance) → List URL
  | [] => []
  | none :: rest => instancesURLs env w rest
  | some i :: rest => env.ToURLs i (serviceMetadataOf w i) ++ instancesURLs env w rest

/-- Lines 117-125: the URL list of a revision set whose values are visited in the order
`revisions`. -/
def revisionsURLs (env : Env) (st : Pass) : List String → List URL
  | [] => []
  | r :: rest =>
    instancesURLs env st.world ((mapGet st.revisionToInstances r).getD [])
      ++ revisionsURLs env st rest

/-- The map `protocolRevisionsToUrls[protocol]`, empty when it was just created (lines 108-112). -/
def revisionsToUrlsOf (st : Pass) (protocol : String) : List (Nat × List URL) :=
  (mapGet st.protocolRevisionsToUrls protocol).getD []

/-- Lines 115 and 127: `newServiceURLs[serviceInstance.GetMatchKey()] = urls`. -/
def assignServiceURLs (st : Pass) (serviceInstance : ServiceInfo) (urls : List URL) : Pass :=
  { st with newServiceURLs := mapSet st.newServiceURLs serviceInstance.MatchKey urls }

/-- Lines 117-126: build the URL list of a revision set that has none yet and store it
under the address of the set. -/
def buildServiceURLs (env : Env) (ord : RangeOrder) (st : Pass)
    (entry : ServiceInfo × (Nat × List String)) : Pass :=
  { st with
    protocolRevisionsToUrls :=
      mapSet st.protocolRevisionsToUrls entry.1.Protocol
        (mapSet (revisionsToUrlsOf st entry.1.Protocol) entry.2.1
          (revisionsURLs env st (ord.pick st.tick entry.2.2)))
    tick := st.tick + 1 }

/-- Lines 108-128: the body of the loop over `localServiceToRevisions`; an entry is a
`ServiceInfo` with the address and the elements of its revision set. -/
def serviceBody (env : Env) (ord : RangeOrder) (st : Pass)
    (entry : ServiceInfo × (Nat × List String)) : Pass :=
  match mapGet (revisionsToUrlsOf st entry.1.Protocol) entry.2.1 with
  | some urls => assignServiceURLs st entry.1 urls
  | none =>
    assignServiceURLs (buildServiceURLs env ord st entry) entry.1
      (revisionsURLs env st (ord.pick st.tick entry.2.2))

/-- Lines 134-139: one `Notify` call per URL, each with action add. -/
def notifyAll (key : String) (notifyListener : NotifyListener) (w : World) (urls : List URL) :
    World :=
  { w with
    notified := w.notified ++
      urls.map (fun url => (key, notifyListener, ServiceEvent.mk EventType.EventTypeAdd url)) }

/-- Lines 132-140: the loop over the registered listeners. -/
def notifyListeners (w : World) (entries : List (String × NotifyListener)) : World :=
  entries.foldl
    (fun w entry => notifyAll entry.1 entry.2 w ((mapGet w.lstn.serviceUrls entry.1).getD []))
    w

/-- Line 105, `lstn.revisionToMetadata = newRevisionToMetadata`: from here on both names
stand for one map object. -/
def publishRevisions (st : Pass) : Pass :=
  { st with
    world := { st.world with
      lstn := { st.world.lstn with revisionToMetadata := st.newRevisionToMetadata } }
    aliased := true }

/-- Lines 107-129: the loop over `localServiceToRevisions`, visited in the order `entries`. -/
def rangeLocalServices (env : Env) (ord : RangeOrder)
    (entries : List (ServiceInfo × (Nat × List String))) (st : Pass) : Pass :=
  entries.foldl (serviceBody env ord) { st with tick := st.tick + 1 }

/-- Line 130, `lstn.serviceUrls = newServiceURLs`. -/
def publishServiceURLs (st : Pass) : Pass :=
  { st with
    world := { st.world with lstn := { st.world.lstn with serviceUrls := st.newServiceURLs } } }

/-- Lines 132-140 as a step of the pass. -/
def fanOut (ord : RangeOrder) (st : Pass) : Pass :=
  { st with
    world := notifyListeners st.world (ord.pick st.tick st.world.lstn.listeners)
    tick := st.tick + 1 }

/-- Lines 105-140: what follows the instance loop inside one iteration of the loop over
`allInstances`. -/
def publish (env : Env) (ord : RangeOrder) (st : Pass) : Pass :=
  fanOut ord
    (publishServiceURLs
      (rangeLocalServices env ord
        (ord.pick (publishRevisions st).tick (publishRevisions st).localServiceToRevisions)
        (publishRevisions st)))

/-- Lines 72-142: the loop over `allInstances`, visited in the order `entries`. -/
def rangeAllInstances (env : Env) (ord : RangeOrder) :
    List (String × List ServiceInstance) → Pass → Result
  | [], st => ⟨.returned none, st.world⟩
  | entry :: rest, st =>
    match rangeInstances env ord entry.2 st with
    | .next st1 => rangeAllInstances env ord rest (publish env ord st1)
    | .ret err st1 => ⟨.returned (some err), st1.world⟩
    | .panic st1 => ⟨.panicked, st1.world⟩

/-- Lines 65-70: the state of `OnEvent` when the loop over `allInstances` starts. -/
def startPass (w : World) (ServiceName : String) (Instances : List ServiceInstance) : Pass where
  world := { w with lstn := { w.lstn with allInstances := mapSet w.lstn.allInstances ServiceName Instances } }
  revisionToInstances := []
  newRevisionToMetadata := []
  localServiceToRevisions := []
  protocolRevisionsToUrls := []
  newServiceURLs := []
  nextSet := 0
  aliased := false
  tick := 1

/-- Source lines 59-143. -/
def OnEvent (env : Env) (ord : RangeOrder) (w : World) (e : Event) : Result :=
  match e with
  | .otherEvent _ => ⟨.returned none, w⟩
  | .ServiceInstancesChangedEvent ServiceName Instances =>
    let st := startPass w ServiceName Instances
    rangeAllInstances env ord (ord.pick 0 st.world.lstn.allInstances) st

/-! ## Listener registration and the acceptance filter -/

/-- Source lines 175-184. -/
def AddListenerAndNotify (w : World) (serviceKey : String) (notify : NotifyListener) : World :=
  let w1 : World :=
    { w with lstn := { w.lstn with listeners := mapSet w.lstn.listeners serviceKey notify } }
  notifyAll serviceKey notify w1 ((mapGet w1.lstn.serviceUrls serviceKey).getD [])

/-- Source lines 187-189. -/
def RemoveListener (w : World) (serviceKey : String) : World :=
  { w with lstn := { w.lstn with listeners := mapDel w.lstn.listeners serviceKey } }

/-- Source lines 192-197. -/
def Accept (w : World) (e : Event) : Bool :=
  match e with
  | .ServiceInstancesChangedEvent ServiceName _ => decide (ServiceName ∈ w.lstn.ServiceNames)
  | .otherEvent _ => false

/-- Source lines 200-202. -/
def GetPriority : Int := -1

/-! ## Vocabulary of the statements -/

/-- The state a loop body leaves behind, however it ends. -/
def Flow.pass : Flow → Pass
  | .next st => st
  | .ret _ st => st
  | .panic st => st

/-- The five ways the body of the instance loop can run. -/
inductive InstanceStep (env : Env) (ord : RangeOrder) (st : Pass) (inst : ServiceInstance) :
    Flow → Prop where
  | skipNil (h : inst.Metadata = none) : InstanceStep env ord st inst (.next st)
  | skipZero (h : revisionOf inst = "0") : InstanceStep env ord st inst (.next st)
  | hit (hm : inst.Metadata ≠ none) (hr : revisionOf inst ≠ "0") (metadataInfo : MetadataInfo)
      (hc : mapGet st.world.lstn.revisionToMetadata (revisionOf inst) = some metadataInfo) :
      InstanceStep env ord st inst
        (.next (recordMetadata ord (fileInstance st inst (revisionOf inst)) inst (revisionOf inst)
          metadataInfo))
  | failed (hm : inst.Metadata ≠ none) (hr : revisionOf inst ≠ "0")
      (hc : mapGet st.world.lstn.revisionToMetadata (revisionOf inst) = none) (err : Err)
      (hg : getMetadataInfo env inst none (revisionOf inst) = .error err) :
      InstanceStep env ord st inst
        (.ret err (logResolverCall (fileInstance st inst (revisionOf inst)) inst (revisionOf inst)))
  | nilResult (hm : inst.Metadata ≠ none) (hr : revisionOf inst ≠ "0")
      (hc : mapGet st.world.lstn.revisionToMetadata (revisionOf inst) = none)
      (hg : getMetadataInfo env inst none (revisionOf inst) = .ok none) :
      InstanceStep env ord st inst
        (.panic (SetServiceMetadata
          (logResolverCall (fileInstance st inst (revisionOf inst)) inst (revisionOf inst))
          inst none))
  | resolved (hm : inst.Metadata ≠ none) (hr : revisionOf inst ≠ "0")
      (hc : mapGet st.world.lstn.revisionToMetadata (revisionOf inst) = none)
      (metadataInfo : MetadataInfo)
      (hg : getMetadataInfo env inst none (revisionOf inst) = .ok (some metadataInfo)) :
      InstanceStep env ord st inst
        (.next (recordMetadata ord
          (logResolverCall (fileInstance st inst (revisionOf inst)) inst (revisionOf inst))
          inst (revisionOf inst) metadataInfo))

/-- The parts of the listener that the loops of `OnEvent` never assign. -/
def Framed (w w' : World) : Prop :=
  w'.lstn.allInstances = w.lstn.allInstances ∧ w'.lstn.listeners = w.lstn.listeners ∧
    w'.lstn.ServiceNames = w.lstn.ServiceNames

/-- The notifications of lines 132-140 for the listener entries `entries` and the URL
table `serviceUrls`. -/
def notesFor (serviceUrls : List (String × List URL)) :
    List (String × NotifyListener) → List (String × NotifyListener × ServiceEvent)
  | [] => []
  | entry :: rest =>
    ((mapGet serviceUrls entry.1).getD []).map
        (fun url => (entry.1, entry.2, ServiceEvent.mk EventType.EventTypeAdd url))
      ++ notesFor serviceUrls rest

/-- What the loop over the instances never assigns. -/
def Quiet (st st' : Pass) : Prop :=
  st'.world.notified = st.world.notified ∧ st'.world.lstn.serviceUrls = st.world.lstn.serviceUrls ∧
    st'.newServiceURLs = st.newServiceURLs ∧
    st'.protocolRevisionsToUrls = st.protocolRevisionsToUrls

/-- The add-notification for one URL. -/
def addNote (key : String) (l : NotifyListener) (u : URL) : String × NotifyListener × ServiceEvent :=
  (key, l, ServiceEvent.mk EventType.EventTypeAdd u)

/-! ## Sample data -/

/-- A world in which the listener has just been constructed. -/
def freshWorld (services : List String) : World where
  lstn := NewServiceInstancesChangedListener services
  serviceMetadata := []
  resolverCalls := []
  notified := []

/-- The metadata map of an instance that reports `revision` and nothing else. -/
def revisionMetadata (revision : String) : Option (List (String × String)) :=
  some [(EXPORTED_SERVICES_REVISION_PROPERTY_NAME, revision)]

/-- One URL per exported service of the instance, as the default instance type builds them. -/
def sampleToURLs (inst : ServiceInstance) (metadataInfo : Option MetadataInfo) : List URL :=
  match metadataInfo with
  | none => []
  | some m => m.Services.map (fun service => URL.mk (service.Protocol ++ "://" ++ inst.Host))

/-- An environment whose metadata services answer from one table indexed by revision. -/
def tableEnv (table : String → Except Err (Option MetadataInfo)) : Env where
  GetRemoteMetadataService := .ok ()
  GetMetadata := fun inst => table (revisionOf inst)
  GetMetadataInfo := fun _ revision => table revision
  ToURLs := sampleToURLs

/-- Instance A of the scenario, revision `r1`. -/
def instA : ServiceInstance := ⟨1, "hostA", revisionMetadata "r1"⟩
/-- Instance B of the scenario, revision `r1`. -/
def instB : ServiceInstance := ⟨2, "hostB", revisionMetadata "r1"⟩
/-- Instance C of the scenario, revision `r2`. -/
def instC : ServiceInstance := ⟨3, "hostC", revisionMetadata "r2"⟩

/-- An instance whose revision no metadata service knows. -/
def instX : ServiceInstance := ⟨4, "hostX", revisionMetadata "rx"⟩

/-- An instance whose metadata map is empty but not nil. -/
def instE : ServiceInstance := ⟨5, "hostE", some []⟩

/-- An instance whose metadata map is nil. -/
def instN : ServiceInstance := ⟨6, "hostN", none⟩

/-- An instance with the sentinel revision. -/
def instZ : ServiceInstance := ⟨7, "hostZ", revisionMetadata "0"⟩

/-- The `ServiceInfo` object of `Foo:1.0` in the metadata of revision `r1`. -/
def fooOfR1 : ServiceInfo := ⟨1, "dubbo", "Foo:1.0:dubbo"⟩

/-- The `ServiceInfo` object of `Foo:1.0` in the metadata of revision `r2`. -/
def fooOfR2 : ServiceInfo := ⟨2, "dubbo", "Foo:1.0:dubbo"⟩

/-- The `ServiceInfo` object of `Bar:1.0` in the metadata answered for the empty revision. -/
def barOfEmpty : ServiceInfo := ⟨3, "dubbo", "Bar:1.0:dubbo"⟩

/-- The scenario of the specification: `r1` exports `Foo:1.0` on protocol dubbo, `r2`
exports nothing. -/
def scenarioTable (revision : String) : Except Err (Option MetadataInfo) :=
  if revision = "r1" then .ok (some ⟨"r1", [fooOfR1]⟩)
  else if revision = "r2" then .ok (some ⟨"r2", []⟩)
  else .error "metadata not found"

/-- Two revisions of one application, both exporting `Foo:1.0` on protocol dubbo; the empty
revision is answered with the metadata of a service `Bar:1.0`. -/
def upgradeTable (revision : String) : Except Err (Option MetadataInfo) :=
  if revision = "r1" then .ok (some ⟨"r1", [fooOfR1]⟩)
  else if revision = "r2" then .ok (some ⟨"r2", [fooOfR2]⟩)
  else if revision = "" then .ok (some ⟨"", [barOfEmpty]⟩)
  else .error "metadata not found"

/-- A listener registered for `Foo:1.0:dubbo`. -/
def fooListener : NotifyListener := ⟨1⟩

/-- The world after a fresh listener watching `S1` and `S2` has processed the event that
reports instance A under `S1`. -/
def worldWithS1 : World :=
  (OnEvent (tableEnv upgradeTable) RangeOrder.stored (freshWorld ["S1", "S2"])
    (.ServiceInstancesChangedEvent "S1" [instA])).world

/-- The world after a fresh listener watching `S1` and `S2` has processed the event that
reports instance X, whose metadata cannot be resolved, under `S2`. -/
def worldWithS2 : World :=
  (OnEvent (tableEnv scenarioTable) RangeOrder.stored (freshWorld ["S1", "S2"])
    (.ServiceInstancesChangedEvent "S2" [instX])).world

/-- A fresh listener watching `S` with `fooListener` registered for `Foo:1.0:dubbo`. -/
def worldWithListener : World :=
  AddListenerAndNotify (freshWorld ["S"]) "Foo:1.0:dubbo" fooListener

/-- The `ServiceInfo` object of `Bar:1.0` that `perInstanceEnv` reports for every host but
`hostA`. -/
def barOfB : ServiceInfo := ⟨4, "dubbo", "Bar:1.0:dubbo"⟩

/-- An environment whose local metadata proxy answers by instance and not by revision:
`hostA` reports `Foo:1.0`, every other host reports `Bar:1.0`. -/
def perInstanceEnv : Env where
  GetRemoteMetadataService := .ok ()
  GetMetadata := fun _ => .error "no remote metadata"
  GetMetadataInfo := fun inst revision =>
    if inst.Host = "hostA" then .ok (some ⟨revision, [fooOfR1]⟩)
    else .ok (some ⟨revision, [barOfB]⟩)
  ToURLs := sampleToURLs

/-- The answers of `freshObjectsEnv`: the scenario of the specification, with the metadata of
revision `r1` built anew for every instance, so that the `ServiceInfo` objects of two
instances are distinct. -/
def freshTable (inst : ServiceInstance) (revision : String) : Except Err (Option MetadataInfo) :=
  if revision = "r1" then .ok (some ⟨"r1", [⟨inst.addr, "dubbo", "Foo:1.0:dubbo"⟩]⟩)
  else if revision = "r2" then .ok (some ⟨"r2", []⟩)
  else .error "metadata not found"

/-- An environment whose metadata services answer with `freshTable`. -/
def freshObjectsEnv : Env where
  GetRemoteMetadataService := .ok ()
  GetMetadata := fun inst => freshTable inst (revisionOf inst)
  GetMetadataInfo := fun inst revision => freshTable inst revision
  ToURLs := sampleToURLs

/-! ## Invariants of a pass -/

/-- The instance takes part in resolution and in URL computation: its metadata map is not
nil and its revision is not the sentinel `"0"` (lines 74-82). -/
def Usable (inst : ServiceInstance) : Prop :=
  inst.Metadata ≠ none ∧ revisionOf inst ≠ "0"

/-- The instance is in one of the lists of the instance table `all`. -/
def StoredIn (all : List (String × List ServiceInstance)) (inst : ServiceInstance) : Prop :=
  ∃ entry ∈ all, inst ∈ entry.2

/-- Every URL of the list was returned by `ToURLs` on a usable instance stored in `all`. -/
def FromUsable (env : Env) (all : List (String × List ServiceInstance)) (urls : List URL) : Prop :=
  ∀ u ∈ urls, ∃ (i : ServiceInstance) (m : Option MetadataInfo),
    Usable i ∧ StoredIn all i ∧ u ∈ env.ToURLs i m

/-- Provenance of what a pass has computed so far: only usable stored instances are filed
under a revision, and every URL list built so far stems from such instances. -/
def Prov (env : Env) (all : List (String × List ServiceInstance)) (st : Pass) : Prop :=
  (∀ r l i, (r, l) ∈ st.revisionToInstances → some i ∈ l → Usable i ∧ StoredIn all i) ∧
  (∀ proto m ptr urls, (proto, m) ∈ st.protocolRevisionsToUrls → (ptr, urls) ∈ m →
    FromUsable env all urls) ∧
  (∀ k urls, (k, urls) ∈ st.newServiceURLs → FromUsable env all urls)

/-- The resolver log of `w'` extends that of `w` by calls made for usable instances, each
with the revision of its instance. -/
def CallsExtend (w w' : World) : Prop :=
  ∃ calls : List (ServiceInstance × String), w'.resolverCalls = w.resolverCalls ++ calls ∧
    ∀ c ∈ calls, Usable c.1 ∧ c.2 = revisionOf c.1

/-- The metadata lists a `ServiceInfo` with match-key `k`. -/
def HasKey (m : MetadataInfo) (k : String) : Prop :=
  ∃ q ∈ m.Services, q.MatchKey = k

/-- Two metadata documents export the same match-keys, whatever objects they are made of. -/
def SameKeys (m m' : MetadataInfo) : Prop :=
  ∀ k, HasKey m k ↔ HasKey m' k

/-- The invariant of the data model on revisions, for the instances of the table `all`: the
metadata the resolver returns for two usable instances that carry the same revision exports
the same match-keys. -/
def RevisionDetermines (env : Env) (all : List (String × List ServiceInstance)) : Prop :=
  ∀ i j : ServiceInstance, StoredIn all i → StoredIn all j → Usable i → Usable j →
    revisionOf i = revisionOf j →
    ∀ m m', getMetadataInfo env i none (revisionOf i) = .ok (some m) →
      getMetadataInfo env j none (revisionOf j) = .ok (some m') → SameKeys m m'

/-- Where the `metadataInfo` of lines 88-94 comes from: the listener's cache, or the
resolver after a miss. -/
def Origin (env : Env) (st : Pass) (inst : ServiceInstance) (metadataInfo : MetadataInfo) : Prop :=
  mapGet st.world.lstn.revisionToMetadata (revisionOf inst) = some metadataInfo ∨
    (mapGet st.world.lstn.revisionToMetadata (revisionOf inst) = none ∧
      getMetadataInfo env inst none (revisionOf inst) = .ok (some metadataInfo))

/-- The tables of `st'` keep what the tables of `st` hold: filed instances stay filed and
recorded revisions stay recorded with metadata of the same match-keys. -/
def Grows (st st' : Pass) : Prop :=
  (∀ r l i, mapGet st.revisionToInstances r = some l → some i ∈ l →
    ∃ l', mapGet st'.revisionToInstances r = some l' ∧ some i ∈ l') ∧
  (∀ r m, mapGet st.newRevisionToMetadata r = some m →
    ∃ m', mapGet st'.newRevisionToMetadata r = some m' ∧ SameKeys m m')

/-- Every URL of the list was returned by `ToURLs` on a filed instance, called while the
instance held metadata `mu` that exports match-key `k`, and the metadata recorded for the
revision of the instance exports `k` as well. -/
def GoodURLs (env : Env) (st : Pass) (k : String) (urls : List URL) : Prop :=
  ∀ u ∈ urls, ∃ (i : ServiceInstance) (l : List (Option ServiceInstance)) (mu m : MetadataInfo),
    mapGet st.revisionToInstances (revisionOf i) = some l ∧ some i ∈ l ∧
    u ∈ env.ToURLs i (some mu) ∧ HasKey mu k ∧
    mapGet st.newRevisionToMetadata (revisionOf i) = some m ∧ HasKey m k

/-- Discipline of the revision sets: a `ServiceInfo` has one entry, the address of a set is
below the next free address, and no set is shared by two `ServiceInfo` objects. -/
def LocalOK (loc : List (ServiceInfo × (Nat × List String))) (next : Nat) : Prop :=
  (∀ p e, (p, e) ∈ loc → mapGet loc p = some e) ∧
  (∀ p ptr revs, (p, (ptr, revs)) ∈ loc → ptr < next) ∧
  (∀ p p' ptr revs revs', (p, (ptr, revs)) ∈ loc → (p', (ptr, revs')) ∈ loc → p = p')

/-- The revisions of every set are recorded with metadata that exports the match-key of
the owner of the set, except for the revision `r` that is being recorded with `mj`. -/
def SetsInv (r : String) (mj : MetadataInfo) (newMap : List (String × MetadataInfo))
    (loc : List (ServiceInfo × (Nat × List String))) : Prop :=
  ∀ p ptr revs x, (p, (ptr, revs)) ∈ loc → x ∈ revs →
    (x = r ∧ p ∈ mj.Services) ∨ ∃ m, mapGet newMap x = some m ∧ HasKey m p.MatchKey

/-- Consistency of the tables a pass fills while it visits the instances.  `pending` is the
instance that line 87 has filed and whose metadata line 95 has not recorded yet. -/
structure Core (env : Env) (all : List (String × List ServiceInstance))
    (pending : Option ServiceInstance) (st : Pass) : Prop where
  filed : ∀ r l i, mapGet st.revisionToInstances r = some l → some i ∈ l →
    Usable i ∧ revisionOf i = r ∧ StoredIn all i ∧
      (some i = pending ∨
        ∃ m mi, mapGet st.newRevisionToMetadata r = some m ∧
          serviceMetadataOf st.world i = some mi ∧ SameKeys mi m)
  sets : ∀ p ptr revs r, (p, (ptr, revs)) ∈ st.localServiceToRevisions → r ∈ revs →
    ∃ m, mapGet st.newRevisionToMetadata r = some m ∧ HasKey m p.MatchKey
  locals : LocalOK st.localServiceToRevisions st.nextSet
  shared : st.aliased = true → st.world.lstn.revisionToMetadata = st.newRevisionToMetadata
  origin : st.aliased = false → ∀ r m, mapGet st.newRevisionToMetadata r = some m →
    mapGet st.world.lstn.revisionToMetadata r = some m ∨
      (mapGet st.world.lstn.revisionToMetadata r = none ∧
        ∃ i : ServiceInstance, StoredIn all i ∧ Usable i ∧ revisionOf i = r ∧
          getMetadataInfo env i none r = .ok (some m))

/-- Soundness of the URL lists a pass has built so far. -/
structure Cached (env : Env) (st : Pass) : Prop where
  table : ∀ proto m ptr urls, mapGet st.protocolRevisionsToUrls proto = some m →
    mapGet m ptr = some urls →
    ∃ p revs, (p, (ptr, revs)) ∈ st.localServiceToRevisions ∧ GoodURLs env st p.MatchKey urls
  published : ∀ k urls, mapGet st.newServiceURLs k = some urls → GoodURLs env st k urls

/-- What holds of the new revision table at any point of a pass: it has entries only for
revisions of usable stored instances, and once line 105 has run it is the listener's cache. -/
def KeysInv (all : List (String × List ServiceInstance)) (st : Pass) : Prop :=
  (∀ r m, mapGet st.newRevisionToMetadata r = some m →
    ∃ i, StoredIn all i ∧ Usable i ∧ revisionOf i = r) ∧
  (st.aliased = true → st.world.lstn.revisionToMetadata = st.newRevisionToMetadata)

/-- What holds while the instances of the first service name are visited, with `c0` the
listener's cache and `calls0` the resolver log at the start: the cache is still `c0`, the new
table agrees with `c0` on the revisions `c0` holds, and the resolver was called only for
revisions `c0` does not hold. -/
def FirstRound (c0 : List (String × MetadataInfo)) (calls0 : List (ServiceInstance × String))
    (st : Pass) : Prop :=
  st.aliased = false ∧ st.world.lstn.revisionToMetadata = c0 ∧
  (∀ r m m', mapGet c0 r = some m → mapGet st.newRevisionToMetadata r = some m' → m' = m) ∧
  (∃ calls, st.world.resolverCalls = calls0 ++ calls ∧ ∀ c ∈ calls, mapGet c0 c.2 = none)

/-- An instance whose metadata asks for the remote metadata store. -/
def instR : ServiceInstance :=
  ⟨8, "hostR", some [(METADATA_STORAGE_TYPE_PROPERTY_NAME, "remote"),
    (EXPORTED_SERVICES_REVISION_PROPERTY_NAME, "r1")]⟩

/-- An environment whose two metadata backends give different answers, and in which the
remote metadata service can be obtained. -/
def twoBackendsEnv : Env where
  GetRemoteMetadataService := .ok ()
  GetMetadata := fun _ => .ok (some ⟨"from the remote store", []⟩)
  GetMetadataInfo := fun _ _ => .error "local proxy unreachable"
  ToURLs := sampleToURLs

/-- The addresses of the revision sets of the entries, in the order of the entries. -/
def setAddrs (loc : List (ServiceInfo × (Nat × List String))) : List Nat :=
  loc.map (fun entry => entry.2.1)

/-- No two entries of `localServiceToRevisions` hold the same set object, and every set
address is below the next free one. -/
def OwnSets (st : Pass) : Prop :=
  (setAddrs st.localServiceToRevisions).Nodup ∧
    ∀ a ∈ setAddrs st.localServiceToRevisions, a < st.nextSet

/-! ## The local state of `OnEvent` at its return, and a revision with two services -/

/-- The `ServiceInfo` object of `Bar:1.0` in the metadata of revision `r1`. -/
def barOfR1 : ServiceInfo := ⟨5, "dubbo", "Bar:1.0:dubbo"⟩

/-- Revision `r1` exports `Foo:1.0` and `Bar:1.0`, both on protocol dubbo; revision `r2`
exports `Foo:1.0` alone. -/
def twoServicesTable (revision : String) : Except Err (Option MetadataInfo) :=
  if revision = "r1" then .ok (some ⟨"r1", [fooOfR1, barOfR1]⟩)
  else if revision = "r2" then .ok (some ⟨"r2", [fooOfR2]⟩)
  else .error "metadata not found"

/-- The local variables of `OnEvent` when the loop over `allInstances` (lines 72-141) is
left: at its end, at the return of line 92 or at a panic. -/
def lastPass (env : Env) (ord : RangeOrder) :
    List (String × List ServiceInstance) → Pass → Pass
  | [], st => st
  | entry :: rest, st =>
    match rangeInstances env ord entry.2 st with
    | .next st1 => lastPass env ord rest (publish env ord st1)
    | .ret _ st1 => st1
    | .panic st1 => st1

/-- The local variables of `OnEvent` when it returns from a change event. -/
def OnEventLocals (env : Env) (ord : RangeOrder) (w : World) (ServiceName : String)
    (Instances : List ServiceInstance) : Pass :=
  lastPass env ord (ord.pick 0 (startPass w ServiceName Instances).world.lstn.allInstances)
    (startPass w ServiceName Instances)

/-- The revision strings accumulated for a `ServiceInfo` (the elements of its set). -/
def revisionsOf (st : Pass) (service : ServiceInfo) : List String :=
  ((mapGet st.localServiceToRevisions service).map (fun set => set.2)).getD []

end RegistryEvent

/-!
# The script router (cluster/router/script)

A shallow embedding of `ScriptRouter` (route.go) and of the JavaScript script instance
(instance/js_instance.go).  A Go slice is an `Option (List _)`, `none` being the nil slice.
The script engine, the YAML decoder and the application configuration live outside the source
files and are parameters collected in `Env`; calls that reach the engine are recorded in a
log.  The mutex of the router orders concurrent calls and has no part in a sequential run.
-/

namespace RouterScript

open RegistryEvent (mapGet EventType Err)

/-! ## Data model of the script router -/

/-- Modelled from the spec: the interface `protocol.Invoker` is declared outside the source
files; an invoker is known here by its identity. -/
structure Invoker where
  id : Nat
deriving DecidableEq, Repr

/-- Modelled from the spec: the interface `protocol.Invocation` is declared outside the source
files; an invocation is known here by the method it calls. -/
structure Invocation where
  MethodName : String
deriving DecidableEq, Repr

/-- Modelled from the spec: the type `goja.Program` belongs to the script engine; a compiled
program is known by the name and the source text it was compiled from. -/
structure Program where
  name : String
  src : String
deriving DecidableEq, Repr

/-- What a program evaluates to, as the type assertions of lines 100-102 see it: a
`[]interface{}` whose elements are invokers (`some`) or something else (`none`), or a value
of another type. -/
inductive ScriptValue where
  | array (elems : List (Option Invoker))
  | other
deriving DecidableEq, Repr

/-- The values bound in the script runtime by `initCallArgs` and `initReplyVar`. -/
inductive Arg where
  | invokers (value : Option (List Invoker))
  | invocation (value : Invocation)
  | context (value : Invocation)
  | null
deriving DecidableEq, Repr

/-- Modelled from the spec: the type `config.RouterConfig` is declared outside the source
files; of a configuration document `Process` reads the script type, the script body, the
owning application key and the enabled flag, a `*bool` that is nil (`none`) when the document
has no such field. -/
structure RouterConfig where
  ScriptType : String
  Script : String
  Key : String
  Enabled : Option Bool
deriving DecidableEq, Repr

/-- The field `Value` of a configuration event, an `interface{}`: a string or not. -/
inductive EventValue where
  | str (value : String)
  | other
deriving DecidableEq, Repr

/-- Modelled from the spec: the type `config_center.ConfigChangeEvent` is declared outside the
source files; `Process` reads its value and its action (add, update or delete). -/
structure ConfigChangeEvent where
  Key : String
  Value : EventValue
  ConfigType : EventType
deriving DecidableEq, Repr

/-- The struct `jsInstances` (lines 75-78): the stored program, nil when there is none.
Nothing puts a runtime back into `insPool`, so every run gets a new one and the pool holds
no state. -/
structure jsInstances where
  program : Option Program
deriving DecidableEq, Repr

/-- The struct `ScriptRouter` (route.go lines 37-43), without its mutex. -/
structure ScriptRouter where
  scriptType : String
  key : String
  enabled : Bool
  rawScript : String
deriving DecidableEq, Repr

/-- A call that reaches the script engine. -/
inductive Call where
  | compile (name src : String)
  | run (pg : Program) (invokers : Option (List Invoker)) (invocation : Invocation)
deriving DecidableEq, Repr

/-- Everything `Process` and `Route` can read or change: the router, the script instances
registered by type name, and the log of the calls made to the script engine. -/
structure World where
  router : ScriptRouter
  instances : List (String × jsInstances)
  calls : List Call
deriving DecidableEq, Repr

/-- The collaborators that live outside the source files, taken as parameters. -/
structure Env where
  /-- The value of `config.GetApplicationConfig().Name`. -/
  ApplicationName : String
  /-- The YAML decoder behind `parseRoute`: the decoded document, or the decoding error. -/
  Decode : String → Except Err RouterConfig
  /-- The function `goja.Compile(name, src, strict)`. -/
  Compile : String → String → Bool → Except Err Program
  /-- The method `Runtime.Set(name, value)`: its error, if any. -/
  Set : String → Arg → Option Err
  /-- The method `Runtime.RunProgram` of a new runtime in which `invokers`, `invocation` and
  `context` are bound. -/
  RunProgram : Program → Option (List Invoker) → Invocation → Except Err ScriptValue

/-- The length `len(s)` of a slice, 0 for the nil slice. -/
def len {α : Type} (s : Option (List α)) : Nat :=
  (s.getD []).length

/-! ## The script instance (js_instance.go) -/

/-- Source line 28. -/
def js_script_result_name : String := "__go_program_result"

/-- Source line 29. -/
def js_script_perfix : String := "\n" ++ js_script_result_name ++ " = "

/-- Source lines 80-86. -/
def newJsInstances : jsInstances where
  program := none

/-- Source lines 107-114: the error returned and the instance afterwards. -/
def jsInstances.Compile (env : Env) (i : jsInstances) (key rawScript : String) :
    Option Err × jsInstances :=
  match env.Compile (key ++ "_jsScriptRoute") (js_script_perfix ++ rawScript) true with
  | .error err => (some err, i)
  | .ok pg => (none, { i with program := some pg })

/-- Source lines 116-118. -/
def jsInstances.Destroy (_i : jsInstances) : jsInstances where
  program := none

/-- Source lines 120-134: `true` when the three `Set` calls succeed, `false` when one of them
fails and the function panics. -/
def initCallArgs (env : Env) (invokers : Option (List Invoker)) (invocation : Invocation) : Bool :=
  (env.Set "invokers" (.invokers invokers)).isNone &&
    (env.Set "invocation" (.invocation invocation)).isNone &&
    (env.Set "context" (.context invocation)).isNone

/-- Source lines 137-142: `false` when `Set` fails and the function panics. -/
def initReplyVar (env : Env) : Bool :=
  (env.Set js_script_result_name .null).isNone

/-- Lines 100-103: the elements of the script result asserted to be invokers one by one;
`none` when an assertion fails. -/
def assertInvokers : List (Option Invoker) → Option (List Invoker)
  | [] => some []
  | none :: _ => none
  | some invoker :: rest => (assertInvokers rest).map (fun result => invoker :: result)

/-- How a call of `RunScript` or `runScript` ends: with a list and an error, or in a panic. -/
inductive Ran where
  | returned (res : Option (List Invoker)) (err : Option Err)
  | panicked
deriving DecidableEq, Repr

/-- Lines 96-104, once the runtime is prepared. -/
def runProgram (env : Env) (pg : Program) (invokers : Option (List Invoker))
    (invocation : Invocation) : Ran :=
  match env.RunProgram pg invokers invocation with
  | .error err => .returned none (some err)
  | .ok .other => .panicked
  | .ok (.array elems) =>
    match assertInvokers elems with
    | none => .panicked
    | some result => .returned (some result) none

/-- Source lines 88-105: the outcome and the calls made to the engine. -/
def jsInstances.RunScript (env : Env) (i : jsInstances) (_rawScript : String)
    (invokers : Option (List Invoker)) (invocation : Invocation) : Ran × List Call :=
  match i.program with
  | none => (.returned invokers none, [])
  | some pg =>
    if initCallArgs env invokers invocation && initReplyVar env then
      (runProgram env pg invokers invocation, [.run pg invokers invocation])
    else (.panicked, [])

/-! ## The router (route.go) -/

/-- Modelled from the spec: the function `GetInstances` of package `instance` is declared
outside the source files; it returns the script instance registered for the type, or an error
and a nil instance when none is registered. -/
def GetInstances (w : World) (tpName : String) : Except Err jsInstances :=
  match mapGet w.instances tpName with
  | none => .error ("script type " ++ tpName ++ " not be loaded")
  | some i => .ok i

/-- The instance registered under `tpName` replaced by `f` of it (a method call through the
pointer that `GetInstances` returned). -/
def updateInstance (instances : List (String × jsInstances)) (tpName : String)
    (f : jsInstances → jsInstances) : List (String × jsInstances) :=
  instances.map (fun entry => if entry.1 = tpName then (entry.1, f entry.2) else entry)

/-- Modelled from the spec: the function `RangeInstances` of package `instance` is declared
outside the source files; it calls `f` on every registered instance until `f` returns false.
Lines 134-137 pass a callback that destroys the instance and returns true. -/
def destroyAll (w : World) : World :=
  { w with instances := w.instances.map (fun entry => (entry.1, entry.2.Destroy)) }

/-- Source lines 45-57; the registration of the router as a configuration listener is left
to the configuration center. -/
def NewScriptRouter (env : Env) : ScriptRouter where
  scriptType := ""
  key := env.ApplicationName
  enabled := false
  rawScript := ""

/-- Source lines 59-67. -/
def parseRoute (env : Env) (routeContent : String) : Except Err RouterConfig :=
  match env.Decode routeContent with
  | .error err => .error err
  | .ok routerConfig => .ok routerConfig

/-- Lines 82-103, the closure `checkConfig`: `none` when line 99 dereferences a nil
`Enabled`. -/
def checkConfig (env : Env) (cfg : RouterConfig) : Option Bool :=
  if "" = cfg.ScriptType then some false
  else if "" = cfg.Script then some false
  else if "" = cfg.Key then some false
  else if cfg.Key ≠ env.ApplicationName then some false
  else
    match cfg.Enabled with
    | none => none
    | some _ => some true

/-- How a call of `Process` ends. -/
inductive Done where
  | completed
  | panicked
deriving DecidableEq, Repr

/-- Outcome of `Process` and the world it leaves behind. -/
structure Processed where
  outcome : Done
  world : World
deriving DecidableEq, Repr

/-- Lines 115-117 and 148-150. -/
def assignConfig (w : World) (cfg : RouterConfig) (enabled : Bool) : World :=
  { w with
    router := { w.router with
      rawScript := cfg.Script, scriptType := cfg.ScriptType, enabled := enabled } }

/-- Line 120 (and 153), `in.Compile(cfg.Key, cfg.Script)` on the instance of type `tpName`;
the error is logged and dropped. -/
def compileIn (env : Env) (w : World) (tpName key rawScript : String) : World :=
  { w with
    instances := updateInstance w.instances tpName (fun i => (i.Compile env key rawScript).2)
    calls := w.calls ++ [.compile (key ++ "_jsScriptRoute") (js_script_perfix ++ rawScript)] }

/-- Line 125 (and 158), `in.Destroy()` on the instance of type `tpName`. -/
def destroyIn (w : World) (tpName : String) : World :=
  { w with instances := updateInstance w.instances tpName jsInstances.Destroy }

/-- Lines 110-126 (and, word for word, 143-159).  When `GetInstances` fails the error is
logged and `in` is nil: the fields are assigned and the method call on `in` panics. -/
def applyConfig (env : Env) (w : World) (cfg : RouterConfig) : Processed :=
  match cfg.Enabled with
  | none => ⟨.panicked, w⟩
  | some enabled =>
    match GetInstances w cfg.ScriptType with
    | .error _ => ⟨.panicked, assignConfig w cfg enabled⟩
    | .ok _ =>
      if enabled then
        ⟨.completed, compileIn env (assignConfig w cfg enabled) cfg.ScriptType cfg.Key cfg.Script⟩
      else ⟨.completed, destroyIn (assignConfig w cfg enabled) cfg.ScriptType⟩

/-- Lines 106-126 and 139-159: the cases add and update. -/
def configure (env : Env) (w : World) (cfg : RouterConfig) : Processed :=
  match checkConfig env cfg with
  | none => ⟨.panicked, w⟩
  | some false => ⟨.completed, w⟩
  | some true => applyConfig env w cfg

/-- Lines 130-132. -/
def disable (w : World) : World :=
  { w with router := { w.router with enabled := false, rawScript := "", scriptType := "" } }

/-- Source lines 69-161. -/
def Process (env : Env) (w : World) (event : ConfigChangeEvent) : Processed :=
  match event.Value with
  | .other => ⟨.panicked, w⟩
  | .str rawConf =>
    match parseRoute env rawConf with
    | .error _ => ⟨.completed, w⟩
    | .ok cfg =>
      match event.ConfigType with
      | .EventTypeAdd => configure env w cfg
      | .EventTypeDel => ⟨.completed, destroyAll (disable w)⟩
      | .EventTypeUpdate => configure env w cfg

/-- Source lines 163-169.  The interface method `Run` is the method `RunScript` of the
script instance. -/
def runScript (env : Env) (w : World) (scriptType rawScript : String)
    (invokers : Option (List Invoker)) (invocation : Invocation) : Ran × World :=
  match GetInstances w scriptType with
  | .error err => (.returned none (some err), w)
  | .ok i =>
    ((i.RunScript env rawScript invokers invocation).1,
      { w with calls := w.calls ++ (i.RunScript env rawScript invokers invocation).2 })

/-- How a call of `Route` ends. -/
inductive Routed where
  | returned (res : Option (List Invoker))
  | panicked
deriving DecidableEq, Repr

/-- Lines 184-189: the error of `runScript` is logged and its list returned. -/
def routed : Ran → Routed
  | .returned res _ => .returned res
  | .panicked => .panicked

/-- Source lines 171-190; the URL parameter is not used. -/
def Route (env : Env) (w : World) (invokers : Option (List Invoker))
    (_url : Option RegistryEvent.URL) (invocation : Invocation) : Routed × World :=
  if invokers = none ∨ len invokers = 0 then (.returned (some []), w)
  else if w.router.enabled = false then (.returned invokers, w)
  else
    (routed (runScript env w w.router.scriptType w.router.rawScript invokers invocation).1,
      (runScript env w w.router.scriptType w.router.rawScript invokers invocation).2)

/-! ## Vocabulary of the statements on the script router -/

/-- A script instance operation: a `Compile` call with its arguments, or a `Destroy` call. -/
inductive InstanceOp where
  | Compile (key rawScript : String)
  | Destroy
deriving DecidableEq, Repr

/-- The instance after one operation. -/
def InstanceOp.apply (env : Env) (i : jsInstances) : InstanceOp → jsInstances
  | .Compile key rawScript => (i.Compile env key rawScript).2
  | .Destroy => i.Destroy

/-- The instance made by `newJsInstances` after the operations `ops`, first to last. -/
def afterOps (env : Env) (ops : List InstanceOp) : jsInstances :=
  ops.foldl (InstanceOp.apply env) newJsInstances

/-- The operation is a `Compile` call that returns no error. -/
def SuccessfulCompile (env : Env) (op : InstanceOp) : Prop :=
  ∃ key rawScript, op = .Compile key rawScript ∧
    (newJsInstances.Compile env key rawScript).1 = none

/-- In the history `ops` the instance has never had a successful `Compile`, or `Destroy` was
called after the last successful `Compile`. -/
def NoProgramStored (env : Env) (ops : List InstanceOp) : Prop :=
  (∀ op ∈ ops, ¬ SuccessfulCompile env op) ∨
    ∃ before after, ops = before ++ InstanceOp.Destroy :: after ∧
      ∀ op ∈ after, ¬ SuccessfulCompile env op

/-- The configuration is valid: type, script and key are set and the key is the
application name. -/
def ValidConfig (env : Env) (cfg : RouterConfig) : Prop :=
  cfg.ScriptType ≠ "" ∧ cfg.Script ≠ "" ∧ cfg.Key ≠ "" ∧ cfg.Key = env.ApplicationName

/-! ## Sample data of the script router -/

/-- A valid document that enables the script `invokers.slice(0, 1)`. -/
def keepFirstDocument : String :=
  "type: javascript\nkey: demo-app\nenabled: true\nscript: invokers.slice(0, 1)"

/-- A valid document with the enabled flag set to false. -/
def disabledDocument : String :=
  "type: javascript\nkey: demo-app\nenabled: false\nscript: invokers.slice(0, 1)"

/-- A valid document that has no `enabled` field. -/
def noEnabledDocument : String :=
  "type: javascript\nkey: demo-app\nscript: invokers.slice(0, 1)"

/-- A valid document whose script throws when it runs. -/
def throwingDocument : String :=
  "type: javascript\nkey: demo-app\nenabled: true\nscript: undefinedFunction()"

/-- A valid document of a script type for which no instance is registered. -/
def luaDocument : String :=
  "type: lua\nkey: demo-app\nenabled: true\nscript: return invokers"

/-- The same with the enabled flag set to false. -/
def luaDisabledDocument : String :=
  "type: lua\nkey: demo-app\nenabled: false\nscript: return invokers"

/-- A document whose key is another application. -/
def otherKeyDocument : String :=
  "type: javascript\nkey: other-app\nenabled: true\nscript: invokers.slice(0, 1)"

/-- A document that has no `type` field. -/
def noTypeDocument : String :=
  "key: demo-app\nenabled: true\nscript: invokers.slice(0, 1)"

/-- The configuration documents the sample decoder knows, with what they decode to. -/
def sampleDocuments : List (String × RouterConfig) :=
  [(keepFirstDocument,
      ⟨"javascript", "invokers.slice(0, 1)", "demo-app", some true⟩),
    (disabledDocument,
      ⟨"javascript", "invokers.slice(0, 1)", "demo-app", some false⟩),
    (noEnabledDocument,
      ⟨"javascript", "invokers.slice(0, 1)", "demo-app", none⟩),
    (throwingDocument,
      ⟨"javascript", "undefinedFunction()", "demo-app", some true⟩),
    (luaDocument,
      ⟨"lua", "return invokers", "demo-app", some true⟩),
    (luaDisabledDocument,
      ⟨"lua", "return invokers", "demo-app", some false⟩),
    (otherKeyDocument,
      ⟨"javascript", "invokers.slice(0, 1)", "other-app", some true⟩),
    (noTypeDocument,
      ⟨"", "invokers.slice(0, 1)", "demo-app", some true⟩)]

/-- A decoder that knows `sampleDocuments`; like the YAML decoder it reports the end of the
input when the text is empty. -/
def sampleDecode (content : String) : Except Err RouterConfig :=
  match mapGet sampleDocuments content with
  | some cfg => .ok cfg
  | none => if content = "" then .error "EOF" else .error "yaml: unmarshal errors"

/-- A script engine that answers as the engine of the source does: a program that runs to its
end hands back a value of the engine (a `goja.Value`), which is no `[]interface{}`;
`undefinedFunction()` throws when it is run; `invokers.slice(` does not compile. -/
def sampleEnv : Env where
  ApplicationName := "demo-app"
  Decode := sampleDecode
  Compile := fun name src _ =>
    if src = js_script_perfix ++ "invokers.slice(" then .error "SyntaxError: Unexpected token"
    else .ok ⟨name, src⟩
  Set := fun _ _ => none
  RunProgram := fun pg _ _ =>
    if pg.src = js_script_perfix ++ "undefinedFunction()" then
      .error "ReferenceError: undefinedFunction is not defined"
    else .ok .other

/-- A new router of application `demo-app`, with the JavaScript instance registered. -/
def startWorld : World where
  router := NewScriptRouter sampleEnv
  instances := [("javascript", newJsInstances)]
  calls := []

/-- An add event that carries the document `content`. -/
def addEvent (content : String) : ConfigChangeEvent :=
  ⟨"demo-app.script-router", .str content, .EventTypeAdd⟩

/-- An update event that carries the document `content`. -/
def updateEvent (content : String) : ConfigChangeEvent :=
  ⟨"demo-app.script-router", .str content, .EventTypeUpdate⟩

/-- A delete event that carries the text `content`. -/
def deleteEvent (content : String) : ConfigChangeEvent :=
  ⟨"demo-app.script-router", .str content, .EventTypeDel⟩

/-- The world after the router has processed the add event of the script
`invokers.slice(0, 1)`: the router is enabled and the program is stored. -/
def enabledWorld : World :=
  (Process sampleEnv startWorld (addEvent keepFirstDocument)).world

/-- The world after the router has processed the add event of the script that throws. -/
def throwingWorld : World :=
  (Process sampleEnv startWorld (addEvent throwingDocument)).world

/-- The world after the router has processed the add event of a script type without a
registered instance: the call has assigned the fields of the router before it panicked. -/
def unregisteredWorld : World :=
  (Process sampleEnv startWorld (addEvent luaDocument)).world

/-- Three invokers. -/
def threeInvokers : Option (List Invoker) := some [⟨1⟩, ⟨2⟩, ⟨3⟩]

/-- An invocation of method `sayHello`. -/
def sayHello : Invocation := ⟨"sayHello"⟩

end RouterScript

namespace RegistryEvent

/-! ## Lemmas on maps -/

section maps
variable {κ ν : Type} [DecidableEq κ]

theorem mapGet_mapDel_ne (m : List (κ × ν)) (k k' : κ) (h : k' ≠ k) :
    mapGet (mapDel m k) k' = mapGet m k' := by
  induction m with
  | nil => rfl
  | cons p rest ih =>
    obtain ⟨a, b⟩ := p
    by_cases hak : a = k
    · have hne : ¬ a = k' := fun h' => h (h'.symm.trans hak)
      simp only [mapDel, mapGet, hak, hne, if_true, if_false, ih]
      rw [← hak]; simp [hne]
    · by_cases hak' : a = k'
      · simp only [mapDel, mapGet, hak, hak', if_true, if_false]
        rw [← hak']; simp [hak, mapGet]
      · simp [mapDel, mapGet, hak, hak', ih]

theorem mapGet_mapSet_same (m : List (κ × ν)) (k : κ) (v : ν) :
    mapGet (mapSet m k v) k = some v := by
  simp [mapSet, mapGet]

theorem mapGet_mapSet_ne (m : List (κ × ν)) (k k' : κ) (v : ν) (h : k' ≠ k) :
    mapGet (mapSet m k v) k' = mapGet m k' := by
  have hne : ¬ k = k' := fun h' => h h'.symm
  simp only [mapSet, mapGet, hne, if_false]
  exact mapGet_mapDel_ne m k k' h

theorem mapGet_mapSet (m : List (κ × ν)) (k k' : κ) (v : ν) :
    mapGet (mapSet m k v) k' = if k' = k then some v else mapGet m k' := by
  by_cases h : k' = k
  · subst h; simp [mapGet_mapSet_same]
  · simp [h, mapGet_mapSet_ne m k k' v h]

theorem mem_of_mapGet {m : List (κ × ν)} {k : κ} {v : ν} (h : mapGet m k = some v) :
    (k, v) ∈ m := by
  induction m with
  | nil => simp [mapGet] at h
  | cons p rest ih =>
    obtain ⟨a, b⟩ := p
    by_cases hak : a = k
    · subst hak
      simp [mapGet] at h
      subst h
      exact List.mem_cons_self _ _
    · simp [mapGet, hak] at h
      exact List.mem_cons_of_mem _ (ih h)

theorem mapGet_isSome_of_mem {m : List (κ × ν)} {k : κ} {v : ν} (h : (k, v) ∈ m) :
    ∃ v', mapGet m k = some v' := by
  induction m with
  | nil => cases h
  | cons p rest ih =>
    obtain ⟨a, b⟩ := p
    by_cases hak : a = k
    · exact ⟨b, by simp [mapGet, hak]⟩
    · rcases List.mem_cons.1 h with h1 | h1
      · exact absurd (congrArg Prod.fst h1).symm hak
      · obtain ⟨v', hv⟩ := ih h1
        exact ⟨v', by simp [mapGet, hak, hv]⟩

theorem mem_mapDel {m : List (κ × ν)} {k : κ} {p : κ × ν} (h : p ∈ mapDel m k) :
    p ∈ m ∧ p.1 ≠ k := by
  induction m with
  | nil => cases h
  | cons q rest ih =>
    obtain ⟨a, b⟩ := q
    by_cases hak : a = k
    · simp [mapDel, hak] at h
      exact ⟨List.mem_cons_of_mem _ (ih h).1, (ih h).2⟩
    · simp only [mapDel, hak, if_false] at h
      rcases List.mem_cons.1 h with h1 | h1
      · subst h1; exact ⟨List.mem_cons_self _ _, hak⟩
      · exact ⟨List.mem_cons_of_mem _ (ih h1).1, (ih h1).2⟩

theorem mem_mapSet {m : List (κ × ν)} {k : κ} {v : ν} {p : κ × ν} (h : p ∈ mapSet m k v) :
    p = (k, v) ∨ (p ∈ m ∧ p.1 ≠ k) := by
  rcases List.mem_cons.1 h with h1 | h1
  · exact Or.inl h1
  · exact Or.inr (mem_mapDel h1)

end maps


/-! ## The ways of the loop body, and what the loops never assign -/

theorem instanceBody_step (env : Env) (ord : RangeOrder) (st : Pass) (inst : ServiceInstance) :
    InstanceStep env ord st inst (instanceBody env ord st inst) := by
  unfold instanceBody
  split
  · next h => exact .skipNil h
  · next md h =>
    have hm : inst.Metadata ≠ none := by rw [h]; simp
    split
    · next h0 => exact .skipZero h0.symm
    · next h0 =>
      have hr : revisionOf inst ≠ "0" := fun h' => h0 h'.symm
      split
      · next M hc => exact .hit hm hr M (show mapGet st.world.lstn.revisionToMetadata _ = _ from hc)
      · next hc =>
        split
        · next err hg => exact .failed hm hr (show mapGet st.world.lstn.revisionToMetadata _ = _ from hc) err hg
        · next hg => exact .nilResult hm hr (show mapGet st.world.lstn.revisionToMetadata _ = _ from hc) hg
        · next M hg => exact .resolved hm hr (show mapGet st.world.lstn.revisionToMetadata _ = _ from hc) M hg

theorem addRevision_world (revision : String) (st : Pass) (service : ServiceInfo) :
    (addRevision revision st service).world = st.world := by
  unfold addRevision
  split <;> rfl

theorem foldl_addRevision_world (revision : String) (services : List ServiceInfo) (st : Pass) :
    (services.foldl (addRevision revision) st).world = st.world := by
  induction services generalizing st with
  | nil => rfl
  | cons s rest ih => simp [List.foldl, ih, addRevision_world]

theorem rangeServices_world (revision : String) (services : List ServiceInfo) (st : Pass) :
    (rangeServices revision services st).world = st.world := by
  unfold rangeServices
  rw [foldl_addRevision_world]

theorem framed_refl (w : World) : Framed w w := ⟨rfl, rfl, rfl⟩

theorem framed_trans {a b c : World} (h1 : Framed a b) (h2 : Framed b c) : Framed a c :=
  ⟨h2.1.trans h1.1, h2.2.1.trans h1.2.1, h2.2.2.trans h1.2.2⟩

theorem recordMetadata_framed (ord : RangeOrder) (st : Pass) (inst : ServiceInstance)
    (revision : String) (metadataInfo : MetadataInfo) :
    Framed st.world (recordMetadata ord st inst revision metadataInfo).world := by
  refine ⟨?_, ?_, ?_⟩ <;> simp [recordMetadata, storeRevision, rangeServices_world, SetServiceMetadata]

theorem instanceBody_framed (env : Env) (ord : RangeOrder) (st : Pass) (inst : ServiceInstance) :
    Framed st.world (instanceBody env ord st inst).pass.world := by
  have h := instanceBody_step env ord st inst
  generalize instanceBody env ord st inst = fl at h
  cases h with
  | skipNil h => exact framed_refl _
  | skipZero h => exact framed_refl _
  | hit hm hr M hc => exact recordMetadata_framed ord _ inst _ M
  | failed hm hr hc err hg => exact ⟨rfl, rfl, rfl⟩
  | nilResult hm hr hc hg => exact ⟨rfl, rfl, rfl⟩
  | resolved hm hr hc M hg => exact recordMetadata_framed ord _ inst _ M

theorem rangeInstances_framed (env : Env) (ord : RangeOrder) (instances : List ServiceInstance)
    (st : Pass) : Framed st.world (rangeInstances env ord instances st).pass.world := by
  induction instances generalizing st with
  | nil => exact framed_refl _
  | cons inst rest ih =>
    have h := instanceBody_framed env ord st inst
    unfold rangeInstances
    cases hb : instanceBody env ord st inst with
    | next st1 => rw [hb] at h; exact framed_trans h (ih st1)
    | ret err st1 => rw [hb] at h; exact h
    | panic st1 => rw [hb] at h; exact h

theorem serviceBody_world (env : Env) (ord : RangeOrder) (st : Pass)
    (entry : ServiceInfo × (Nat × List String)) : (serviceBody env ord st entry).world = st.world := by
  unfold serviceBody
  split <;> rfl

theorem rangeLocalServices_world (env : Env) (ord : RangeOrder)
    (entries : List (ServiceInfo × (Nat × List String))) (st : Pass) :
    (rangeLocalServices env ord entries st).world = st.world := by
  unfold rangeLocalServices
  have key : ∀ (l : List (ServiceInfo × (Nat × List String))) (s0 : Pass),
      (l.foldl (serviceBody env ord) s0).world = s0.world := by
    intro l
    induction l with
    | nil => intro s0; rfl
    | cons e rest ih => intro s0; simp only [List.foldl]; rw [ih, serviceBody_world]
  rw [key]

theorem notifyListeners_lstn (w : World) (entries : List (String × NotifyListener)) :
    (notifyListeners w entries).lstn = w.lstn := by
  unfold notifyListeners
  induction entries generalizing w with
  | nil => rfl
  | cons s rest ih => simp only [List.foldl]; rw [ih]; rfl


theorem publish_framed (env : Env) (ord : RangeOrder) (st : Pass) :
    Framed st.world (publish env ord st).world := by
  refine ⟨?_, ?_, ?_⟩ <;>
    simp [publish, fanOut, publishServiceURLs, publishRevisions, notifyListeners_lstn,
      rangeLocalServices_world]

theorem rangeAllInstances_framed (env : Env) (ord : RangeOrder)
    (entries : List (String × List ServiceInstance)) (st : Pass) :
    Framed st.world (rangeAllInstances env ord entries st).world := by
  induction entries generalizing st with
  | nil => exact framed_refl _
  | cons entry rest ih =>
    have h := rangeInstances_framed env ord entry.2 st
    unfold rangeAllInstances
    cases hb : rangeInstances env ord entry.2 st with
    | next st1 =>
      rw [hb] at h
      exact framed_trans h (framed_trans (publish_framed env ord st1) (ih _))
    | ret err st1 => rw [hb] at h; exact h
    | panic st1 => rw [hb] at h; exact h

theorem OnEvent_allInstances (env : Env) (ord : RangeOrder) (w : World) (ServiceName : String)
    (Instances : List ServiceInstance) :
    (OnEvent env ord w (.ServiceInstancesChangedEvent ServiceName Instances)).world.lstn.allInstances
      = mapSet w.lstn.allInstances ServiceName Instances := by
  simp only [OnEvent]
  exact (rangeAllInstances_framed env ord _ _).1

/-! ## C4: the instance table -/

/-- C4 (full replace): whatever way `OnEvent` ends on a `ServiceInstancesChangedEvent`,
`allInstances[ServiceName]` is exactly the list of the event, the list stored under every
other service name is the one stored before, and after a second event for the same name
only the second list is stored. -/
theorem onEvent_full_replace (env : Env) (ord ord2 : RangeOrder) (w : World) (ServiceName : String)
    (Instances Instances2 : List ServiceInstance) :
    (mapGet (OnEvent env ord w (.ServiceInstancesChangedEvent ServiceName Instances)).world.lstn.allInstances
        ServiceName = some Instances) ∧
    (∀ other : String, other ≠ ServiceName →
      mapGet (OnEvent env ord w (.ServiceInstancesChangedEvent ServiceName Instances)).world.lstn.allInstances
        other = mapGet w.lstn.allInstances other) ∧
    (mapGet (OnEvent env ord2
        (OnEvent env ord w (.ServiceInstancesChangedEvent ServiceName Instances)).world
        (.ServiceInstancesChangedEvent ServiceName Instances2)).world.lstn.allInstances
        ServiceName = some Instances2) := by
  refine ⟨?_, ?_, ?_⟩
  · rw [OnEvent_allInstances]; exact mapGet_mapSet_same _ _ _
  · intro other h
    rw [OnEvent_allInstances]; exact mapGet_mapSet_ne _ _ _ _ h
  · rw [OnEvent_allInstances]; exact mapGet_mapSet_same _ _ _

/-! ## C5 and C6: registration and fan-out -/

theorem notifyListeners_eq (w : World) (entries : List (String × NotifyListener)) :
    notifyListeners w entries =
      { w with notified := w.notified ++ notesFor w.lstn.serviceUrls entries } := by
  unfold notifyListeners
  induction entries generalizing w with
  | nil => simp [notesFor]
  | cons e rest ih =>
    simp only [List.foldl]
    rw [ih]
    simp [notifyAll, notesFor, List.append_assoc]

theorem mem_notesFor {serviceUrls : List (String × List URL)}
    {entries : List (String × NotifyListener)} {n : String × NotifyListener × ServiceEvent}
    (h : n ∈ notesFor serviceUrls entries) :
    n.2.2.Action = EventType.EventTypeAdd ∧ (n.1, n.2.1) ∈ entries ∧
      ∃ urls, mapGet serviceUrls n.1 = some urls ∧ n.2.2.Service ∈ urls := by
  induction entries with
  | nil => cases h
  | cons e rest ih =>
    simp only [notesFor, List.mem_append, List.mem_map] at h
    rcases h with ⟨u, hu, rfl⟩ | h
    · refine ⟨rfl, List.mem_cons_self _ _, ?_⟩
      cases hg : mapGet serviceUrls e.1 with
      | none => rw [hg] at hu; cases hu
      | some urls => rw [hg] at hu; exact ⟨urls, rfl, hu⟩
    · obtain ⟨h1, h2, h3⟩ := ih h
      exact ⟨h1, List.mem_cons_of_mem _ h2, h3⟩

theorem notesFor_complete {serviceUrls : List (String × List URL)}
    {entries : List (String × NotifyListener)} {key : String} {l : NotifyListener}
    {urls : List URL} {u : URL} (he : (key, l) ∈ entries)
    (hg : mapGet serviceUrls key = some urls) (hu : u ∈ urls) :
    (key, l, ServiceEvent.mk EventType.EventTypeAdd u) ∈ notesFor serviceUrls entries := by
  induction entries with
  | nil => cases he
  | cons e rest ih =>
    simp only [notesFor, List.mem_append, List.mem_map]
    rcases List.mem_cons.1 he with h | h
    · left
      subst h
      exact ⟨u, by simp [hg, hu], rfl⟩
    · exact Or.inr (ih h)

/-- C5 (late join): `AddListenerAndNotify` stores the listener under the key, overwriting
any previous one and leaving the other keys alone, and appends to the notification log
exactly one add-notification per URL of the current `serviceUrls[key]`, in list order (none
when the key has no URLs); `serviceUrls`, `allInstances`, the revision cache, the
`ServiceMetadata` of the instances and the resolver log are unchanged. -/
theorem addListenerAndNotify_late_join (w : World) (key : String) (l : NotifyListener) :
    mapGet (AddListenerAndNotify w key l).lstn.listeners key = some l ∧
    (∀ other : String, other ≠ key →
      mapGet (AddListenerAndNotify w key l).lstn.listeners other = mapGet w.lstn.listeners other) ∧
    (AddListenerAndNotify w key l).notified =
      w.notified ++ ((mapGet w.lstn.serviceUrls key).getD []).map
        (fun url => (key, l, ServiceEvent.mk EventType.EventTypeAdd url)) ∧
    ((mapGet w.lstn.serviceUrls key).getD [] = [] →
      (AddListenerAndNotify w key l).notified = w.notified) ∧
    (AddListenerAndNotify w key l).lstn.serviceUrls = w.lstn.serviceUrls ∧
    (AddListenerAndNotify w key l).lstn.allInstances = w.lstn.allInstances ∧
    (AddListenerAndNotify w key l).lstn.revisionToMetadata = w.lstn.revisionToMetadata ∧
    (AddListenerAndNotify w key l).serviceMetadata = w.serviceMetadata ∧
    (AddListenerAndNotify w key l).resolverCalls = w.resolverCalls := by
  refine ⟨?_, ?_, ?_, ?_, rfl, rfl, rfl, rfl, rfl⟩
  · exact mapGet_mapSet_same _ _ _
  · intro other h
    exact mapGet_mapSet_ne _ _ _ _ h
  · rfl
  · intro h
    show w.notified ++ ((mapGet w.lstn.serviceUrls key).getD []).map _ = w.notified
    rw [h]; simp

theorem quiet_refl (st : Pass) : Quiet st st := ⟨rfl, rfl, rfl, rfl⟩

theorem quiet_trans {a b c : Pass} (h1 : Quiet a b) (h2 : Quiet b c) : Quiet a c :=
  ⟨h2.1.trans h1.1, h2.2.1.trans h1.2.1, h2.2.2.1.trans h1.2.2.1, h2.2.2.2.trans h1.2.2.2⟩

theorem addRevision_quiet (revision : String) (st : Pass) (service : ServiceInfo) :
    Quiet st (addRevision revision st service) := by
  unfold addRevision
  split <;> exact ⟨rfl, rfl, rfl, rfl⟩

theorem rangeServices_quiet (revision : String) (services : List ServiceInfo) (st : Pass) :
    Quiet st (rangeServices revision services st) := by
  have key : ∀ (l : List ServiceInfo) (s0 : Pass), Quiet s0 (l.foldl (addRevision revision) s0) := by
    intro l
    induction l with
    | nil => intro s0; exact quiet_refl _
    | cons e rest ih =>
      intro s0
      exact quiet_trans (addRevision_quiet revision s0 e) (ih _)
  exact quiet_trans (b := { st with tick := st.tick + 1 }) ⟨rfl, rfl, rfl, rfl⟩ (key _ _)

theorem recordMetadata_quiet (ord : RangeOrder) (st : Pass) (inst : ServiceInstance)
    (revision : String) (metadataInfo : MetadataInfo) :
    Quiet st (recordMetadata ord st inst revision metadataInfo) := by
  unfold recordMetadata
  refine quiet_trans (b := SetServiceMetadata st inst (some metadataInfo)) ⟨rfl, rfl, rfl, rfl⟩ ?_
  exact quiet_trans (rangeServices_quiet _ _ _) ⟨rfl, rfl, rfl, rfl⟩

theorem instanceBody_quiet (env : Env) (ord : RangeOrder) (st : Pass) (inst : ServiceInstance) :
    Quiet st (instanceBody env ord st inst).pass := by
  have h := instanceBody_step env ord st inst
  generalize instanceBody env ord st inst = fl at h
  cases h with
  | skipNil h => exact quiet_refl _
  | skipZero h => exact quiet_refl _
  | hit hm hr M hc =>
    exact quiet_trans (b := fileInstance st inst (revisionOf inst)) ⟨rfl, rfl, rfl, rfl⟩
      (recordMetadata_quiet ord _ inst _ M)
  | failed hm hr hc err hg => exact ⟨rfl, rfl, rfl, rfl⟩
  | nilResult hm hr hc hg => exact ⟨rfl, rfl, rfl, rfl⟩
  | resolved hm hr hc M hg =>
    exact quiet_trans
      (b := logResolverCall (fileInstance st inst (revisionOf inst)) inst (revisionOf inst))
      ⟨rfl, rfl, rfl, rfl⟩ (recordMetadata_quiet ord _ inst _ M)

theorem rangeInstances_quiet (env : Env) (ord : RangeOrder) (instances : List ServiceInstance)
    (st : Pass) : Quiet st (rangeInstances env ord instances st).pass := by
  induction instances generalizing st with
  | nil => exact quiet_refl _
  | cons inst rest ih =>
    have h := instanceBody_quiet env ord st inst
    unfold rangeInstances
    cases hb : instanceBody env ord st inst with
    | next st1 => rw [hb] at h; exact quiet_trans h (ih st1)
    | ret err st1 => rw [hb] at h; exact h
    | panic st1 => rw [hb] at h; exact h

theorem serviceBody_keys (env : Env) (ord : RangeOrder) (st : Pass)
    (entry : ServiceInfo × (Nat × List String)) (key : String)
    (h : mapGet st.newServiceURLs key ≠ none) :
    mapGet (serviceBody env ord st entry).newServiceURLs key ≠ none := by
  unfold serviceBody
  split <;>
  · simp only [assignServiceURLs, buildServiceURLs, mapGet_mapSet]
    split
    · simp
    · exact h

theorem rangeLocalServices_keys (env : Env) (ord : RangeOrder)
    (entries : List (ServiceInfo × (Nat × List String))) (st : Pass) (key : String)
    (h : mapGet st.newServiceURLs key ≠ none) :
    mapGet (rangeLocalServices env ord entries st).newServiceURLs key ≠ none := by
  have gen : ∀ (l : List (ServiceInfo × (Nat × List String))) (s0 : Pass),
      mapGet s0.newServiceURLs key ≠ none →
      mapGet (l.foldl (serviceBody env ord) s0).newServiceURLs key ≠ none := by
    intro l
    induction l with
    | nil => intro s0 h0; exact h0
    | cons e rest ih => intro s0 h0; exact ih _ (serviceBody_keys env ord s0 e key h0)
  exact gen _ _ h

/-- What one run of lines 105-140 does to the notification log and to `serviceUrls`. -/
theorem publish_notified (env : Env) (ord : RangeOrder) (st : Pass) :
    (publish env ord st).world.lstn.serviceUrls = (publish env ord st).newServiceURLs ∧
    (∃ ls : List (String × NotifyListener), ls.Perm st.world.lstn.listeners ∧
      (publish env ord st).world.notified =
        st.world.notified ++ notesFor (publish env ord st).newServiceURLs ls) ∧
    (∀ key, mapGet st.newServiceURLs key ≠ none →
      mapGet (publish env ord st).newServiceURLs key ≠ none) := by
  refine ⟨?_, ?_, ?_⟩
  · simp [publish, fanOut, publishServiceURLs, notifyListeners_lstn]
  · refine ⟨ord.pick (publishServiceURLs (rangeLocalServices env ord
        (ord.pick (publishRevisions st).tick (publishRevisions st).localServiceToRevisions)
        (publishRevisions st))).tick st.world.lstn.listeners, ord.perm _ _, ?_⟩
    simp only [publish, fanOut, notifyListeners_eq]
    simp [publishServiceURLs, publishRevisions, rangeLocalServices_world]
  · intro key h
    simp only [publish, fanOut, publishServiceURLs]
    exact rangeLocalServices_keys env ord _ _ key h

theorem rangeAllInstances_fanOut (env : Env) (ord : RangeOrder)
    (entries : List (String × List ServiceInstance)) (st : Pass)
    (hok : (rangeAllInstances env ord entries st).outcome = .returned none) :
    ∃ sent : List (String × NotifyListener × ServiceEvent),
      (rangeAllInstances env ord entries st).world.notified = st.world.notified ++ sent ∧
      (st.world.lstn.serviceUrls = st.newServiceURLs →
        ∀ key, mapGet st.newServiceURLs key ≠ none →
          mapGet (rangeAllInstances env ord entries st).world.lstn.serviceUrls key ≠ none) ∧
      (∀ n ∈ sent, n.2.2.Action = EventType.EventTypeAdd ∧ (n.1, n.2.1) ∈ st.world.lstn.listeners ∧
        mapGet (rangeAllInstances env ord entries st).world.lstn.serviceUrls n.1 ≠ none) ∧
      (entries ≠ [] → ∀ key l urls u, (key, l) ∈ st.world.lstn.listeners →
        mapGet (rangeAllInstances env ord entries st).world.lstn.serviceUrls key = some urls →
        u ∈ urls → addNote key l u ∈ sent) := by
  induction entries generalizing st with
  | nil =>
    refine ⟨[], by simp [rangeAllInstances], ?_, ?_, ?_⟩
    · intro hs key hk
      simp only [rangeAllInstances]
      rw [hs]; exact hk
    · intro n hn; cases hn
    · intro h; exact absurd rfl h
  | cons entry rest ih =>
    have hq := rangeInstances_quiet env ord entry.2 st
    have hf := rangeInstances_framed env ord entry.2 st
    unfold rangeAllInstances at hok ⊢
    cases hb : rangeInstances env ord entry.2 st with
    | ret err st1 => rw [hb] at hok; simp at hok
    | panic st1 => rw [hb] at hok; simp at hok
    | next st1 =>
      rw [hb] at hok hq hf
      simp only at hok ⊢
      simp only [Flow.pass] at hq hf
      obtain ⟨hsync, ⟨ls, hperm, hnote⟩, hkeys⟩ := publish_notified env ord st1
      have hpf := publish_framed env ord st1
      obtain ⟨sent2, h1, h2, h3, h4⟩ := ih (publish env ord st1) hok
      have hlist : (publish env ord st1).world.lstn.listeners = st.world.lstn.listeners :=
        hpf.2.1.trans hf.2.1
      refine ⟨notesFor (publish env ord st1).newServiceURLs ls ++ sent2, ?_, ?_, ?_, ?_⟩
      · rw [h1, hnote, hq.1, List.append_assoc]
      · intro _ key hk
        refine h2 hsync key (hkeys key ?_)
        rw [hq.2.2.1]; exact hk
      · intro n hn
        rcases List.mem_append.1 hn with hn | hn
        · obtain ⟨ha, hmem, urls, hg, _⟩ := mem_notesFor hn
          refine ⟨ha, ?_, ?_⟩
          · rw [← hf.2.1]; exact hperm.mem_iff.1 hmem
          · exact h2 hsync n.1 (by rw [hg]; simp)
        · obtain ⟨ha, hmem, hg⟩ := h3 n hn
          exact ⟨ha, by rw [← hlist]; exact hmem, hg⟩
      · intro _ key l urls u hl hg hu
        by_cases hrest : rest = []
        · subst hrest
          simp only [rangeAllInstances] at hg ⊢
          refine List.mem_append_left _ ?_
          rw [hsync] at hg
          refine notesFor_complete (hperm.mem_iff.2 ?_) hg hu
          rw [hf.2.1]; exact hl
        · exact List.mem_append_right _ (h4 hrest key l urls u (by rw [hlist]; exact hl) hg hu)

theorem pick_ne_nil (ord : RangeOrder) (tick : Nat) {α : Type} (l : List α) (h : l ≠ []) :
    ord.pick tick l ≠ [] := by
  intro hp
  have := (ord.perm tick l).length_eq
  rw [hp] at this
  exact h (List.length_eq_zero.1 this.symm)

/-- C6 (fan-out after rebuild): when `OnEvent` returns no error on a
`ServiceInstancesChangedEvent`, the notifications it sent contain, for every registered
listener and every URL of the final `serviceUrls` entry of its key, the add-notification of
that URL; every notification sent has action add and goes to a registered listener whose
key is present in the final `serviceUrls`; the listener table is unchanged. -/
theorem onEvent_fan_out (env : Env) (ord : RangeOrder) (w : World) (ServiceName : String)
    (Instances : List ServiceInstance)
    (hok : (OnEvent env ord w (.ServiceInstancesChangedEvent ServiceName Instances)).outcome
      = .returned none) :
    ∃ sent : List (String × NotifyListener × ServiceEvent),
      (OnEvent env ord w (.ServiceInstancesChangedEvent ServiceName Instances)).world.notified
        = w.notified ++ sent ∧
      (∀ key l urls u, mapGet w.lstn.listeners key = some l →
        mapGet (OnEvent env ord w (.ServiceInstancesChangedEvent ServiceName Instances)).world.lstn.serviceUrls
          key = some urls →
        u ∈ urls → addNote key l u ∈ sent) ∧
      (∀ n ∈ sent, n.2.2.Action = EventType.EventTypeAdd) ∧
      (∀ n ∈ sent, (n.1, n.2.1) ∈ w.lstn.listeners ∧
        mapGet (OnEvent env ord w (.ServiceInstancesChangedEvent ServiceName Instances)).world.lstn.serviceUrls
          n.1 ≠ none) ∧
      (OnEvent env ord w (.ServiceInstancesChangedEvent ServiceName Instances)).world.lstn.listeners
        = w.lstn.listeners := by
  simp only [OnEvent] at hok ⊢
  obtain ⟨sent, h1, _, h3, h4⟩ := rangeAllInstances_fanOut env ord _ _ hok
  refine ⟨sent, h1, ?_, ?_, ?_, ?_⟩
  · intro key l urls u hl hg hu
    refine h4 (pick_ne_nil ord 0 _ ?_) key l urls u (mem_of_mapGet hl) hg hu
    simp [startPass, mapSet]
  · intro n hn; exact (h3 n hn).1
  · intro n hn; exact ⟨(h3 n hn).2.1, (h3 n hn).2.2⟩
  · exact (rangeAllInstances_framed env ord _ _).2.1

/-! ## Induction principles for the two loops -/

theorem rangeInstances_next_inv (env : Env) (ord : RangeOrder) (P : Pass → Prop)
    (instances : List ServiceInstance)
    (hstep : ∀ inst ∈ instances, ∀ st st1, P st → instanceBody env ord st inst = .next st1 → P st1)
    (st st' : Pass) (hP : P st) (h : rangeInstances env ord instances st = .next st') : P st' := by
  induction instances generalizing st with
  | nil =>
    simp only [rangeInstances] at h
    cases h; exact hP
  | cons inst rest ih =>
    unfold rangeInstances at h
    cases hb : instanceBody env ord st inst with
    | next st1 =>
      rw [hb] at h
      exact ih (fun i hi => hstep i (List.mem_cons_of_mem _ hi)) st1
        (hstep inst (List.mem_cons_self _ _) st st1 hP hb) h
    | ret err st1 => rw [hb] at h; cases h
    | panic st1 => rw [hb] at h; cases h

theorem rangeAllInstances_ok_inv (env : Env) (ord : RangeOrder) (P : Pass → Prop)
    (entries : List (String × List ServiceInstance))
    (hstep : ∀ entry ∈ entries, ∀ st st1, P st → rangeInstances env ord entry.2 st = .next st1 →
      P (publish env ord st1))
    (st : Pass) (hP : P st)
    (hok : (rangeAllInstances env ord entries st).outcome = .returned none) :
    ∃ stf, P stf ∧ (rangeAllInstances env ord entries st).world = stf.world ∧
      (entries = [] → stf = st) ∧ (entries ≠ [] → ∃ st1, stf = publish env ord st1) := by
  induction entries generalizing st with
  | nil => exact ⟨st, hP, rfl, fun _ => rfl, fun h => absurd rfl h⟩
  | cons entry rest ih =>
    unfold rangeAllInstances at hok ⊢
    cases hb : rangeInstances env ord entry.2 st with
    | ret err st1 => rw [hb] at hok; simp at hok
    | panic st1 => rw [hb] at hok; simp at hok
    | next st1 =>
      rw [hb] at hok
      simp only at hok ⊢
      have hP1 := hstep entry (List.mem_cons_self _ _) st st1 hP hb
      obtain ⟨stf, h1, h2, h3, h4⟩ :=
        ih (fun e he => hstep e (List.mem_cons_of_mem _ he)) (publish env ord st1) hP1 hok
      refine ⟨stf, h1, h2, fun h => List.noConfusion h, fun _ => ?_⟩
      by_cases hrest : rest = []
      · exact ⟨st1, h3 hrest⟩
      · exact h4 hrest

/-! ## C7: where the URLs and the resolver calls come from -/

theorem addRevision_revisionToInstances (revision : String) (st : Pass) (service : ServiceInfo) :
    (addRevision revision st service).revisionToInstances = st.revisionToInstances := by
  unfold addRevision
  split <;> rfl

theorem rangeServices_revisionToInstances (revision : String) (services : List ServiceInfo)
    (st : Pass) :
    (rangeServices revision services st).revisionToInstances = st.revisionToInstances := by
  have key : ∀ (l : List ServiceInfo) (s0 : Pass),
      (l.foldl (addRevision revision) s0).revisionToInstances = s0.revisionToInstances := by
    intro l
    induction l with
    | nil => intro s0; rfl
    | cons e rest ih => intro s0; simp only [List.foldl]; rw [ih, addRevision_revisionToInstances]
  unfold rangeServices
  rw [key]

theorem recordMetadata_revisionToInstances (ord : RangeOrder) (st : Pass) (inst : ServiceInstance)
    (revision : String) (metadataInfo : MetadataInfo) :
    (recordMetadata ord st inst revision metadataInfo).revisionToInstances
      = st.revisionToInstances := by
  simp [recordMetadata, storeRevision, rangeServices_revisionToInstances, SetServiceMetadata]

theorem fileInstance_mem {st : Pass} {inst : ServiceInstance} {revision r : String}
    {l : List (Option ServiceInstance)} {i : ServiceInstance}
    (h : (r, l) ∈ (fileInstance st inst revision).revisionToInstances) (hi : some i ∈ l) :
    i = inst ∨ ∃ l0, (r, l0) ∈ st.revisionToInstances ∧ some i ∈ l0 := by
  simp only [fileInstance] at h
  rcases mem_mapSet h with h1 | ⟨h1, _⟩
  · cases h1
    rcases List.mem_append.1 hi with h2 | h2
    · split at h2
      · simp [List.mem_replicate] at h2
      · next l0 hl0 => exact Or.inr ⟨l0, mem_of_mapGet hl0, h2⟩
    · simp at h2
      exact Or.inl h2
  · exact Or.inr ⟨l, h1, hi⟩

theorem prov_of_tables {env : Env} {all : List (String × List ServiceInstance)} {st st' : Pass}
    (h : Prov env all st) (h1 : st'.revisionToInstances = st.revisionToInstances)
    (h2 : st'.protocolRevisionsToUrls = st.protocolRevisionsToUrls)
    (h3 : st'.newServiceURLs = st.newServiceURLs) : Prov env all st' := by
  unfold Prov
  rw [h1, h2, h3]
  exact h

theorem fileInstance_prov {env : Env} {all : List (String × List ServiceInstance)} {st : Pass}
    {inst : ServiceInstance} (h : Prov env all st) (hu : Usable inst) (hs : StoredIn all inst) :
    Prov env all (fileInstance st inst (revisionOf inst)) := by
  refine ⟨?_, h.2.1, h.2.2⟩
  intro r l i hmem hi
  rcases fileInstance_mem hmem hi with h1 | ⟨l0, h1, h2⟩
  · subst h1; exact ⟨hu, hs⟩
  · exact h.1 r l0 i h1 h2

theorem instanceBody_prov (env : Env) (ord : RangeOrder)
    (all : List (String × List ServiceInstance)) (st st' : Pass) (inst : ServiceInstance)
    (hs : StoredIn all inst) (h : Prov env all st)
    (hb : instanceBody env ord st inst = .next st') : Prov env all st' := by
  have hstep := instanceBody_step env ord st inst
  rw [hb] at hstep
  generalize hfl : Flow.next st' = fl at hstep
  cases hstep with
  | skipNil _ => cases hfl; exact h
  | skipZero _ => cases hfl; exact h
  | hit hm hr M hc =>
    cases hfl
    exact prov_of_tables (fileInstance_prov h ⟨hm, hr⟩ hs)
      (recordMetadata_revisionToInstances _ _ _ _ _)
      (recordMetadata_quiet _ _ _ _ _).2.2.2 (recordMetadata_quiet _ _ _ _ _).2.2.1
  | failed _ _ _ _ _ => cases hfl
  | nilResult _ _ _ _ => cases hfl
  | resolved hm hr hc M hg =>
    cases hfl
    exact prov_of_tables (fileInstance_prov h ⟨hm, hr⟩ hs)
      (recordMetadata_revisionToInstances _ _ _ _ _)
      (recordMetadata_quiet _ _ _ _ _).2.2.2 (recordMetadata_quiet _ _ _ _ _).2.2.1

theorem rangeInstances_prov (env : Env) (ord : RangeOrder)
    (all : List (String × List ServiceInstance)) (instances : List ServiceInstance)
    (hs : ∀ inst ∈ instances, StoredIn all inst) (st st' : Pass) (h : Prov env all st)
    (hb : rangeInstances env ord instances st = .next st') : Prov env all st' :=
  rangeInstances_next_inv env ord (Prov env all) instances
    (fun inst hi s s1 hP hb1 => instanceBody_prov env ord all s s1 inst (hs inst hi) hP hb1)
    st st' h hb

theorem mem_instancesURLs {env : Env} {w : World} {l : List (Option ServiceInstance)} {u : URL}
    (h : u ∈ instancesURLs env w l) :
    ∃ i, some i ∈ l ∧ u ∈ env.ToURLs i (serviceMetadataOf w i) := by
  induction l with
  | nil => cases h
  | cons x rest ih =>
    cases x with
    | none =>
      obtain ⟨i, h1, h2⟩ := ih h
      exact ⟨i, List.mem_cons_of_mem _ h1, h2⟩
    | some j =>
      simp only [instancesURLs, List.mem_append] at h
      rcases h with h | h
      · exact ⟨j, List.mem_cons_self _ _, h⟩
      · obtain ⟨i, h1, h2⟩ := ih h
        exact ⟨i, List.mem_cons_of_mem _ h1, h2⟩

theorem mem_revisionsURLs {env : Env} {st : Pass} {revs : List String} {u : URL}
    (h : u ∈ revisionsURLs env st revs) :
    ∃ r ∈ revs, ∃ l i, mapGet st.revisionToInstances r = some l ∧ some i ∈ l ∧
      u ∈ env.ToURLs i (serviceMetadataOf st.world i) := by
  induction revs with
  | nil => cases h
  | cons r rest ih =>
    simp only [revisionsURLs, List.mem_append] at h
    rcases h with h | h
    · obtain ⟨i, h1, h2⟩ := mem_instancesURLs h
      cases hg : mapGet st.revisionToInstances r with
      | none => rw [hg] at h1; cases h1
      | some l =>
        rw [hg] at h1
        exact ⟨r, List.mem_cons_self _ _, l, i, hg, h1, h2⟩
    · obtain ⟨r', h1, h2⟩ := ih h
      exact ⟨r', List.mem_cons_of_mem _ h1, h2⟩

theorem revisionsURLs_fromUsable {env : Env} {all : List (String × List ServiceInstance)}
    {st : Pass} (h : Prov env all st) (revs : List String) :
    FromUsable env all (revisionsURLs env st revs) := by
  intro u hu
  obtain ⟨r, _, l, i, h1, h2, h3⟩ := mem_revisionsURLs hu
  obtain ⟨ha, hb⟩ := h.1 r l i (mem_of_mapGet h1) h2
  exact ⟨i, _, ha, hb, h3⟩

theorem serviceBody_prov (env : Env) (ord : RangeOrder)
    (all : List (String × List ServiceInstance)) (st : Pass)
    (entry : ServiceInfo × (Nat × List String)) (h : Prov env all st) :
    Prov env all (serviceBody env ord st entry) := by
  unfold serviceBody
  split
  · next urls hg =>
    have hu : FromUsable env all urls := by
      unfold revisionsToUrlsOf at hg
      cases hp : mapGet st.protocolRevisionsToUrls entry.1.Protocol with
      | none => rw [hp] at hg; simp [mapGet] at hg
      | some m =>
        rw [hp] at hg
        exact h.2.1 _ m _ urls (mem_of_mapGet hp) (mem_of_mapGet hg)
    refine ⟨h.1, h.2.1, ?_⟩
    intro k urls' hk
    rcases mem_mapSet hk with h1 | ⟨h1, _⟩
    · cases h1; exact hu
    · exact h.2.2 k urls' h1
  · next hg =>
    have hu := revisionsURLs_fromUsable h (ord.pick st.tick entry.2.2)
    refine ⟨h.1, ?_, ?_⟩
    · intro proto m ptr urls hm hp
      rcases mem_mapSet hm with h1 | ⟨h1, _⟩
      · cases h1
        rcases mem_mapSet hp with h2 | ⟨h2, _⟩
        · cases h2; exact hu
        · unfold revisionsToUrlsOf at h2
          cases hq : mapGet st.protocolRevisionsToUrls entry.1.Protocol with
          | none => rw [hq] at h2; cases h2
          | some m0 =>
            rw [hq] at h2
            exact h.2.1 _ m0 _ urls (mem_of_mapGet hq) h2
      · exact h.2.1 proto m ptr urls h1 hp
    · intro k urls' hk
      rcases mem_mapSet hk with h1 | ⟨h1, _⟩
      · cases h1; exact hu
      · exact h.2.2 k urls' h1

theorem publish_prov (env : Env) (ord : RangeOrder)
    (all : List (String × List ServiceInstance)) (st : Pass) (h : Prov env all st) :
    Prov env all (publish env ord st) := by
  have key : ∀ (l : List (ServiceInfo × (Nat × List String))) (s0 : Pass),
      Prov env all s0 → Prov env all (l.foldl (serviceBody env ord) s0) := by
    intro l
    induction l with
    | nil => intro s0 h0; exact h0
    | cons e rest ih => intro s0 h0; exact ih _ (serviceBody_prov env ord all s0 e h0)
  exact key _ _ h

theorem callsExtend_refl (w : World) : CallsExtend w w := ⟨[], by simp, by simp⟩

theorem callsExtend_trans {a b c : World} (h1 : CallsExtend a b) (h2 : CallsExtend b c) :
    CallsExtend a c := by
  obtain ⟨l1, e1, p1⟩ := h1
  obtain ⟨l2, e2, p2⟩ := h2
  refine ⟨l1 ++ l2, by rw [e2, e1, List.append_assoc], ?_⟩
  intro x hx
  rcases List.mem_append.1 hx with h | h
  · exact p1 x h
  · exact p2 x h

theorem callsExtend_of_eq {w w' : World} (h : w'.resolverCalls = w.resolverCalls) :
    CallsExtend w w' := ⟨[], by simp [h], by simp⟩

theorem recordMetadata_resolverCalls (ord : RangeOrder) (st : Pass) (inst : ServiceInstance)
    (revision : String) (metadataInfo : MetadataInfo) :
    (recordMetadata ord st inst revision metadataInfo).world.resolverCalls
      = st.world.resolverCalls := by
  simp [recordMetadata, storeRevision, rangeServices_world, SetServiceMetadata]

theorem logResolverCall_calls (st : Pass) (inst : ServiceInstance) (hu : Usable inst) :
    CallsExtend st.world
      (logResolverCall (fileInstance st inst (revisionOf inst)) inst (revisionOf inst)).world := by
  refine ⟨[(inst, revisionOf inst)], rfl, ?_⟩
  intro c hc
  simp at hc
  subst hc
  exact ⟨hu, rfl⟩

theorem instanceBody_calls (env : Env) (ord : RangeOrder) (st : Pass) (inst : ServiceInstance) :
    CallsExtend st.world (instanceBody env ord st inst).pass.world := by
  have h := instanceBody_step env ord st inst
  generalize instanceBody env ord st inst = fl at h
  cases h with
  | skipNil h => exact callsExtend_refl _
  | skipZero h => exact callsExtend_refl _
  | hit hm hr M hc => exact callsExtend_of_eq (recordMetadata_resolverCalls ord _ inst _ M)
  | failed hm hr hc err hg => exact logResolverCall_calls st inst ⟨hm, hr⟩
  | nilResult hm hr hc hg => exact logResolverCall_calls st inst ⟨hm, hr⟩
  | resolved hm hr hc M hg =>
    exact callsExtend_trans (logResolverCall_calls st inst ⟨hm, hr⟩)
      (callsExtend_of_eq (recordMetadata_resolverCalls ord _ inst _ M))

theorem rangeInstances_calls (env : Env) (ord : RangeOrder) (instances : List ServiceInstance)
    (st : Pass) : CallsExtend st.world (rangeInstances env ord instances st).pass.world := by
  induction instances generalizing st with
  | nil => exact callsExtend_refl _
  | cons inst rest ih =>
    have h := instanceBody_calls env ord st inst
    unfold rangeInstances
    cases hb : instanceBody env ord st inst with
    | next st1 => rw [hb] at h; exact callsExtend_trans h (ih st1)
    | ret err st1 => rw [hb] at h; exact h
    | panic st1 => rw [hb] at h; exact h

theorem publish_resolverCalls (env : Env) (ord : RangeOrder) (st : Pass) :
    (publish env ord st).world.resolverCalls = st.world.resolverCalls := by
  simp [publish, fanOut, notifyListeners_eq, publishServiceURLs, publishRevisions,
    rangeLocalServices_world]

theorem rangeAllInstances_calls (env : Env) (ord : RangeOrder)
    (entries : List (String × List ServiceInstance)) (st : Pass) :
    CallsExtend st.world (rangeAllInstances env ord entries st).world := by
  induction entries generalizing st with
  | nil => exact callsExtend_refl _
  | cons entry rest ih =>
    have h := rangeInstances_calls env ord entry.2 st
    unfold rangeAllInstances
    cases hb : rangeInstances env ord entry.2 st with
    | next st1 =>
      rw [hb] at h
      exact callsExtend_trans h
        (callsExtend_trans (callsExtend_of_eq (publish_resolverCalls env ord st1)) (ih _))
    | ret err st1 => rw [hb] at h; exact h
    | panic st1 => rw [hb] at h; exact h

theorem prov_start (env : Env) (w : World) (ServiceName : String)
    (Instances : List ServiceInstance) :
    Prov env (mapSet w.lstn.allInstances ServiceName Instances)
      (startPass w ServiceName Instances) := by
  refine ⟨?_, ?_, ?_⟩ <;> intros <;> simp [startPass] at *

/-- Every URL published by a call of `OnEvent` that returns no error was returned by
`ToURLs` on a usable instance of the instance table. -/
theorem OnEvent_serviceUrls_fromUsable (env : Env) (ord : RangeOrder) (w : World)
    (ServiceName : String) (Instances : List ServiceInstance)
    (hok : (OnEvent env ord w (.ServiceInstancesChangedEvent ServiceName Instances)).outcome
      = .returned none) (k : String) (urls : List URL)
    (hk : mapGet (OnEvent env ord w
      (.ServiceInstancesChangedEvent ServiceName Instances)).world.lstn.serviceUrls k = some urls) :
    FromUsable env (mapSet w.lstn.allInstances ServiceName Instances) urls := by
  simp only [OnEvent] at hok hk
  obtain ⟨stf, hP, hw, _, hpub⟩ :=
    rangeAllInstances_ok_inv env ord (Prov env (mapSet w.lstn.allInstances ServiceName Instances))
      _ (fun entry he st st1 hP hb => by
          refine publish_prov env ord _ st1 (rangeInstances_prov env ord _ entry.2 ?_ st st1 hP hb)
          intro inst hi
          exact ⟨entry, ((ord.perm 0 _).mem_iff).1 he, hi⟩)
      _ (prov_start env w ServiceName Instances) hok
  obtain ⟨st1, rfl⟩ := hpub (pick_ne_nil ord 0 _ (by simp [startPass, mapSet]))
  rw [hw, (publish_notified env ord st1).1] at hk
  exact hP.2.2 k urls (mem_of_mapGet hk)

/-- C7 (exclusion of unusable instances, amended): an instance of the event whose metadata
map is nil or whose revision is the sentinel `"0"` is never passed to the metadata
resolver; when `OnEvent` returns no error, every URL of every `serviceUrls` entry was returned
by `ToURLs` on another, usable instance of the table; and the instance is still stored in
`allInstances[ServiceName]`. -/
theorem onEvent_excludes_unusable (env : Env) (ord : RangeOrder) (w : World)
    (ServiceName : String) (Instances : List ServiceInstance) (inst : ServiceInstance)
    (hmem : inst ∈ Instances) (hun : inst.Metadata = none ∨ revisionOf inst = "0") :
    (∃ calls : List (ServiceInstance × String),
      (OnEvent env ord w (.ServiceInstancesChangedEvent ServiceName Instances)).world.resolverCalls
        = w.resolverCalls ++ calls ∧ ∀ c ∈ calls, c.1 ≠ inst) ∧
    ((OnEvent env ord w (.ServiceInstancesChangedEvent ServiceName Instances)).outcome
        = .returned none →
      ∀ k urls u,
        mapGet (OnEvent env ord w
          (.ServiceInstancesChangedEvent ServiceName Instances)).world.lstn.serviceUrls k
          = some urls →
        u ∈ urls →
        ∃ (i : ServiceInstance) (m : Option MetadataInfo), i ≠ inst ∧ Usable i ∧
          StoredIn (OnEvent env ord w
            (.ServiceInstancesChangedEvent ServiceName Instances)).world.lstn.allInstances i ∧
          u ∈ env.ToURLs i m) ∧
    (∃ l, mapGet (OnEvent env ord w
        (.ServiceInstancesChangedEvent ServiceName Instances)).world.lstn.allInstances ServiceName
        = some l ∧ inst ∈ l) := by
  have hnot : ∀ i, Usable i → i ≠ inst := by
    intro i hi h
    subst h
    rcases hun with h1 | h1
    · exact hi.1 h1
    · exact hi.2 h1
  refine ⟨?_, ?_, ?_⟩
  · obtain ⟨calls, h1, h2⟩ := rangeAllInstances_calls env ord
      (ord.pick 0 (startPass w ServiceName Instances).world.lstn.allInstances)
      (startPass w ServiceName Instances)
    exact ⟨calls, h1, fun c hc => hnot c.1 (h2 c hc).1⟩
  · intro hok k urls u hk hu
    obtain ⟨i, m, h1, h2, h3⟩ :=
      OnEvent_serviceUrls_fromUsable env ord w ServiceName Instances hok k urls hk u hu
    rw [OnEvent_allInstances]
    exact ⟨i, m, hnot i h1, h1, h2, h3⟩
  · rw [OnEvent_allInstances]
    exact ⟨Instances, mapGet_mapSet_same _ _ _, hmem⟩

/-! ## Soundness of the URL lists where the revision determines the metadata -/

theorem sameKeys_refl (m : MetadataInfo) : SameKeys m m := fun _ => Iff.rfl

theorem sameKeys_symm {m m' : MetadataInfo} (h : SameKeys m m') : SameKeys m' m :=
  fun k => (h k).symm

theorem sameKeys_trans {a b c : MetadataInfo} (h1 : SameKeys a b) (h2 : SameKeys b c) :
    SameKeys a c := fun k => (h1 k).trans (h2 k)

theorem grows_refl (st : Pass) : Grows st st :=
  ⟨fun _ l _ h hi => ⟨l, h, hi⟩, fun _ m h => ⟨m, h, sameKeys_refl m⟩⟩

theorem grows_trans {a b c : Pass} (h1 : Grows a b) (h2 : Grows b c) : Grows a c := by
  refine ⟨?_, ?_⟩
  · intro r l i h hi
    obtain ⟨l', h', hi'⟩ := h1.1 r l i h hi
    exact h2.1 r l' i h' hi'
  · intro r m h
    obtain ⟨m1, e1, s1⟩ := h1.2 r m h
    obtain ⟨m2, e2, s2⟩ := h2.2 r m1 e1
    exact ⟨m2, e2, sameKeys_trans s1 s2⟩

theorem goodURLs_mono {env : Env} {st st' : Pass} {k : String} {urls : List URL}
    (h : GoodURLs env st k urls) (hg : Grows st st') : GoodURLs env st' k urls := by
  intro u hu
  obtain ⟨i, l, mu, m, h1, h2, h3, h4, h5, h6⟩ := h u hu
  obtain ⟨l', h1', h2'⟩ := hg.1 _ l i h1 h2
  obtain ⟨m', e, sk⟩ := hg.2 _ m h5
  exact ⟨i, l', mu, m', h1', h2', h3, h4, e, (sk k).1 h6⟩

/-- The metadata about to be recorded for a revision agrees with what is recorded already. -/
theorem origin_agrees {env : Env} {all : List (String × List ServiceInstance)}
    {pending : Option ServiceInstance} {st : Pass} {inst : ServiceInstance} {m m' : MetadataInfo}
    (hrev : RevisionDetermines env all) (hc : Core env all pending st) (hs : StoredIn all inst)
    (hm : Usable inst)
    (ho : Origin env st inst m) (h : mapGet st.newRevisionToMetadata (revisionOf inst) = some m') :
    SameKeys m' m := by
  cases ha : st.aliased with
  | true =>
    have hs := hc.shared ha
    rcases ho with h1 | ⟨h1, _⟩
    · rw [hs, h] at h1; cases h1; exact sameKeys_refl _
    · rw [hs, h] at h1; cases h1
  | false =>
    rcases hc.origin ha _ m' h with h2 | ⟨h2, i, hsi, hi, hr, hg⟩
    · rcases ho with h1 | ⟨h1, _⟩
      · rw [h2] at h1; cases h1; exact sameKeys_refl _
      · rw [h2] at h1; cases h1
    · rcases ho with h1 | ⟨_, h1⟩
      · rw [h2] at h1; cases h1
      · rw [← hr] at hg
        exact hrev i inst hsi hs hi hm hr m' m hg h1

section maps
variable {κ ν : Type} [DecidableEq κ]

theorem mem_mapDel_of {m : List (κ × ν)} {k : κ} {p : κ × ν} (h : p ∈ m) (hne : p.1 ≠ k) :
    p ∈ mapDel m k := by
  induction m with
  | nil => cases h
  | cons q rest ih =>
    obtain ⟨a, b⟩ := q
    rcases List.mem_cons.1 h with h1 | h1
    · subst h1
      have : ¬ a = k := hne
      simp [mapDel, this]
    · by_cases hak : a = k
      · simp only [mapDel, hak, if_true]; exact ih h1
      · simp only [mapDel, hak, if_false]; exact List.mem_cons_of_mem _ (ih h1)

theorem mem_mapSet_of {m : List (κ × ν)} {k : κ} {v : ν} {p : κ × ν} (h : p ∈ m)
    (hne : p.1 ≠ k) : p ∈ mapSet m k v :=
  List.mem_cons_of_mem _ (mem_mapDel_of h hne)

theorem mem_mapSet_self (m : List (κ × ν)) (k : κ) (v : ν) : (k, v) ∈ mapSet m k v :=
  List.mem_cons_self _ _

end maps

theorem addRevision_newRevisionToMetadata (revision : String) (st : Pass) (service : ServiceInfo) :
    (addRevision revision st service).newRevisionToMetadata = st.newRevisionToMetadata ∧
      (addRevision revision st service).aliased = st.aliased := by
  unfold addRevision
  split <;> exact ⟨rfl, rfl⟩

theorem addRevision_localOK (revision : String) (st : Pass) (service : ServiceInfo)
    (h : LocalOK st.localServiceToRevisions st.nextSet) :
    LocalOK (addRevision revision st service).localServiceToRevisions
      (addRevision revision st service).nextSet := by
  obtain ⟨hf, hfr, ho⟩ := h
  unfold addRevision
  split
  · next hg =>
    refine ⟨?_, ?_, ?_⟩
    · intro p e hp
      rcases mem_mapSet hp with h1 | ⟨h1, h2⟩
      · cases h1; exact mapGet_mapSet_same _ _ _
      · show mapGet (mapSet _ _ _) p = some e
        rw [mapGet_mapSet_ne _ _ _ _ h2]; exact hf p e h1
    · intro p ptr revs hp
      rcases mem_mapSet hp with h1 | ⟨h1, _⟩
      · cases h1; exact Nat.lt_succ_self _
      · exact Nat.lt_succ_of_lt (hfr p ptr revs h1)
    · intro p p' ptr revs revs' hp hp'
      rcases mem_mapSet hp with h1 | ⟨h1, _⟩
      · rcases mem_mapSet hp' with h2 | ⟨h2, _⟩
        · cases h1; cases h2; rfl
        · cases h1
          exact absurd (hfr p' _ revs' h2) (Nat.lt_irrefl _)
      · rcases mem_mapSet hp' with h2 | ⟨h2, _⟩
        · cases h2
          exact absurd (hfr p _ revs h1) (Nat.lt_irrefl _)
        · exact ho p p' ptr revs revs' h1 h2
  · next ptr0 revs0 hg =>
    have hmem0 := mem_of_mapGet hg
    refine ⟨?_, ?_, ?_⟩
    · intro p e hp
      rcases mem_mapSet hp with h1 | ⟨h1, h2⟩
      · cases h1; exact mapGet_mapSet_same _ _ _
      · show mapGet (mapSet _ _ _) p = some e
        rw [mapGet_mapSet_ne _ _ _ _ h2]; exact hf p e h1
    · intro p ptr revs hp
      rcases mem_mapSet hp with h1 | ⟨h1, _⟩
      · cases h1; exact hfr _ _ _ hmem0
      · exact hfr p ptr revs h1
    · intro p p' ptr revs revs' hp hp'
      rcases mem_mapSet hp with h1 | ⟨h1, _⟩
      · rcases mem_mapSet hp' with h2 | ⟨h2, _⟩
        · cases h1; cases h2; rfl
        · cases h1
          exact ho _ _ _ _ _ hmem0 h2
      · rcases mem_mapSet hp' with h2 | ⟨h2, _⟩
        · cases h2
          exact ho _ _ _ _ _ h1 hmem0
        · exact ho p p' ptr revs revs' h1 h2

theorem addRevision_keep (revision : String) (st : Pass) (service : ServiceInfo)
    (hf : ∀ p e, (p, e) ∈ st.localServiceToRevisions → mapGet st.localServiceToRevisions p = some e)
    {p : ServiceInfo} {ptr : Nat} {revs : List String}
    (h : (p, (ptr, revs)) ∈ st.localServiceToRevisions) :
    ∃ revs', (p, (ptr, revs')) ∈ (addRevision revision st service).localServiceToRevisions := by
  unfold addRevision
  by_cases hps : p = service
  · subst hps
    rw [hf p _ h]
    exact ⟨_, mem_mapSet_self _ _ _⟩
  · split
    · exact ⟨revs, mem_mapSet_of h hps⟩
    · exact ⟨revs, mem_mapSet_of h hps⟩

theorem addRevision_setsInv (r : String) (mj : MetadataInfo) (st : Pass) (service : ServiceInfo)
    (hs : service ∈ mj.Services)
    (h : SetsInv r mj st.newRevisionToMetadata st.localServiceToRevisions) :
    SetsInv r mj (addRevision r st service).newRevisionToMetadata
      (addRevision r st service).localServiceToRevisions := by
  rw [(addRevision_newRevisionToMetadata r st service).1]
  unfold addRevision
  split
  · next hg =>
    intro p ptr revs x hp hx
    rcases mem_mapSet hp with h1 | ⟨h1, _⟩
    · cases h1
      simp at hx
      exact Or.inl ⟨hx, hs⟩
    · exact h p ptr revs x h1 hx
  · next ptr0 revs0 hg =>
    intro p ptr revs x hp hx
    rcases mem_mapSet hp with h1 | ⟨h1, _⟩
    · cases h1
      by_cases hr : r ∈ revs0
      · rw [if_pos hr] at hx
        exact h _ _ _ x (mem_of_mapGet hg) hx
      · rw [if_neg hr] at hx
        rcases List.mem_append.1 hx with h2 | h2
        · exact h _ _ _ x (mem_of_mapGet hg) h2
        · simp at h2
          exact Or.inl ⟨h2, hs⟩
    · exact h p ptr revs x h1 hx

/-- What the loop over the services of `mj` achieves. -/
theorem rangeServices_local (r : String) (mj : MetadataInfo) (services : List ServiceInfo)
    (hsub : ∀ s ∈ services, s ∈ mj.Services) (st : Pass)
    (hl : LocalOK st.localServiceToRevisions st.nextSet)
    (hs : SetsInv r mj st.newRevisionToMetadata st.localServiceToRevisions) :
    LocalOK (rangeServices r services st).localServiceToRevisions
        (rangeServices r services st).nextSet ∧
      SetsInv r mj st.newRevisionToMetadata (rangeServices r services st).localServiceToRevisions ∧
      (∀ p ptr revs, (p, (ptr, revs)) ∈ st.localServiceToRevisions →
        ∃ revs', (p, (ptr, revs')) ∈ (rangeServices r services st).localServiceToRevisions) ∧
      (rangeServices r services st).newRevisionToMetadata = st.newRevisionToMetadata ∧
      (rangeServices r services st).aliased = st.aliased := by
  have key : ∀ (l : List ServiceInfo) (s0 : Pass), (∀ s ∈ l, s ∈ mj.Services) →
      LocalOK s0.localServiceToRevisions s0.nextSet →
      SetsInv r mj s0.newRevisionToMetadata s0.localServiceToRevisions →
      LocalOK (l.foldl (addRevision r) s0).localServiceToRevisions
          (l.foldl (addRevision r) s0).nextSet ∧
        SetsInv r mj s0.newRevisionToMetadata (l.foldl (addRevision r) s0).localServiceToRevisions ∧
        (∀ p ptr revs, (p, (ptr, revs)) ∈ s0.localServiceToRevisions →
          ∃ revs', (p, (ptr, revs')) ∈ (l.foldl (addRevision r) s0).localServiceToRevisions) ∧
        (l.foldl (addRevision r) s0).newRevisionToMetadata = s0.newRevisionToMetadata ∧
        (l.foldl (addRevision r) s0).aliased = s0.aliased := by
    intro l
    induction l with
    | nil => intro s0 _ h1 h2; exact ⟨h1, h2, fun p ptr revs h => ⟨revs, h⟩, rfl, rfl⟩
    | cons e rest ih =>
      intro s0 hsub0 h1 h2
      have he := hsub0 e (List.mem_cons_self _ _)
      obtain ⟨a1, a2, a3, a4, a5⟩ := ih (addRevision r s0 e)
        (fun s hs' => hsub0 s (List.mem_cons_of_mem _ hs'))
        (addRevision_localOK r s0 e h1) (addRevision_setsInv r mj s0 e he h2)
      have hn := addRevision_newRevisionToMetadata r s0 e
      refine ⟨a1, ?_, ?_, ?_, ?_⟩
      · rw [hn.1] at a2; exact a2
      · intro p ptr revs hp
        obtain ⟨revs1, hp1⟩ := addRevision_keep r s0 e h1.1 hp
        exact a3 p ptr revs1 hp1
      · exact a4.trans hn.1
      · exact a5.trans hn.2
  exact key services { st with tick := st.tick + 1 } hsub hl hs

theorem rangeServices_new (revision : String) (services : List ServiceInfo) (st : Pass) :
    (rangeServices revision services st).newRevisionToMetadata = st.newRevisionToMetadata ∧
      (rangeServices revision services st).aliased = st.aliased := by
  have key : ∀ (l : List ServiceInfo) (s0 : Pass),
      (l.foldl (addRevision revision) s0).newRevisionToMetadata = s0.newRevisionToMetadata ∧
        (l.foldl (addRevision revision) s0).aliased = s0.aliased := by
    intro l
    induction l with
    | nil => intro s0; exact ⟨rfl, rfl⟩
    | cons e rest ih =>
      intro s0
      have hn := addRevision_newRevisionToMetadata revision s0 e
      exact ⟨(ih _).1.trans hn.1, (ih _).2.trans hn.2⟩
  exact key services { st with tick := st.tick + 1 }

theorem recordMetadata_fields (ord : RangeOrder) (st : Pass) (inst : ServiceInstance)
    (r : String) (mj : MetadataInfo) :
    (recordMetadata ord st inst r mj).newRevisionToMetadata
        = mapSet st.newRevisionToMetadata r mj ∧
      (recordMetadata ord st inst r mj).world.serviceMetadata
        = mapSet st.world.serviceMetadata inst (some mj) ∧
      (recordMetadata ord st inst r mj).world.lstn.revisionToMetadata
        = (if st.aliased then mapSet st.newRevisionToMetadata r mj
            else st.world.lstn.revisionToMetadata) ∧
      (recordMetadata ord st inst r mj).aliased = st.aliased := by
  simp [recordMetadata, storeRevision, rangeServices_world, rangeServices_new, SetServiceMetadata]

theorem serviceMetadataOf_set (w w' : World) (inst i : ServiceInstance) (mj : Option MetadataInfo)
    (h : w'.serviceMetadata = mapSet w.serviceMetadata inst mj) :
    serviceMetadataOf w' i = if i = inst then mj else serviceMetadataOf w i := by
  unfold serviceMetadataOf
  rw [h, mapGet_mapSet]
  split <;> rfl

theorem fileInstance_core {env : Env} {all : List (String × List ServiceInstance)} {st : Pass}
    {inst : ServiceInstance} (hc : Core env all none st) (hu : Usable inst)
    (hs : StoredIn all inst) :
    Core env all (some inst) (fileInstance st inst (revisionOf inst)) ∧
      Grows st (fileInstance st inst (revisionOf inst)) := by
  refine ⟨⟨?_, hc.sets, hc.locals, hc.shared, hc.origin⟩, ?_, fun _ m h => ⟨m, h, sameKeys_refl m⟩⟩
  · intro r l i hg hi
    simp only [fileInstance, mapGet_mapSet] at hg
    by_cases hr : r = revisionOf inst
    · rw [if_pos hr] at hg
      cases hg
      rcases List.mem_append.1 hi with h1 | h1
      · split at h1
        · simp [List.mem_replicate] at h1
        · next l0 hl0 =>
          obtain ⟨a, b, c, d⟩ := hc.filed _ l0 i hl0 h1
          exact ⟨a, by rw [hr]; exact b, c, Or.inr (by
            rcases d with d | d
            · cases d
            · rw [hr]; exact d)⟩
      · simp at h1
        subst h1
        exact ⟨hu, hr.symm, hs, Or.inl rfl⟩
    · rw [if_neg hr] at hg
      obtain ⟨a, b, c, d⟩ := hc.filed r l i hg hi
      exact ⟨a, b, c, Or.inr (by
        rcases d with d | d
        · cases d
        · exact d)⟩
  · intro r l i hg hi
    simp only [fileInstance, mapGet_mapSet]
    by_cases hr : r = revisionOf inst
    · rw [if_pos hr]
      subst hr
      rw [hg]
      exact ⟨_, rfl, List.mem_append_left _ hi⟩
    · rw [if_neg hr]
      exact ⟨l, hg, hi⟩

theorem recordMetadata_core {env : Env} {all : List (String × List ServiceInstance)} {st : Pass}
    {inst : ServiceInstance} {mj : MetadataInfo} (ord : RangeOrder)
    (hrev : RevisionDetermines env all) (hc : Core env all (some inst) st)
    (hs : StoredIn all inst) (hm : Usable inst) (ho : Origin env st inst mj) :
    Core env all none (recordMetadata ord st inst (revisionOf inst) mj) ∧
      Grows st (recordMetadata ord st inst (revisionOf inst) mj) ∧
      (∀ p ptr revs, (p, (ptr, revs)) ∈ st.localServiceToRevisions →
        ∃ revs', (p, (ptr, revs')) ∈
          (recordMetadata ord st inst (revisionOf inst) mj).localServiceToRevisions) := by
  obtain ⟨fnew, fmeta, fcache, falias⟩ := recordMetadata_fields ord st inst (revisionOf inst) mj
  have hagree : ∀ m', mapGet st.newRevisionToMetadata (revisionOf inst) = some m' →
      SameKeys m' mj :=
    fun m' h => origin_agrees hrev hc hs hm ho h
  have hnew : ∀ r m, mapGet st.newRevisionToMetadata r = some m →
      ∃ m', mapGet (recordMetadata ord st inst (revisionOf inst) mj).newRevisionToMetadata r
        = some m' ∧ SameKeys m m' := by
    intro r m h
    rw [fnew, mapGet_mapSet]
    by_cases hr : r = revisionOf inst
    · rw [if_pos hr]; subst hr; exact ⟨mj, rfl, hagree m h⟩
    · rw [if_neg hr]; exact ⟨m, h, sameKeys_refl m⟩
  have hsets0 : SetsInv (revisionOf inst) mj
      (SetServiceMetadata st inst (some mj)).newRevisionToMetadata
      (SetServiceMetadata st inst (some mj)).localServiceToRevisions := by
    intro p ptr revs x hp hx
    exact Or.inr (hc.sets p ptr revs x hp hx)
  obtain ⟨l1, l2, l3, _, _⟩ := rangeServices_local (revisionOf inst) mj
    (ord.pick st.tick mj.Services) (fun s hs => ((ord.perm _ _).mem_iff).1 hs)
    (SetServiceMetadata st inst (some mj)) hc.locals hsets0
  refine ⟨⟨?_, ?_, l1, ?_, ?_⟩, ⟨?_, hnew⟩, l3⟩
  · intro r l i hg hi
    rw [recordMetadata_revisionToInstances] at hg
    obtain ⟨a, b, c, d⟩ := hc.filed r l i hg hi
    refine ⟨a, b, c, Or.inr ?_⟩
    rw [serviceMetadataOf_set st.world _ inst i (some mj) fmeta]
    rcases d with d | ⟨m, mi, d1, d2, d3⟩
    · cases d
      rw [if_pos rfl, fnew, ← b, mapGet_mapSet_same]
      exact ⟨mj, mj, rfl, rfl, sameKeys_refl mj⟩
    · by_cases hi' : i = inst
      · rw [if_pos hi', fnew, ← b, hi', mapGet_mapSet_same]
        exact ⟨mj, mj, rfl, rfl, sameKeys_refl mj⟩
      · rw [if_neg hi']
        obtain ⟨m', e, sk⟩ := hnew r m d1
        exact ⟨m', mi, e, d2, sameKeys_trans d3 sk⟩
  · intro p ptr revs x hp hx
    rcases l2 p ptr revs x hp hx with ⟨h1, h2⟩ | ⟨m, h1, h2⟩
    · subst h1
      exact ⟨mj, by rw [fnew, mapGet_mapSet_same], p, h2, rfl⟩
    · obtain ⟨m', e, sk⟩ := hnew x m h1
      exact ⟨m', e, (sk _).1 h2⟩
  · intro ha
    rw [falias] at ha
    rw [fcache, fnew, if_pos ha]
  · intro ha r m hg
    rw [falias] at ha
    rw [fcache, ha]
    simp only [Bool.false_eq_true, if_false]
    rw [fnew, mapGet_mapSet] at hg
    by_cases hr : r = revisionOf inst
    · rw [if_pos hr] at hg
      cases hg
      subst hr
      rcases ho with h1 | ⟨h1, h2⟩
      · exact Or.inl h1
      · exact Or.inr ⟨h1, inst, hs, hm, rfl, h2⟩
    · rw [if_neg hr] at hg
      exact hc.origin ha r m hg
  · intro r l i hg hi
    exact ⟨l, by rw [recordMetadata_revisionToInstances]; exact hg, hi⟩

theorem cached_transport {env : Env} {st st' : Pass} (h : Cached env st) (hg : Grows st st')
    (hl : ∀ p ptr revs, (p, (ptr, revs)) ∈ st.localServiceToRevisions →
      ∃ revs', (p, (ptr, revs')) ∈ st'.localServiceToRevisions)
    (h1 : st'.protocolRevisionsToUrls = st.protocolRevisionsToUrls)
    (h2 : st'.newServiceURLs = st.newServiceURLs) : Cached env st' := by
  refine ⟨?_, ?_⟩
  · intro proto m ptr urls hp hm
    rw [h1] at hp
    obtain ⟨p, revs, hmem, hgood⟩ := h.table proto m ptr urls hp hm
    obtain ⟨revs', hmem'⟩ := hl p ptr revs hmem
    exact ⟨p, revs', hmem', goodURLs_mono hgood hg⟩
  · intro k urls hk
    rw [h2] at hk
    exact goodURLs_mono (h.published k urls hk) hg

theorem recordFiled_sound {env : Env} {all : List (String × List ServiceInstance)} {st stA : Pass}
    {inst : ServiceInstance} {mj : MetadataInfo} (ord : RangeOrder)
    (hrev : RevisionDetermines env all) (hc : Core env all none st) (hcached : Cached env st)
    (hu : Usable inst) (hs : StoredIn all inst)
    (hA : Core env all (some inst) (fileInstance st inst (revisionOf inst)) →
      Core env all (some inst) stA)
    (hgrow : Grows (fileInstance st inst (revisionOf inst)) stA)
    (hloc : stA.localServiceToRevisions = st.localServiceToRevisions)
    (hq : Quiet st stA) (ho : Origin env stA inst mj) :
    Core env all none (recordMetadata ord stA inst (revisionOf inst) mj) ∧
      Cached env (recordMetadata ord stA inst (revisionOf inst) mj) := by
  obtain ⟨c1, g1⟩ := fileInstance_core hc hu hs
  obtain ⟨c2, g2, l2⟩ := recordMetadata_core ord hrev (hA c1) hs hu ho
  refine ⟨c2, cached_transport hcached (grows_trans g1 (grows_trans hgrow g2)) ?_ ?_ ?_⟩
  · intro p ptr revs hp
    rw [← hloc] at hp
    exact l2 p ptr revs hp
  · exact (recordMetadata_quiet ord stA inst _ mj).2.2.2.trans hq.2.2.2
  · exact (recordMetadata_quiet ord stA inst _ mj).2.2.1.trans hq.2.2.1

theorem instanceBody_sound (env : Env) (ord : RangeOrder)
    (all : List (String × List ServiceInstance)) (hrev : RevisionDetermines env all)
    (st st' : Pass) (inst : ServiceInstance) (hs : StoredIn all inst)
    (h : Core env all none st ∧ Cached env st)
    (hb : instanceBody env ord st inst = .next st') :
    Core env all none st' ∧ Cached env st' := by
  have hstep := instanceBody_step env ord st inst
  rw [hb] at hstep
  generalize hfl : Flow.next st' = fl at hstep
  cases hstep with
  | skipNil _ => cases hfl; exact h
  | skipZero _ => cases hfl; exact h
  | hit hm hr m hc =>
    cases hfl
    exact recordFiled_sound ord hrev h.1 h.2 ⟨hm, hr⟩ hs (fun c => c) (grows_refl _) rfl
      ⟨rfl, rfl, rfl, rfl⟩ (Or.inl hc)
  | failed _ _ _ _ _ => cases hfl
  | nilResult _ _ _ _ => cases hfl
  | resolved hm hr hc m hg =>
    cases hfl
    exact recordFiled_sound ord hrev h.1 h.2 ⟨hm, hr⟩ hs
      (fun c => ⟨c.filed, c.sets, c.locals, c.shared, c.origin⟩) (grows_refl _) rfl
      ⟨rfl, rfl, rfl, rfl⟩ (Or.inr ⟨hc, hg⟩)

theorem rangeInstances_sound (env : Env) (ord : RangeOrder)
    (all : List (String × List ServiceInstance)) (hrev : RevisionDetermines env all)
    (instances : List ServiceInstance) (hs : ∀ inst ∈ instances, StoredIn all inst)
    (st st' : Pass) (h : Core env all none st ∧ Cached env st)
    (hb : rangeInstances env ord instances st = .next st') :
    Core env all none st' ∧ Cached env st' :=
  rangeInstances_next_inv env ord (fun s => Core env all none s ∧ Cached env s) instances
    (fun inst hi s s1 hP hb1 => instanceBody_sound env ord all hrev s s1 inst (hs inst hi) hP hb1)
    st st' h hb

theorem revisionsURLs_good {env : Env} {all : List (String × List ServiceInstance)} {st : Pass}
    (hc : Core env all none st) {p : ServiceInfo} {ptr : Nat} {revs picked : List String}
    (hp : (p, (ptr, revs)) ∈ st.localServiceToRevisions) (hsub : ∀ r ∈ picked, r ∈ revs) :
    GoodURLs env st p.MatchKey (revisionsURLs env st picked) := by
  intro u hu
  obtain ⟨r, hr, l, i, h1, h2, h3⟩ := mem_revisionsURLs hu
  obtain ⟨_, b, _, d⟩ := hc.filed r l i h1 h2
  rcases d with d | ⟨m, mi, d1, d2, d3⟩
  · cases d
  · obtain ⟨m', e1, e2⟩ := hc.sets p ptr revs r hp (hsub r hr)
    rw [d1] at e1
    cases e1
    rw [d2] at h3
    subst b
    exact ⟨i, l, mi, m, h1, h2, h3, (d3 _).2 e2, d1, e2⟩

theorem serviceBody_sound (env : Env) (ord : RangeOrder)
    (all : List (String × List ServiceInstance)) (st : Pass)
    (entry : ServiceInfo × (Nat × List String)) (he : entry ∈ st.localServiceToRevisions)
    (h : Core env all none st ∧ Cached env st) :
    (Core env all none (serviceBody env ord st entry) ∧ Cached env (serviceBody env ord st entry)) ∧
      (serviceBody env ord st entry).localServiceToRevisions = st.localServiceToRevisions := by
  obtain ⟨hc, hcached⟩ := h
  obtain ⟨p, ptr, revs⟩ := entry
  unfold serviceBody
  split
  · next urls hg =>
    have hgood : GoodURLs env st p.MatchKey urls := by
      unfold revisionsToUrlsOf at hg
      cases hp : mapGet st.protocolRevisionsToUrls p.Protocol with
      | none => rw [hp] at hg; simp [mapGet] at hg
      | some m =>
        rw [hp] at hg
        obtain ⟨p', revs', hmem, hgd⟩ := hcached.table _ m _ urls hp hg
        have := hc.locals.2.2 p' p ptr revs' revs hmem he
        subst this
        exact hgd
    refine ⟨⟨⟨hc.filed, hc.sets, hc.locals, hc.shared, hc.origin⟩, ⟨hcached.table, ?_⟩⟩, rfl⟩
    intro k urls' hk
    simp only [assignServiceURLs, mapGet_mapSet] at hk
    by_cases hkk : k = p.MatchKey
    · rw [if_pos hkk] at hk
      cases hk
      subst hkk
      exact hgood
    · rw [if_neg hkk] at hk
      exact hcached.published k urls' hk
  · next hg =>
    have hgood : GoodURLs env st p.MatchKey (revisionsURLs env st (ord.pick st.tick revs)) :=
      revisionsURLs_good hc he (fun r hr => ((ord.perm _ _).mem_iff).1 hr)
    refine ⟨⟨⟨hc.filed, hc.sets, hc.locals, hc.shared, hc.origin⟩, ⟨?_, ?_⟩⟩, rfl⟩
    · intro proto m ptr' urls hp hm
      simp only [assignServiceURLs, buildServiceURLs, mapGet_mapSet] at hp
      by_cases hpp : proto = p.Protocol
      · rw [if_pos hpp] at hp
        cases hp
        rw [mapGet_mapSet] at hm
        by_cases hptr : ptr' = ptr
        · rw [if_pos hptr] at hm
          cases hm
          subst hptr
          exact ⟨p, revs, he, hgood⟩
        · rw [if_neg hptr] at hm
          unfold revisionsToUrlsOf at hm
          cases hq : mapGet st.protocolRevisionsToUrls p.Protocol with
          | none => rw [hq] at hm; simp [mapGet] at hm
          | some m0 =>
            rw [hq] at hm
            exact hcached.table _ m0 ptr' urls hq hm
      · rw [if_neg hpp] at hp
        exact hcached.table proto m ptr' urls hp hm
    · intro k urls' hk
      simp only [assignServiceURLs, mapGet_mapSet] at hk
      by_cases hkk : k = p.MatchKey
      · rw [if_pos hkk] at hk
        cases hk
        subst hkk
        exact hgood
      · rw [if_neg hkk] at hk
        exact hcached.published k urls' hk

theorem core_congr {env : Env} {all : List (String × List ServiceInstance)}
    {pending : Option ServiceInstance} {st st' : Pass} (h : Core env all pending st)
    (h1 : st'.revisionToInstances = st.revisionToInstances)
    (h2 : st'.newRevisionToMetadata = st.newRevisionToMetadata)
    (h3 : st'.localServiceToRevisions = st.localServiceToRevisions)
    (h4 : st'.nextSet = st.nextSet) (h5 : st'.aliased = st.aliased)
    (h6 : st'.world.lstn.revisionToMetadata = st.world.lstn.revisionToMetadata)
    (h7 : st'.world.serviceMetadata = st.world.serviceMetadata) :
    Core env all pending st' := by
  have hm : ∀ i, serviceMetadataOf st'.world i = serviceMetadataOf st.world i := by
    intro i; unfold serviceMetadataOf; rw [h7]
  refine ⟨?_, ?_, ?_, ?_, ?_⟩
  · intro r l i hg hi
    rw [h1] at hg
    rw [h2, hm]
    exact h.filed r l i hg hi
  · rw [h2, h3]; exact h.sets
  · rw [h3, h4]; exact h.locals
  · rw [h5, h6, h2]; exact h.shared
  · rw [h5, h6, h2]; exact h.origin

theorem cached_congr {env : Env} {st st' : Pass} (h : Cached env st)
    (h1 : st'.revisionToInstances = st.revisionToInstances)
    (h2 : st'.newRevisionToMetadata = st.newRevisionToMetadata)
    (h3 : st'.localServiceToRevisions = st.localServiceToRevisions)
    (h4 : st'.protocolRevisionsToUrls = st.protocolRevisionsToUrls)
    (h5 : st'.newServiceURLs = st.newServiceURLs) : Cached env st' :=
  cached_transport h ⟨fun r l i hg hi => ⟨l, by rw [h1]; exact hg, hi⟩,
      fun r m hg => ⟨m, by rw [h2]; exact hg, sameKeys_refl m⟩⟩
    (fun p ptr revs hp => ⟨revs, by rw [h3]; exact hp⟩) h4 h5

theorem publish_sound (env : Env) (ord : RangeOrder)
    (all : List (String × List ServiceInstance)) (st : Pass)
    (h : Core env all none st ∧ Cached env st) :
    Core env all none (publish env ord st) ∧ Cached env (publish env ord st) := by
  have key : ∀ (l : List (ServiceInfo × (Nat × List String))) (s0 : Pass),
      (∀ e ∈ l, e ∈ s0.localServiceToRevisions) →
      Core env all none s0 ∧ Cached env s0 →
      Core env all none (l.foldl (serviceBody env ord) s0) ∧
        Cached env (l.foldl (serviceBody env ord) s0) := by
    intro l
    induction l with
    | nil => intro s0 _ h0; exact h0
    | cons e rest ih =>
      intro s0 hsub h0
      obtain ⟨h1, h2⟩ := serviceBody_sound env ord all s0 e (hsub e (List.mem_cons_self _ _)) h0
      refine ih _ ?_ h1
      intro e' he'
      rw [h2]
      exact hsub e' (List.mem_cons_of_mem _ he')
  have hpr : Core env all none (publishRevisions st) ∧ Cached env (publishRevisions st) := by
    refine ⟨⟨h.1.filed, h.1.sets, h.1.locals, fun _ => rfl, fun ha => ?_⟩, ⟨h.2.table, h.2.published⟩⟩
    simp [publishRevisions] at ha
  have h2 := key (ord.pick (publishRevisions st).tick (publishRevisions st).localServiceToRevisions)
    { publishRevisions st with tick := (publishRevisions st).tick + 1 }
    (fun e he => ((ord.perm _ _).mem_iff).1 he)
    ⟨⟨hpr.1.filed, hpr.1.sets, hpr.1.locals, hpr.1.shared, hpr.1.origin⟩,
      ⟨hpr.2.table, hpr.2.published⟩⟩
  refine ⟨core_congr h2.1 rfl rfl rfl rfl rfl ?_ ?_, cached_congr h2.2 rfl rfl rfl rfl rfl⟩
  · simp [publish, fanOut, publishServiceURLs, notifyListeners_eq, rangeLocalServices]
  · simp [publish, fanOut, publishServiceURLs, notifyListeners_eq, rangeLocalServices]

theorem sound_start (env : Env) (w : World) (ServiceName : String)
    (Instances : List ServiceInstance) :
    Core env (mapSet w.lstn.allInstances ServiceName Instances) none
        (startPass w ServiceName Instances) ∧
      Cached env (startPass w ServiceName Instances) := by
  refine ⟨⟨?_, ?_, ⟨?_, ?_, ?_⟩, ?_, ?_⟩, ⟨?_, ?_⟩⟩ <;> intros <;> simp [startPass, mapGet] at *

/-- URL soundness under the invariant of the data model on revisions: when `OnEvent` returns
no error on a `ServiceInstancesChangedEvent` and the metadata resolved for stored instances of
equal revision exports the same match-keys, every URL of `serviceUrls[k]` was returned by
`ToURLs` on an instance that is stored in `allInstances`, has non-nil metadata and a revision
other than `"0"`; the `MetadataInfo` the instance held at that call lists a `ServiceInfo`
with match-key `k`, and so does the `MetadataInfo` recorded on it when `OnEvent` returns.
So an instance whose metadata exports no service with match-key `k` is the source of no URL
of `serviceUrls[k]`. -/
theorem onEvent_urls_sound (env : Env) (ord : RangeOrder) (w : World) (ServiceName : String)
    (Instances : List ServiceInstance)
    (hrev : RevisionDetermines env (mapSet w.lstn.allInstances ServiceName Instances))
    (hok : (OnEvent env ord w (.ServiceInstancesChangedEvent ServiceName Instances)).outcome
      = .returned none)
    (k : String) (urls : List URL) (u : URL)
    (hk : mapGet (OnEvent env ord w
      (.ServiceInstancesChangedEvent ServiceName Instances)).world.lstn.serviceUrls k = some urls)
    (hu : u ∈ urls) :
    ∃ (i : ServiceInstance) (called recorded : MetadataInfo),
      StoredIn (OnEvent env ord w
        (.ServiceInstancesChangedEvent ServiceName Instances)).world.lstn.allInstances i ∧
      i.Metadata ≠ none ∧ revisionOf i ≠ "0" ∧
      u ∈ env.ToURLs i (some called) ∧ HasKey called k ∧
      serviceMetadataOf (OnEvent env ord w
        (.ServiceInstancesChangedEvent ServiceName Instances)).world i = some recorded ∧
      HasKey recorded k := by
  rw [OnEvent_allInstances]
  simp only [OnEvent] at hok hk ⊢
  obtain ⟨stf, hP, hw, _, hpub⟩ :=
    rangeAllInstances_ok_inv env ord
      (fun s => Core env (mapSet w.lstn.allInstances ServiceName Instances) none s ∧ Cached env s)
      _ (fun entry he st st1 hP hb => by
          refine publish_sound env ord _ st1
            (rangeInstances_sound env ord _ hrev entry.2 ?_ st st1 hP hb)
          intro inst hi
          exact ⟨entry, ((ord.perm 0 _).mem_iff).1 he, hi⟩)
      _ (sound_start env w ServiceName Instances) hok
  obtain ⟨st1, rfl⟩ := hpub (pick_ne_nil ord 0 _ (by simp [startPass, mapSet]))
  rw [hw, (publish_notified env ord st1).1] at hk
  rw [hw]
  obtain ⟨i, l, mu, m, h1, h2, h3, h4, h5, h6⟩ := hP.2.published k urls hk u hu
  obtain ⟨a, _, c, d⟩ := hP.1.filed _ l i h1 h2
  rcases d with d | ⟨m', mi, d1, d2, d3⟩
  · cases d
  · rw [h5] at d1
    cases d1
    exact ⟨i, mu, mi, c, a.1, a.2, h3, h4, d2, (d3 k).2 h6⟩

/-! ## C8: the revision cache -/

theorem recordMetadata_keysInv {all : List (String × List ServiceInstance)} (st : Pass)
    {inst : ServiceInstance} (ord : RangeOrder) (mj : MetadataInfo) (h : KeysInv all st)
    (hs : StoredIn all inst) (hu : Usable inst) :
    KeysInv all (recordMetadata ord st inst (revisionOf inst) mj) := by
  obtain ⟨fnew, _, fcache, falias⟩ := recordMetadata_fields ord st inst (revisionOf inst) mj
  refine ⟨?_, ?_⟩
  · intro r m hg
    rw [fnew, mapGet_mapSet] at hg
    by_cases hr : r = revisionOf inst
    · exact ⟨inst, hs, hu, hr.symm⟩
    · rw [if_neg hr] at hg
      exact h.1 r m hg
  · intro ha
    rw [falias] at ha
    rw [fcache, fnew, if_pos ha]

theorem instanceBody_keysInv (env : Env) (ord : RangeOrder)
    (all : List (String × List ServiceInstance)) (st st' : Pass) (inst : ServiceInstance)
    (hs : StoredIn all inst) (h : KeysInv all st)
    (hb : instanceBody env ord st inst = .next st') : KeysInv all st' := by
  have hstep := instanceBody_step env ord st inst
  rw [hb] at hstep
  generalize hfl : Flow.next st' = fl at hstep
  cases hstep with
  | skipNil _ => cases hfl; exact h
  | skipZero _ => cases hfl; exact h
  | hit hm hr m hc =>
    cases hfl
    exact recordMetadata_keysInv (fileInstance st inst (revisionOf inst)) ord m h hs ⟨hm, hr⟩
  | failed _ _ _ _ _ => cases hfl
  | nilResult _ _ _ _ => cases hfl
  | resolved hm hr hc m hg =>
    cases hfl
    exact recordMetadata_keysInv
      (logResolverCall (fileInstance st inst (revisionOf inst)) inst (revisionOf inst)) ord m
      h hs ⟨hm, hr⟩

theorem publish_cache (env : Env) (ord : RangeOrder) (st : Pass) :
    (publish env ord st).world.lstn.revisionToMetadata = st.newRevisionToMetadata ∧
      (publish env ord st).newRevisionToMetadata = st.newRevisionToMetadata ∧
      (publish env ord st).aliased = true := by
  have key : ∀ (l : List (ServiceInfo × (Nat × List String))) (s0 : Pass),
      (l.foldl (serviceBody env ord) s0).newRevisionToMetadata = s0.newRevisionToMetadata ∧
        (l.foldl (serviceBody env ord) s0).aliased = s0.aliased := by
    intro l
    induction l with
    | nil => intro s0; exact ⟨rfl, rfl⟩
    | cons e rest ih =>
      intro s0
      have h1 : (serviceBody env ord s0 e).newRevisionToMetadata = s0.newRevisionToMetadata ∧
          (serviceBody env ord s0 e).aliased = s0.aliased := by
        unfold serviceBody
        split <;> exact ⟨rfl, rfl⟩
      exact ⟨(ih _).1.trans h1.1, (ih _).2.trans h1.2⟩
  refine ⟨?_, ?_, ?_⟩
  · simp [publish, fanOut, publishServiceURLs, notifyListeners_eq, rangeLocalServices_world,
      publishRevisions]
  · exact (key _ _).1
  · exact (key _ _).2

theorem publish_keysInv (env : Env) (ord : RangeOrder)
    (all : List (String × List ServiceInstance)) (st : Pass) (h : KeysInv all st) :
    KeysInv all (publish env ord st) := by
  obtain ⟨h1, h2, _⟩ := publish_cache env ord st
  refine ⟨?_, fun _ => h1.trans h2.symm⟩
  rw [h2]
  exact h.1

/-- After a call of `OnEvent` that returns no error, the revision cache holds entries only
for revisions of usable instances of the instance table. -/
theorem OnEvent_cache_keys (env : Env) (ord : RangeOrder) (w : World) (ServiceName : String)
    (Instances : List ServiceInstance)
    (hok : (OnEvent env ord w (.ServiceInstancesChangedEvent ServiceName Instances)).outcome
      = .returned none) (r : String) (m : MetadataInfo)
    (hg : mapGet (OnEvent env ord w
      (.ServiceInstancesChangedEvent ServiceName Instances)).world.lstn.revisionToMetadata r
      = some m) :
    ∃ i, StoredIn (mapSet w.lstn.allInstances ServiceName Instances) i ∧ Usable i ∧
      revisionOf i = r := by
  simp only [OnEvent] at hok hg
  obtain ⟨stf, hP, hw, _, hpub⟩ :=
    rangeAllInstances_ok_inv env ord (KeysInv (mapSet w.lstn.allInstances ServiceName Instances))
      _ (fun entry he st st1 hP hb => by
          refine publish_keysInv env ord _ st1
            (rangeInstances_next_inv env ord _ entry.2 ?_ st st1 hP hb)
          intro inst hi s s1 hP1 hb1
          exact instanceBody_keysInv env ord _ s s1 inst
            ⟨entry, ((ord.perm 0 _).mem_iff).1 he, hi⟩ hP1 hb1)
      _ ⟨by intro r m h; simp [startPass, mapGet] at h, by intro h; simp [startPass] at h⟩ hok
  obtain ⟨st1, rfl⟩ := hpub (pick_ne_nil ord 0 _ (by simp [startPass, mapSet]))
  rw [hw, (publish_cache env ord st1).1, ← (publish_cache env ord st1).2.1] at hg
  exact hP.1 r m hg

theorem recordMetadata_firstRound {c0 : List (String × MetadataInfo)}
    {calls0 : List (ServiceInstance × String)} (st : Pass) {inst : ServiceInstance}
    (ord : RangeOrder) (mj : MetadataInfo) (h : FirstRound c0 calls0 st)
    (hagree : ∀ m, mapGet c0 (revisionOf inst) = some m → mj = m) :
    FirstRound c0 calls0 (recordMetadata ord st inst (revisionOf inst) mj) ∧
      (∃ m, mapGet (recordMetadata ord st inst (revisionOf inst) mj).newRevisionToMetadata
        (revisionOf inst) = some m) ∧
      (∀ r m, mapGet st.newRevisionToMetadata r = some m →
        ∃ m', mapGet (recordMetadata ord st inst (revisionOf inst) mj).newRevisionToMetadata r
          = some m') := by
  obtain ⟨fnew, _, fcache, falias⟩ := recordMetadata_fields ord st inst (revisionOf inst) mj
  obtain ⟨h1, h2, h3, h4⟩ := h
  refine ⟨⟨falias.trans h1, ?_, ?_, ?_⟩, ⟨mj, by rw [fnew, mapGet_mapSet_same]⟩, ?_⟩
  · rw [fcache, h1]
    simpa using h2
  · intro r m m' hc hg
    rw [fnew, mapGet_mapSet] at hg
    by_cases hr : r = revisionOf inst
    · rw [if_pos hr] at hg
      cases hg
      subst hr
      exact hagree m hc
    · rw [if_neg hr] at hg
      exact h3 r m m' hc hg
  · rw [recordMetadata_resolverCalls]
    exact h4
  · intro r m hg
    rw [fnew, mapGet_mapSet]
    by_cases hr : r = revisionOf inst
    · exact ⟨mj, by rw [if_pos hr]⟩
    · exact ⟨m, by rw [if_neg hr]; exact hg⟩

theorem instanceBody_firstRound (env : Env) (ord : RangeOrder)
    (c0 : List (String × MetadataInfo)) (calls0 : List (ServiceInstance × String))
    (st st' : Pass) (inst : ServiceInstance) (h : FirstRound c0 calls0 st)
    (hb : instanceBody env ord st inst = .next st') :
    FirstRound c0 calls0 st' ∧
      (Usable inst → ∃ m, mapGet st'.newRevisionToMetadata (revisionOf inst) = some m) ∧
      (∀ r m, mapGet st.newRevisionToMetadata r = some m →
        ∃ m', mapGet st'.newRevisionToMetadata r = some m') := by
  have hstep := instanceBody_step env ord st inst
  rw [hb] at hstep
  generalize hfl : Flow.next st' = fl at hstep
  cases hstep with
  | skipNil hn => cases hfl; exact ⟨h, fun hu => absurd hn hu.1, fun r m hg => ⟨m, hg⟩⟩
  | skipZero hz => cases hfl; exact ⟨h, fun hu => absurd hz hu.2, fun r m hg => ⟨m, hg⟩⟩
  | hit hm hr m hc =>
    cases hfl
    have hagree : ∀ m', mapGet c0 (revisionOf inst) = some m' → m = m' := by
      intro m' hm'
      rw [h.2.1, hm'] at hc
      cases hc; rfl
    obtain ⟨a, b, c⟩ :=
      recordMetadata_firstRound (fileInstance st inst (revisionOf inst)) ord m h hagree
    exact ⟨a, fun _ => b, c⟩
  | failed _ _ _ _ _ => cases hfl
  | nilResult _ _ _ _ => cases hfl
  | resolved hm hr hc m hg =>
    cases hfl
    rw [h.2.1] at hc
    have hagree : ∀ m', mapGet c0 (revisionOf inst) = some m' → m = m' := by
      intro m' hm'
      rw [hm'] at hc
      cases hc
    have hlog : FirstRound c0 calls0
        (logResolverCall (fileInstance st inst (revisionOf inst)) inst (revisionOf inst)) := by
      obtain ⟨h1, h2, h3, calls, h4, h5⟩ := h
      refine ⟨h1, h2, h3, calls ++ [(inst, revisionOf inst)], ?_, ?_⟩
      · show st.world.resolverCalls ++ [(inst, revisionOf inst)] = _
        rw [h4, List.append_assoc]
      · intro c hc'
        rcases List.mem_append.1 hc' with h6 | h6
        · exact h5 c h6
        · simp at h6
          subst h6
          exact hc
    obtain ⟨a, b, c⟩ := recordMetadata_firstRound _ ord m hlog hagree
    exact ⟨a, fun _ => b, c⟩

theorem rangeInstances_firstRound (env : Env) (ord : RangeOrder)
    (c0 : List (String × MetadataInfo)) (calls0 : List (ServiceInstance × String))
    (instances : List ServiceInstance) (st st' : Pass) (h : FirstRound c0 calls0 st)
    (hb : rangeInstances env ord instances st = .next st') :
    FirstRound c0 calls0 st' ∧
      (∀ inst ∈ instances, Usable inst →
        ∃ m, mapGet st'.newRevisionToMetadata (revisionOf inst) = some m) ∧
      (∀ r m, mapGet st.newRevisionToMetadata r = some m →
        ∃ m', mapGet st'.newRevisionToMetadata r = some m') := by
  induction instances generalizing st with
  | nil =>
    simp only [rangeInstances] at hb
    cases hb
    refine ⟨h, ?_, fun r m hg => ⟨m, hg⟩⟩
    intro i hi
    cases hi
  | cons inst rest ih =>
    unfold rangeInstances at hb
    cases hbody : instanceBody env ord st inst with
    | ret err st1 => rw [hbody] at hb; cases hb
    | panic st1 => rw [hbody] at hb; cases hb
    | next st1 =>
      rw [hbody] at hb
      obtain ⟨a1, a2, a3⟩ := instanceBody_firstRound env ord c0 calls0 st st1 inst h hbody
      obtain ⟨b1, b2, b3⟩ := ih st1 a1 hb
      refine ⟨b1, ?_, ?_⟩
      · intro i hi hu
        rcases List.mem_cons.1 hi with h1 | h1
        · subst h1
          obtain ⟨m, hm⟩ := a2 hu
          exact b3 _ m hm
        · exact b2 i h1 hu
      · intro r m hg
        obtain ⟨m1, hm1⟩ := a3 r m hg
        exact b3 r m1 hm1

theorem mapDel_eq_nil {κ ν : Type} [DecidableEq κ] (m : List (κ × ν)) (k : κ)
    (h : ∀ p ∈ m, p.1 = k) : mapDel m k = [] := by
  induction m with
  | nil => rfl
  | cons p rest ih =>
    obtain ⟨a, b⟩ := p
    have ha : a = k := h (a, b) (List.mem_cons_self _ _)
    simp only [mapDel, ha, if_true]
    exact ih (fun q hq => h q (List.mem_cons_of_mem _ hq))

theorem pick_singleton (ord : RangeOrder) (tick : Nat) {α : Type} (a : α) :
    ord.pick tick [a] = [a] :=
  List.perm_singleton.1 (ord.perm tick [a])

/-- C8 (revision cache, amended): a call of `OnEvent` that returns no error rebuilds the
cache: afterwards it holds entries only for revisions carried by stored instances with
non-nil metadata and a revision other than `"0"`; and when only the service name of the event
is stored, an entry cached before the call whose revision is carried by such an instance of
the event keeps its `MetadataInfo`, and the call does not resolve that revision again. -/
theorem onEvent_cache_rebuilt (env : Env) (ord : RangeOrder) (w : World) (ServiceName : String)
    (Instances : List ServiceInstance)
    (hok : (OnEvent env ord w (.ServiceInstancesChangedEvent ServiceName Instances)).outcome
      = .returned none) :
    (∀ r m, mapGet (OnEvent env ord w
        (.ServiceInstancesChangedEvent ServiceName Instances)).world.lstn.revisionToMetadata r
        = some m →
      ∃ i, StoredIn (OnEvent env ord w
          (.ServiceInstancesChangedEvent ServiceName Instances)).world.lstn.allInstances i ∧
        Usable i ∧ revisionOf i = r) ∧
    ((∀ entry ∈ w.lstn.allInstances, entry.1 = ServiceName) →
      ∀ r m, mapGet w.lstn.revisionToMetadata r = some m →
        (∃ i ∈ Instances, Usable i ∧ revisionOf i = r) →
        mapGet (OnEvent env ord w
          (.ServiceInstancesChangedEvent ServiceName Instances)).world.lstn.revisionToMetadata r
          = some m ∧
        ∃ calls : List (ServiceInstance × String),
          (OnEvent env ord w
            (.ServiceInstancesChangedEvent ServiceName Instances)).world.resolverCalls
            = w.resolverCalls ++ calls ∧ ∀ c ∈ calls, c.2 ≠ r) := by
  refine ⟨?_, ?_⟩
  · intro r m hg
    rw [OnEvent_allInstances]
    exact OnEvent_cache_keys env ord w ServiceName Instances hok r m hg
  · intro hsingle r m hc hex
    have hall : (startPass w ServiceName Instances).world.lstn.allInstances
        = [(ServiceName, Instances)] := by
      simp [startPass, mapSet, mapDel_eq_nil _ _ hsingle]
    simp only [OnEvent] at hok ⊢
    rw [hall, pick_singleton] at hok ⊢
    simp only [rangeAllInstances] at hok ⊢
    cases hb : rangeInstances env ord Instances (startPass w ServiceName Instances) with
    | ret err st1 => rw [hb] at hok; simp at hok
    | panic st1 => rw [hb] at hok; simp at hok
    | next st1 =>
      simp only
      have hstart : FirstRound w.lstn.revisionToMetadata w.resolverCalls
          (startPass w ServiceName Instances) :=
        ⟨rfl, rfl, by intro r m m' _ h; simp [startPass, mapGet] at h, [], by simp [startPass], by simp⟩
      obtain ⟨⟨_, _, h3, calls, h4, h5⟩, h6, _⟩ :=
        rangeInstances_firstRound env ord _ _ Instances _ st1 hstart hb
      obtain ⟨i, hi, hu, hr⟩ := hex
      obtain ⟨m', hm'⟩ := h6 i hi hu
      rw [hr] at hm'
      refine ⟨?_, calls, ?_, ?_⟩
      · rw [(publish_cache env ord st1).1, hm', h3 r m m' hc hm']
      · rw [publish_resolverCalls]; exact h4
      · intro c hc' heq
        have := h5 c hc'
        rw [heq, hc] at this
        cases this

/-! ## The sample environments, witnesses and counterexamples -/

theorem getMetadataInfo_tableEnv (table : String → Except Err (Option MetadataInfo))
    (i : ServiceInstance) (m0 : Option MetadataInfo) :
    getMetadataInfo (tableEnv table) i m0 (revisionOf i) = table (revisionOf i) := by
  unfold getMetadataInfo
  simp only [tableEnv]
  split <;> cases table (revisionOf i) <;> rfl

theorem tableEnv_revisionDetermines (table : String → Except Err (Option MetadataInfo))
    (all : List (String × List ServiceInstance)) : RevisionDetermines (tableEnv table) all := by
  intro i j _ _ _ _ hr m m' h1 h2
  rw [getMetadataInfo_tableEnv] at h1 h2
  rw [hr, h2] at h1
  cases h1
  exact sameKeys_refl _

set_option maxRecDepth 8000 in
/-- Witness of C6: the scenario of the specification with a listener registered for
`Foo:1.0:dubbo`, which receives the add-notifications of the URLs of A and B. -/
theorem onEvent_fan_out_witness :
    (OnEvent (tableEnv scenarioTable) RangeOrder.stored worldWithListener
        (.ServiceInstancesChangedEvent "S" [instA, instB, instC])).outcome = .returned none ∧
    ∃ sent : List (String × NotifyListener × ServiceEvent),
      (OnEvent (tableEnv scenarioTable) RangeOrder.stored worldWithListener
        (.ServiceInstancesChangedEvent "S" [instA, instB, instC])).world.notified
        = worldWithListener.notified ++ sent ∧
      addNote "Foo:1.0:dubbo" fooListener ⟨"dubbo://hostA"⟩ ∈ sent ∧
      addNote "Foo:1.0:dubbo" fooListener ⟨"dubbo://hostB"⟩ ∈ sent ∧
      ∀ n ∈ sent, n.2.2.Action = EventType.EventTypeAdd := by
  refine ⟨by decide, ?_⟩
  obtain ⟨sent, h1, h2, h3, _⟩ := onEvent_fan_out (tableEnv scenarioTable) RangeOrder.stored
    worldWithListener "S" [instA, instB, instC] (by decide)
  exact ⟨sent, h1,
    h2 "Foo:1.0:dubbo" fooListener [⟨"dubbo://hostA"⟩, ⟨"dubbo://hostB"⟩] ⟨"dubbo://hostA"⟩
      (by decide) (by decide) (by decide),
    h2 "Foo:1.0:dubbo" fooListener [⟨"dubbo://hostA"⟩, ⟨"dubbo://hostB"⟩] ⟨"dubbo://hostB"⟩
      (by decide) (by decide) (by decide), h3⟩

set_option maxRecDepth 8000 in
/-- Counterexample to C7 as stated: an instance whose metadata map is empty but not nil has
no revision entry, yet `OnEvent` calls the metadata resolver for it, with the empty revision,
and its URL is published in `serviceUrls`. -/
theorem onEvent_resolves_empty_metadata :
    instE.Metadata = some [] ∧
    (OnEvent (tableEnv upgradeTable) RangeOrder.stored (freshWorld ["S"])
      (.ServiceInstancesChangedEvent "S" [instE])).outcome = .returned none ∧
    (OnEvent (tableEnv upgradeTable) RangeOrder.stored (freshWorld ["S"])
      (.ServiceInstancesChangedEvent "S" [instE])).world.resolverCalls = [(instE, "")] ∧
    (tableEnv upgradeTable).ToURLs instE (some ⟨"", [barOfEmpty]⟩) = [⟨"dubbo://hostE"⟩] ∧
    mapGet (OnEvent (tableEnv upgradeTable) RangeOrder.stored (freshWorld ["S"])
      (.ServiceInstancesChangedEvent "S" [instE])).world.lstn.serviceUrls "Bar:1.0:dubbo"
      = some [⟨"dubbo://hostE"⟩] := by
  decide

set_option maxRecDepth 8000 in
/-- Witness of C7 as amended: of the instances E (empty metadata), N (nil metadata) and Z
(revision `"0"`) of one event, N and Z are never passed to the resolver and stay stored. -/
theorem onEvent_excludes_unusable_witness :
    (instN ∈ [instE, instN, instZ] ∧ (instN.Metadata = none ∨ revisionOf instN = "0")) ∧
    (instZ ∈ [instE, instN, instZ] ∧ (instZ.Metadata = none ∨ revisionOf instZ = "0")) ∧
    (∃ calls : List (ServiceInstance × String),
      (OnEvent (tableEnv upgradeTable) RangeOrder.stored (freshWorld ["S"])
        (.ServiceInstancesChangedEvent "S" [instE, instN, instZ])).world.resolverCalls
        = (freshWorld ["S"]).resolverCalls ++ calls ∧ ∀ c ∈ calls, c.1 ≠ instN ∧ c.1 ≠ instZ) ∧
    (∃ l, mapGet (OnEvent (tableEnv upgradeTable) RangeOrder.stored (freshWorld ["S"])
        (.ServiceInstancesChangedEvent "S" [instE, instN, instZ])).world.lstn.allInstances "S"
        = some l ∧ instN ∈ l ∧ instZ ∈ l) := by
  have hN : instN ∈ [instE, instN, instZ] ∧ (instN.Metadata = none ∨ revisionOf instN = "0") :=
    ⟨by decide, Or.inl rfl⟩
  have hZ : instZ ∈ [instE, instN, instZ] ∧ (instZ.Metadata = none ∨ revisionOf instZ = "0") :=
    ⟨by decide, Or.inr (by decide)⟩
  obtain ⟨⟨calls, a1, a2⟩, _, ⟨l, a3, a4⟩⟩ := onEvent_excludes_unusable (tableEnv upgradeTable)
    RangeOrder.stored (freshWorld ["S"]) "S" [instE, instN, instZ] instN hN.1 hN.2
  obtain ⟨⟨calls', b1, b2⟩, _, ⟨l', b3, b4⟩⟩ := onEvent_excludes_unusable (tableEnv upgradeTable)
    RangeOrder.stored (freshWorld ["S"]) "S" [instE, instN, instZ] instZ hZ.1 hZ.2
  have hcalls : calls' = calls := List.append_cancel_left (b1.symm.trans a1)
  have hl : l' = l := Option.some.inj (b3.symm.trans a3)
  subst hcalls
  subst hl
  exact ⟨hN, hZ, ⟨calls', a1, fun c hc => ⟨a2 c hc, b2 c hc⟩⟩, ⟨l', a3, a4, b4⟩⟩

set_option maxRecDepth 8000 in
/-- Counterexample to C8 as stated: the cache holds revision `r1`; after an event whose only
instance carries `r2` the entry of `r1` is gone, and when `r1` reappears in the next event it
is resolved again. -/
theorem onEvent_drops_cached_revision :
    mapGet worldWithS1.lstn.revisionToMetadata "r1" = some ⟨"r1", [fooOfR1]⟩ ∧
    (OnEvent (tableEnv upgradeTable) RangeOrder.stored worldWithS1
      (.ServiceInstancesChangedEvent "S1" [instC])).outcome = .returned none ∧
    mapGet (OnEvent (tableEnv upgradeTable) RangeOrder.stored worldWithS1
      (.ServiceInstancesChangedEvent "S1" [instC])).world.lstn.revisionToMetadata "r1" = none ∧
    (OnEvent (tableEnv upgradeTable) RangeOrder.stored
      (OnEvent (tableEnv upgradeTable) RangeOrder.stored worldWithS1
        (.ServiceInstancesChangedEvent "S1" [instC])).world
      (.ServiceInstancesChangedEvent "S1" [instA])).world.resolverCalls
      = [(instA, "r1"), (instC, "r2"), (instA, "r1")] := by
  decide

set_option maxRecDepth 8000 in
/-- Witness of C8 as amended: only `S1` is stored and the cache holds `r1`; the event of
`S1` reporting A (revision `r1`) and C keeps the entry of `r1` without resolving it again. -/
theorem onEvent_cache_rebuilt_witness :
    (OnEvent (tableEnv upgradeTable) RangeOrder.stored worldWithS1
      (.ServiceInstancesChangedEvent "S1" [instA, instC])).outcome = .returned none ∧
    (∀ entry ∈ worldWithS1.lstn.allInstances, entry.1 = "S1") ∧
    mapGet worldWithS1.lstn.revisionToMetadata "r1" = some ⟨"r1", [fooOfR1]⟩ ∧
    (mapGet (OnEvent (tableEnv upgradeTable) RangeOrder.stored worldWithS1
        (.ServiceInstancesChangedEvent "S1" [instA, instC])).world.lstn.revisionToMetadata "r1"
        = some ⟨"r1", [fooOfR1]⟩ ∧
      ∃ calls : List (ServiceInstance × String),
        (OnEvent (tableEnv upgradeTable) RangeOrder.stored worldWithS1
          (.ServiceInstancesChangedEvent "S1" [instA, instC])).world.resolverCalls
          = worldWithS1.resolverCalls ++ calls ∧ ∀ c ∈ calls, c.2 ≠ "r1") :=
  ⟨by decide, by decide, by decide,
    (onEvent_cache_rebuilt (tableEnv upgradeTable) RangeOrder.stored worldWithS1 "S1"
      [instA, instC] (by decide)).2 (by decide) "r1" ⟨"r1", [fooOfR1]⟩ (by decide)
      ⟨instA, by decide, ⟨by decide, by decide⟩, by decide⟩⟩

/-! ## C1, C2, C3 and C10: the runs that depart from the specification -/

set_option maxRecDepth 8000 in
/-- C1 (consistency of `serviceUrls` with the aggregate), evaluated where the code departs
from it.  Two revisions export `Foo:1.0:dubbo` through two `ServiceInfo` objects: `OnEvent`
returns no error, instance C is stored with non-nil metadata, revision `r2` and recorded
metadata that lists `Foo:1.0:dubbo`, yet `serviceUrls["Foo:1.0:dubbo"]` holds the URL of A
alone; with the map visited in the other order it holds the URL of C alone.  Two service
names: after `S1` reported A, the event of `S2` reporting B (same revision) leaves
`serviceUrls["Foo:1.0:dubbo"]` with the URL of B alone, or of A alone in the other order,
although both instances are stored. -/
theorem onEvent_urls_incomplete :
    ((OnEvent (tableEnv upgradeTable) RangeOrder.stored (freshWorld ["S"])
        (.ServiceInstancesChangedEvent "S" [instA, instC])).outcome = .returned none ∧
      mapGet (OnEvent (tableEnv upgradeTable) RangeOrder.stored (freshWorld ["S"])
        (.ServiceInstancesChangedEvent "S" [instA, instC])).world.lstn.allInstances "S"
        = some [instA, instC] ∧
      instC.Metadata ≠ none ∧ revisionOf instC = "r2" ∧
      serviceMetadataOf (OnEvent (tableEnv upgradeTable) RangeOrder.stored (freshWorld ["S"])
        (.ServiceInstancesChangedEvent "S" [instA, instC])).world instC
        = some ⟨"r2", [fooOfR2]⟩ ∧
      fooOfR2.MatchKey = "Foo:1.0:dubbo" ∧
      (tableEnv upgradeTable).ToURLs instC (some ⟨"r2", [fooOfR2]⟩) = [⟨"dubbo://hostC"⟩] ∧
      mapGet (OnEvent (tableEnv upgradeTable) RangeOrder.stored (freshWorld ["S"])
        (.ServiceInstancesChangedEvent "S" [instA, instC])).world.lstn.serviceUrls "Foo:1.0:dubbo"
        = some [⟨"dubbo://hostA"⟩]) ∧
    ((OnEvent (tableEnv upgradeTable) RangeOrder.reversed (freshWorld ["S"])
        (.ServiceInstancesChangedEvent "S" [instA, instC])).outcome = .returned none ∧
      serviceMetadataOf (OnEvent (tableEnv upgradeTable) RangeOrder.reversed (freshWorld ["S"])
        (.ServiceInstancesChangedEvent "S" [instA, instC])).world instA
        = some ⟨"r1", [fooOfR1]⟩ ∧
      (tableEnv upgradeTable).ToURLs instA (some ⟨"r1", [fooOfR1]⟩) = [⟨"dubbo://hostA"⟩] ∧
      mapGet (OnEvent (tableEnv upgradeTable) RangeOrder.reversed (freshWorld ["S"])
        (.ServiceInstancesChangedEvent "S" [instA, instC])).world.lstn.serviceUrls "Foo:1.0:dubbo"
        = some [⟨"dubbo://hostC"⟩]) ∧
    ((OnEvent (tableEnv upgradeTable) RangeOrder.stored worldWithS1
        (.ServiceInstancesChangedEvent "S2" [instB])).outcome = .returned none ∧
      mapGet (OnEvent (tableEnv upgradeTable) RangeOrder.stored worldWithS1
        (.ServiceInstancesChangedEvent "S2" [instB])).world.lstn.allInstances "S1"
        = some [instA] ∧
      mapGet (OnEvent (tableEnv upgradeTable) RangeOrder.stored worldWithS1
        (.ServiceInstancesChangedEvent "S2" [instB])).world.lstn.allInstances "S2"
        = some [instB] ∧
      serviceMetadataOf (OnEvent (tableEnv upgradeTable) RangeOrder.stored worldWithS1
        (.ServiceInstancesChangedEvent "S2" [instB])).world instA = some ⟨"r1", [fooOfR1]⟩ ∧
      mapGet (OnEvent (tableEnv upgradeTable) RangeOrder.stored worldWithS1
        (.ServiceInstancesChangedEvent "S2" [instB])).world.lstn.serviceUrls "Foo:1.0:dubbo"
        = some [⟨"dubbo://hostB"⟩]) ∧
    ((OnEvent (tableEnv upgradeTable) RangeOrder.reversed worldWithS1
        (.ServiceInstancesChangedEvent "S2" [instB])).outcome = .returned none ∧
      serviceMetadataOf (OnEvent (tableEnv upgradeTable) RangeOrder.reversed worldWithS1
        (.ServiceInstancesChangedEvent "S2" [instB])).world instB = some ⟨"r1", [fooOfR1]⟩ ∧
      (tableEnv upgradeTable).ToURLs instB (some ⟨"r1", [fooOfR1]⟩) = [⟨"dubbo://hostB"⟩] ∧
      mapGet (OnEvent (tableEnv upgradeTable) RangeOrder.reversed worldWithS1
        (.ServiceInstancesChangedEvent "S2" [instB])).world.lstn.serviceUrls "Foo:1.0:dubbo"
        = some [⟨"dubbo://hostA"⟩]) := by
  decide

set_option maxRecDepth 8000 in
/-- C2 (revision dedup), evaluated where the code departs from it: instances A and B carry
the same revision `r1`, the cache is empty and no other service name is stored; `OnEvent`
returns no error and has called the metadata resolver twice, once per instance. -/
theorem onEvent_resolves_per_instance :
    revisionOf instA = "r1" ∧ revisionOf instB = "r1" ∧
    (freshWorld ["S"]).lstn.revisionToMetadata = [] ∧ (freshWorld ["S"]).lstn.allInstances = [] ∧
    (OnEvent (tableEnv scenarioTable) RangeOrder.stored (freshWorld ["S"])
      (.ServiceInstancesChangedEvent "S" [instA, instB])).outcome = .returned none ∧
    (OnEvent (tableEnv scenarioTable) RangeOrder.stored (freshWorld ["S"])
      (.ServiceInstancesChangedEvent "S" [instA, instB])).world.resolverCalls
      = [(instA, "r1"), (instB, "r1")] ∧
    (OnEvent (tableEnv scenarioTable) RangeOrder.reversed (freshWorld ["S"])
      (.ServiceInstancesChangedEvent "S" [instA, instB])).world.resolverCalls
      = [(instA, "r1"), (instB, "r1")] := by
  decide

set_option maxRecDepth 8000 in
/-- C3 (failure isolation), evaluated where the code departs from it: `S2` stores an instance
whose metadata cannot be resolved and `serviceUrls` is empty; the event of `S1` reporting A
makes `OnEvent` return the resolver's error, and when `S1` is visited before `S2` the call
has already replaced `serviceUrls` by the URLs of `S1`; when `S2` is visited first
`serviceUrls` stays empty. -/
theorem onEvent_failure_publishes :
    worldWithS2.lstn.allInstances = [("S2", [instX])] ∧
    worldWithS2.lstn.serviceUrls = [] ∧
    (OnEvent (tableEnv scenarioTable) RangeOrder.stored worldWithS2
      (.ServiceInstancesChangedEvent "S1" [instA])).outcome
      = .returned (some "metadata not found") ∧
    (OnEvent (tableEnv scenarioTable) RangeOrder.stored worldWithS2
      (.ServiceInstancesChangedEvent "S1" [instA])).world.lstn.serviceUrls
      = [("Foo:1.0:dubbo", [⟨"dubbo://hostA"⟩])] ∧
    (OnEvent (tableEnv scenarioTable) RangeOrder.reversed worldWithS2
      (.ServiceInstancesChangedEvent "S1" [instA])).outcome
      = .returned (some "metadata not found") ∧
    (OnEvent (tableEnv scenarioTable) RangeOrder.reversed worldWithS2
      (.ServiceInstancesChangedEvent "S1" [instA])).world.lstn.serviceUrls = [] := by
  decide

set_option maxRecDepth 8000 in
/-- C10 (idempotence), evaluated where the code departs from it: the resolver answers by
revision and succeeds, two revisions export `Foo:1.0:dubbo` through two `ServiceInfo`
objects, and the same event is processed twice in a row; both calls return no error, the
first leaves `serviceUrls["Foo:1.0:dubbo"]` with the URL of A and the second, which visits
`localServiceToRevisions` in the other order, with the URL of C. -/
theorem onEvent_replay_differs :
    (OnEvent (tableEnv upgradeTable) RangeOrder.stored (freshWorld ["S"])
      (.ServiceInstancesChangedEvent "S" [instA, instC])).outcome = .returned none ∧
    (OnEvent (tableEnv upgradeTable) RangeOrder.stored (freshWorld ["S"])
      (.ServiceInstancesChangedEvent "S" [instA, instC])).world.lstn.serviceUrls
      = [("Foo:1.0:dubbo", [⟨"dubbo://hostA"⟩])] ∧
    (OnEvent (tableEnv upgradeTable) RangeOrder.reversed
      (OnEvent (tableEnv upgradeTable) RangeOrder.stored (freshWorld ["S"])
        (.ServiceInstancesChangedEvent "S" [instA, instC])).world
      (.ServiceInstancesChangedEvent "S" [instA, instC])).outcome = .returned none ∧
    (OnEvent (tableEnv upgradeTable) RangeOrder.reversed
      (OnEvent (tableEnv upgradeTable) RangeOrder.stored (freshWorld ["S"])
        (.ServiceInstancesChangedEvent "S" [instA, instC])).world
      (.ServiceInstancesChangedEvent "S" [instA, instC])).world.lstn.serviceUrls
      = [("Foo:1.0:dubbo", [⟨"dubbo://hostC"⟩])] := by
  decide

set_option maxRecDepth 8000 in
/-- A second replay that changes `serviceUrls`, with one iteration order throughout: the
resolver is a function of the instance, A and B carry the same revision, the first call
resolves both and publishes `Foo:1.0:dubbo` and `Bar:1.0:dubbo`, the second call finds the
metadata of B in the cache for both and publishes `Bar:1.0:dubbo` alone. -/
theorem onEvent_replay_differs_per_instance :
    (OnEvent perInstanceEnv RangeOrder.stored (freshWorld ["S"])
      (.ServiceInstancesChangedEvent "S" [instA, instB])).outcome = .returned none ∧
    (OnEvent perInstanceEnv RangeOrder.stored (freshWorld ["S"])
      (.ServiceInstancesChangedEvent "S" [instA, instB])).world.lstn.serviceUrls
      = [("Foo:1.0:dubbo", [⟨"dubbo://hostA"⟩, ⟨"dubbo://hostB"⟩]),
          ("Bar:1.0:dubbo", [⟨"dubbo://hostA"⟩, ⟨"dubbo://hostB"⟩])] ∧
    (OnEvent perInstanceEnv RangeOrder.stored
      (OnEvent perInstanceEnv RangeOrder.stored (freshWorld ["S"])
        (.ServiceInstancesChangedEvent "S" [instA, instB])).world
      (.ServiceInstancesChangedEvent "S" [instA, instB])).outcome = .returned none ∧
    (OnEvent perInstanceEnv RangeOrder.stored
      (OnEvent perInstanceEnv RangeOrder.stored (freshWorld ["S"])
        (.ServiceInstancesChangedEvent "S" [instA, instB])).world
      (.ServiceInstancesChangedEvent "S" [instA, instB])).world.lstn.serviceUrls
      = [("Bar:1.0:dubbo", [⟨"dubbo://hostA"⟩, ⟨"dubbo://hostB"⟩])] := by
  decide

theorem getMetadataInfo_freshObjectsEnv (i : ServiceInstance) (m0 : Option MetadataInfo) :
    getMetadataInfo freshObjectsEnv i m0 (revisionOf i) = freshTable i (revisionOf i) := by
  unfold getMetadataInfo
  simp only [freshObjectsEnv]
  split <;> cases freshTable i (revisionOf i) <;> rfl

theorem freshObjectsEnv_revisionDetermines (all : List (String × List ServiceInstance)) :
    RevisionDetermines freshObjectsEnv all := by
  intro i j _ _ _ _ hr m m' h1 h2
  rw [getMetadataInfo_freshObjectsEnv] at h1 h2
  rw [hr] at h1
  unfold freshTable at h1 h2
  intro k
  by_cases hr1 : revisionOf j = "r1"
  · simp only [hr1, if_true] at h1 h2
    cases h1; cases h2
    simp [HasKey]
  · by_cases hr2 : revisionOf j = "r2"
    · simp only [hr1, hr2, if_true, if_false] at h1 h2
      cases h1; cases h2
      exact Iff.rfl
    · simp [hr1, hr2] at h1

set_option maxRecDepth 8000 in
/-- The scenario of the specification as an instance of `onEvent_urls_sound`, where instances A and B export
`Foo:1.0:dubbo` through revision `r1`, each through a `ServiceInfo` object of its own, and
instance C, of revision `r2`, exports nothing; `serviceUrls["Foo:1.0:dubbo"]` holds the URLs
of A and B only. -/
theorem onEvent_urls_sound_witness :
    RevisionDetermines freshObjectsEnv
      (mapSet (freshWorld ["S"]).lstn.allInstances "S" [instA, instB, instC]) ∧
    (OnEvent freshObjectsEnv RangeOrder.stored (freshWorld ["S"])
      (.ServiceInstancesChangedEvent "S" [instA, instB, instC])).outcome = .returned none ∧
    mapGet (OnEvent freshObjectsEnv RangeOrder.stored (freshWorld ["S"])
      (.ServiceInstancesChangedEvent "S" [instA, instB, instC])).world.lstn.serviceUrls
      "Foo:1.0:dubbo" = some [⟨"dubbo://hostA"⟩, ⟨"dubbo://hostB"⟩] ∧
    ∃ (i : ServiceInstance) (called recorded : MetadataInfo),
      StoredIn (OnEvent freshObjectsEnv RangeOrder.stored (freshWorld ["S"])
        (.ServiceInstancesChangedEvent "S" [instA, instB, instC])).world.lstn.allInstances i ∧
      i.Metadata ≠ none ∧ revisionOf i ≠ "0" ∧
      (⟨"dubbo://hostB"⟩ : URL) ∈ freshObjectsEnv.ToURLs i (some called) ∧
      HasKey called "Foo:1.0:dubbo" ∧
      serviceMetadataOf (OnEvent freshObjectsEnv RangeOrder.stored (freshWorld ["S"])
        (.ServiceInstancesChangedEvent "S" [instA, instB, instC])).world i = some recorded ∧
      HasKey recorded "Foo:1.0:dubbo" :=
  ⟨freshObjectsEnv_revisionDetermines _, by decide, by decide,
    onEvent_urls_sound freshObjectsEnv RangeOrder.stored (freshWorld ["S"]) "S"
      [instA, instB, instC] (freshObjectsEnv_revisionDetermines _) (by decide) "Foo:1.0:dubbo"
      [⟨"dubbo://hostA"⟩, ⟨"dubbo://hostB"⟩] ⟨"dubbo://hostB"⟩ (by decide) (by decide)⟩

theorem rangeInstances_resolves_each (env : Env) (ord : RangeOrder) (r : String)
    (instances : List ServiceInstance) (st : Pass) (ha : st.aliased = false)
    (hmiss : mapGet st.world.lstn.revisionToMetadata r = none)
    (hu : ∀ i ∈ instances, Usable i ∧ revisionOf i = r)
    (hres : ∀ i ∈ instances, ∃ m, getMetadataInfo env i none r = .ok (some m)) :
    ∃ st', rangeInstances env ord instances st = .next st' ∧ st'.aliased = false ∧
      st'.world.lstn.revisionToMetadata = st.world.lstn.revisionToMetadata ∧
      st'.world.resolverCalls = st.world.resolverCalls ++ instances.map (fun i => (i, r)) := by
  induction instances generalizing st with
  | nil => exact ⟨st, rfl, ha, rfl, by simp⟩
  | cons inst rest ih =>
    obtain ⟨⟨hm, hz⟩, hr⟩ := hu inst (List.mem_cons_self _ _)
    obtain ⟨m, hg⟩ := hres inst (List.mem_cons_self _ _)
    have hbody : instanceBody env ord st inst = .next (recordMetadata ord
        (logResolverCall (fileInstance st inst (revisionOf inst)) inst (revisionOf inst))
        inst (revisionOf inst) m) := by
      have h := instanceBody_step env ord st inst
      generalize instanceBody env ord st inst = fl at h
      cases h with
      | skipNil h1 => exact absurd h1 hm
      | skipZero h1 => exact absurd h1 hz
      | hit _ _ m' hc => rw [hr, hmiss] at hc; cases hc
      | failed _ _ _ err hg' => rw [hr, hg] at hg'; cases hg'
      | nilResult _ _ _ hg' => rw [hr, hg] at hg'; cases hg'
      | resolved _ _ _ m' hg' =>
        rw [hr, hg] at hg'
        cases hg'
        rfl
    obtain ⟨_, _, fcache, falias⟩ := recordMetadata_fields ord
      (logResolverCall (fileInstance st inst (revisionOf inst)) inst (revisionOf inst)) inst
      (revisionOf inst) m
    have ha1 : (recordMetadata ord
        (logResolverCall (fileInstance st inst (revisionOf inst)) inst (revisionOf inst))
        inst (revisionOf inst) m).aliased = false := falias.trans ha
    have hc1 : (recordMetadata ord
        (logResolverCall (fileInstance st inst (revisionOf inst)) inst (revisionOf inst))
        inst (revisionOf inst) m).world.lstn.revisionToMetadata
        = st.world.lstn.revisionToMetadata := by
      rw [fcache]
      have : (logResolverCall (fileInstance st inst (revisionOf inst)) inst
          (revisionOf inst)).aliased = false := ha
      rw [this]
      rfl
    obtain ⟨st', h1, h2, h3, h4⟩ := ih _ ha1 (by rw [hc1]; exact hmiss)
      (fun i hi => hu i (List.mem_cons_of_mem _ hi))
      (fun i hi => hres i (List.mem_cons_of_mem _ hi))
    refine ⟨st', ?_, h2, h3.trans hc1, ?_⟩
    · simp only [rangeInstances, hbody]
      exact h1
    · rw [h4, recordMetadata_resolverCalls, hr]
      simp [logResolverCall, fileInstance]

/-- What the code does where C2 asks for one call: when no other service name is stored and
the instances of the event all carry one usable revision that the cache does not hold and
that the resolver resolves, `OnEvent` returns no error and has called the resolver once per
instance, in the order of the list. -/
theorem onEvent_resolves_each_instance (env : Env) (ord : RangeOrder) (w : World)
    (ServiceName : String) (Instances : List ServiceInstance) (r : String)
    (hsingle : ∀ entry ∈ w.lstn.allInstances, entry.1 = ServiceName)
    (hmiss : mapGet w.lstn.revisionToMetadata r = none)
    (hu : ∀ i ∈ Instances, Usable i ∧ revisionOf i = r)
    (hres : ∀ i ∈ Instances, ∃ m, getMetadataInfo env i none r = .ok (some m)) :
    (OnEvent env ord w (.ServiceInstancesChangedEvent ServiceName Instances)).outcome
        = .returned none ∧
      (OnEvent env ord w (.ServiceInstancesChangedEvent ServiceName Instances)).world.resolverCalls
        = w.resolverCalls ++ Instances.map (fun i => (i, r)) := by
  have hall : (startPass w ServiceName Instances).world.lstn.allInstances
      = [(ServiceName, Instances)] := by
    simp [startPass, mapSet, mapDel_eq_nil _ _ hsingle]
  obtain ⟨st', h1, _, _, h4⟩ := rangeInstances_resolves_each env ord r Instances
    (startPass w ServiceName Instances) rfl hmiss hu hres
  simp only [OnEvent]
  rw [hall, pick_singleton]
  simp only [rangeAllInstances, h1]
  refine ⟨?_, ?_⟩
  · trivial
  · rw [publish_resolverCalls, h4]; rfl

set_option maxRecDepth 8000 in
/-- The instances A and B of revision `r1`, on a fresh listener, as an instance of
`onEvent_resolves_each_instance`. -/
theorem onEvent_resolves_each_instance_witness :
    (OnEvent (tableEnv scenarioTable) RangeOrder.stored (freshWorld ["S"])
      (.ServiceInstancesChangedEvent "S" [instA, instB])).world.resolverCalls
      = (freshWorld ["S"]).resolverCalls ++ [instA, instB].map (fun i => (i, "r1")) :=
  (onEvent_resolves_each_instance (tableEnv scenarioTable) RangeOrder.stored (freshWorld ["S"])
    "S" [instA, instB] "r1" (by decide) (by decide)
    (fun i hi => by
      simp only [List.mem_cons, List.mem_singleton, List.not_mem_nil, or_false] at hi
      rcases hi with rfl | rfl <;> exact ⟨⟨by decide, by decide⟩, by decide⟩)
    (fun i hi => by
      simp only [List.mem_cons, List.mem_singleton, List.not_mem_nil, or_false] at hi
      rcases hi with rfl | rfl <;> exact ⟨_, rfl⟩)).2

/-- Where C3 does hold: when no other service name is stored, a call of `OnEvent` that returns
an error leaves `serviceUrls` as it was and has sent no notification. -/
theorem onEvent_failure_isolated_single_name (env : Env) (ord : RangeOrder) (w : World)
    (ServiceName : String) (Instances : List ServiceInstance) (err : Err)
    (hsingle : ∀ entry ∈ w.lstn.allInstances, entry.1 = ServiceName)
    (herr : (OnEvent env ord w (.ServiceInstancesChangedEvent ServiceName Instances)).outcome
      = .returned (some err)) :
    (OnEvent env ord w (.ServiceInstancesChangedEvent ServiceName Instances)).world.lstn.serviceUrls
        = w.lstn.serviceUrls ∧
      (OnEvent env ord w (.ServiceInstancesChangedEvent ServiceName Instances)).world.notified
        = w.notified := by
  have hall : (startPass w ServiceName Instances).world.lstn.allInstances
      = [(ServiceName, Instances)] := by
    simp [startPass, mapSet, mapDel_eq_nil _ _ hsingle]
  have hq := rangeInstances_quiet env ord Instances (startPass w ServiceName Instances)
  simp only [OnEvent] at herr ⊢
  rw [hall, pick_singleton] at herr ⊢
  simp only [rangeAllInstances] at herr ⊢
  cases hb : rangeInstances env ord Instances (startPass w ServiceName Instances) with
  | next st1 => rw [hb] at herr; simp [rangeAllInstances] at herr
  | panic st1 => rw [hb] at herr; simp at herr
  | ret e st1 =>
    rw [hb] at hq
    exact ⟨hq.2.1, hq.1⟩

set_option maxRecDepth 8000 in
/-- A failing event on a fresh listener, as an instance of
`onEvent_failure_isolated_single_name`. -/
theorem onEvent_failure_isolated_single_name_witness :
    (OnEvent (tableEnv scenarioTable) RangeOrder.stored (freshWorld ["S1", "S2"])
      (.ServiceInstancesChangedEvent "S2" [instX])).world.lstn.serviceUrls
        = (freshWorld ["S1", "S2"]).lstn.serviceUrls ∧
      (OnEvent (tableEnv scenarioTable) RangeOrder.stored (freshWorld ["S1", "S2"])
        (.ServiceInstancesChangedEvent "S2" [instX])).world.notified
        = (freshWorld ["S1", "S2"]).notified :=
  onEvent_failure_isolated_single_name (tableEnv scenarioTable) RangeOrder.stored
    (freshWorld ["S1", "S2"]) "S2" [instX] "metadata not found" (by decide) (by decide)

/-! ## C9: URLs of an instance whose metadata does not export the service -/

theorem lastPass_world (env : Env) (ord : RangeOrder)
    (entries : List (String × List ServiceInstance)) (st : Pass) :
    (rangeAllInstances env ord entries st).world = (lastPass env ord entries st).world := by
  induction entries generalizing st with
  | nil => rfl
  | cons entry rest ih =>
    unfold rangeAllInstances lastPass
    cases rangeInstances env ord entry.2 st with
    | next st1 => exact ih _
    | ret err st1 => rfl
    | panic st1 => rfl

/-- The world `OnEvent` leaves is the world of its local state at the return. -/
theorem OnEventLocals_world (env : Env) (ord : RangeOrder) (w : World) (ServiceName : String)
    (Instances : List ServiceInstance) :
    (OnEvent env ord w (.ServiceInstancesChangedEvent ServiceName Instances)).world
      = (OnEventLocals env ord w ServiceName Instances).world :=
  lastPass_world env ord _ _

/-- Processing one `ServiceInfo` stores its URL list under the address of its own revision
set: the lookup of line 113 for a set at another address that missed before misses after. -/
theorem serviceBody_keeps_miss (env : Env) (ord : RangeOrder) (st : Pass)
    (entry : ServiceInfo × (Nat × List String)) (protocol : String) (ptr : Nat)
    (hne : ptr ≠ entry.2.1) (hmiss : mapGet (revisionsToUrlsOf st protocol) ptr = none) :
    mapGet (revisionsToUrlsOf (serviceBody env ord st entry) protocol) ptr = none := by
  unfold serviceBody
  split
  · exact hmiss
  · show mapGet ((mapGet (mapSet st.protocolRevisionsToUrls entry.1.Protocol _) protocol).getD [])
      ptr = none
    by_cases hp : entry.1.Protocol = protocol
    · subst hp
      rw [mapGet_mapSet_same]
      show mapGet (mapSet _ _ _) ptr = none
      rw [mapGet_mapSet_ne _ _ _ _ hne]
      exact hmiss
    · rw [mapGet_mapSet_ne _ _ _ _ (Ne.symm hp)]
      exact hmiss

set_option maxRecDepth 8000 in
/-- C11 (grouping equivalence), evaluated where the code departs from it.  Revision `r1`
exports `Foo:1.0` and `Bar:1.0` on protocol dubbo and instance A carries `r1`: `OnEvent`
returns no error, the two `ServiceInfo` objects have accumulated the same revision strings
in two sets (addresses 0 and 1), and the table of protocol dubbo ends with one URL list per
set address, so the list of the one revision set was built twice and the lookup for the second
`ServiceInfo` was no hit.  With instance C of revision `r2`, which exports `Foo:1.0` alone,
and the entry of `r2` visited last, the URL lists of the two match-keys differ although
the sets of the two `ServiceInfo` objects of `r1` hold the same revision. -/
theorem onEvent_builds_per_service :
    ((OnEvent (tableEnv twoServicesTable) RangeOrder.stored (freshWorld ["S"])
        (.ServiceInstancesChangedEvent "S" [instA])).outcome = .returned none ∧
      fooOfR1.Protocol = barOfR1.Protocol ∧
      (OnEventLocals (tableEnv twoServicesTable) RangeOrder.stored (freshWorld ["S"]) "S"
        [instA]).localServiceToRevisions = [(barOfR1, (1, ["r1"])), (fooOfR1, (0, ["r1"]))] ∧
      (OnEventLocals (tableEnv twoServicesTable) RangeOrder.stored (freshWorld ["S"]) "S"
        [instA]).protocolRevisionsToUrls
        = [("dubbo", [(0, [⟨"dubbo://hostA"⟩, ⟨"dubbo://hostA"⟩]),
            (1, [⟨"dubbo://hostA"⟩, ⟨"dubbo://hostA"⟩])])] ∧
      (OnEvent (tableEnv twoServicesTable) RangeOrder.stored (freshWorld ["S"])
        (.ServiceInstancesChangedEvent "S" [instA])).world.lstn.serviceUrls
        = [("Foo:1.0:dubbo", [⟨"dubbo://hostA"⟩, ⟨"dubbo://hostA"⟩]),
            ("Bar:1.0:dubbo", [⟨"dubbo://hostA"⟩, ⟨"dubbo://hostA"⟩])]) ∧
    ((OnEvent (tableEnv twoServicesTable) RangeOrder.reversed (freshWorld ["S"])
        (.ServiceInstancesChangedEvent "S" [instA, instC])).outcome = .returned none ∧
      revisionsOf (OnEventLocals (tableEnv twoServicesTable) RangeOrder.reversed (freshWorld ["S"])
        "S" [instA, instC]) fooOfR1 = ["r1"] ∧
      revisionsOf (OnEventLocals (tableEnv twoServicesTable) RangeOrder.reversed (freshWorld ["S"])
        "S" [instA, instC]) barOfR1 = ["r1"] ∧
      mapGet (OnEvent (tableEnv twoServicesTable) RangeOrder.reversed (freshWorld ["S"])
        (.ServiceInstancesChangedEvent "S" [instA, instC])).world.lstn.serviceUrls "Foo:1.0:dubbo"
        = some [⟨"dubbo://hostC"⟩] ∧
      mapGet (OnEvent (tableEnv twoServicesTable) RangeOrder.reversed (freshWorld ["S"])
        (.ServiceInstancesChangedEvent "S" [instA, instC])).world.lstn.serviceUrls "Bar:1.0:dubbo"
        = some [⟨"dubbo://hostA"⟩, ⟨"dubbo://hostA"⟩]) := by
  decide

section ownsets

theorem setAddrs_mapDel_sub (loc : List (ServiceInfo × (Nat × List String))) (k : ServiceInfo) :
    ∀ a ∈ setAddrs (mapDel loc k), a ∈ setAddrs loc := by
  intro a ha
  unfold setAddrs at ha ⊢
  rw [List.mem_map] at ha ⊢
  obtain ⟨e, he, rfl⟩ := ha
  exact ⟨e, (mem_mapDel he).1, rfl⟩

theorem setAddrs_mapDel_nodup (loc : List (ServiceInfo × (Nat × List String))) (k : ServiceInfo)
    (h : (setAddrs loc).Nodup) : (setAddrs (mapDel loc k)).Nodup := by
  induction loc with
  | nil => exact List.nodup_nil
  | cons e rest ih =>
    obtain ⟨k', v⟩ := e
    have h' : v.1 ∉ setAddrs rest ∧ (setAddrs rest).Nodup := List.nodup_cons.1 h
    unfold mapDel
    split
    · exact ih h'.2
    · show (v.1 :: setAddrs (mapDel rest k)).Nodup
      exact List.nodup_cons.2 ⟨fun hm => h'.1 (setAddrs_mapDel_sub rest k _ hm), ih h'.2⟩

theorem setAddrs_mapDel_not_mem (loc : List (ServiceInfo × (Nat × List String))) (k : ServiceInfo)
    (ptr : Nat) (revs : List String) (h : (setAddrs loc).Nodup)
    (hg : mapGet loc k = some (ptr, revs)) : ptr ∉ setAddrs (mapDel loc k) := by
  induction loc with
  | nil => simp [mapGet] at hg
  | cons e rest ih =>
    obtain ⟨k', v⟩ := e
    have h' : v.1 ∉ setAddrs rest ∧ (setAddrs rest).Nodup := List.nodup_cons.1 h
    unfold mapGet at hg
    unfold mapDel
    by_cases hk : k' = k
    · rw [if_pos hk] at hg ⊢
      cases hg
      exact fun hm => h'.1 (setAddrs_mapDel_sub rest k _ hm)
    · rw [if_neg hk] at hg ⊢
      intro hm
      have hm' : ptr = v.1 ∨ ptr ∈ setAddrs (mapDel rest k) := List.mem_cons.1 hm
      rcases hm' with hm' | hm'
      · apply h'.1
        rw [← hm']
        exact List.mem_map.2 ⟨(k, (ptr, revs)), mem_of_mapGet hg, rfl⟩
      · exact ih h'.2 hg hm'

/-- Lines 97-100 keep the sets apart: a new set gets a new address, an old one keeps its
owner. -/
theorem addRevision_ownSets (revision : String) (st : Pass) (service : ServiceInfo)
    (h : OwnSets st) : OwnSets (addRevision revision st service) := by
  obtain ⟨hn, hb⟩ := h
  unfold addRevision
  split
  · refine ⟨?_, ?_⟩
    · show (st.nextSet :: setAddrs (mapDel st.localServiceToRevisions service)).Nodup
      refine List.nodup_cons.2 ⟨fun hm => ?_, setAddrs_mapDel_nodup _ _ hn⟩
      exact Nat.lt_irrefl _ (hb _ (setAddrs_mapDel_sub _ _ _ hm))
    · intro a ha
      have ha' : a = st.nextSet ∨ a ∈ setAddrs (mapDel st.localServiceToRevisions service) :=
        List.mem_cons.1 ha
      rcases ha' with ha' | ha'
      · rw [ha']; exact Nat.lt_succ_self _
      · exact Nat.lt_succ_of_lt (hb _ (setAddrs_mapDel_sub _ _ _ ha'))
  · next ptr revs hg =>
    refine ⟨?_, ?_⟩
    · show (ptr :: setAddrs (mapDel st.localServiceToRevisions service)).Nodup
      exact List.nodup_cons.2
        ⟨setAddrs_mapDel_not_mem _ _ ptr revs hn hg, setAddrs_mapDel_nodup _ _ hn⟩
    · intro a ha
      have ha' : a = ptr ∨ a ∈ setAddrs (mapDel st.localServiceToRevisions service) :=
        List.mem_cons.1 ha
      rcases ha' with ha' | ha'
      · rw [ha']
        exact hb _ (List.mem_map.2 ⟨(service, (ptr, revs)), mem_of_mapGet hg, rfl⟩)
      · exact hb _ (setAddrs_mapDel_sub _ _ _ ha')

theorem rangeServices_ownSets (revision : String) (services : List ServiceInfo) (st : Pass)
    (h : OwnSets st) : OwnSets (rangeServices revision services st) := by
  unfold rangeServices
  have key : ∀ (l : List ServiceInfo) (s0 : Pass), OwnSets s0 →
      OwnSets (l.foldl (addRevision revision) s0) := by
    intro l
    induction l with
    | nil => intro s0 h0; exact h0
    | cons e rest ih => intro s0 h0; exact ih _ (addRevision_ownSets revision s0 e h0)
  exact key services _ h

theorem recordMetadata_ownSets (ord : RangeOrder) (st : Pass) (inst : ServiceInstance)
    (revision : String) (metadataInfo : MetadataInfo) (h : OwnSets st) :
    OwnSets (recordMetadata ord st inst revision metadataInfo) :=
  rangeServices_ownSets revision _ (SetServiceMetadata st inst (some metadataInfo)) h

theorem instanceBody_ownSets (env : Env) (ord : RangeOrder) (st st1 : Pass)
    (inst : ServiceInstance) (h : OwnSets st) (hb : instanceBody env ord st inst = .next st1) :
    OwnSets st1 := by
  have hstep := instanceBody_step env ord st inst
  rw [hb] at hstep
  generalize hfl : Flow.next st1 = fl at hstep
  cases hstep with
  | skipNil _ => cases hfl; exact h
  | skipZero _ => cases hfl; exact h
  | hit _ _ m _ => cases hfl; exact recordMetadata_ownSets ord _ inst _ m h
  | failed _ _ _ _ _ => cases hfl
  | nilResult _ _ _ _ => cases hfl
  | resolved _ _ _ m _ => cases hfl; exact recordMetadata_ownSets ord _ inst _ m h

/-- When the instances of a service name have been visited, no two `ServiceInfo` objects
share a revision set. -/
theorem rangeInstances_ownSets (env : Env) (ord : RangeOrder) (instances : List ServiceInstance)
    (st st1 : Pass) (h : OwnSets st) (hb : rangeInstances env ord instances st = .next st1) :
    OwnSets st1 :=
  rangeInstances_next_inv env ord OwnSets instances
    (fun inst _ s s1 hs hb1 => instanceBody_ownSets env ord s s1 inst hs hb1) st st1 h hb

/-- Entries before `entry` whose sets are other objects leave the lookup of line 113 for
`entry` a miss. -/
theorem foldl_serviceBody_miss (env : Env) (ord : RangeOrder)
    (pre : List (ServiceInfo × (Nat × List String))) (st : Pass) (protocol : String) (ptr : Nat)
    (hne : ∀ e ∈ pre, ptr ≠ e.2.1) (hmiss : mapGet (revisionsToUrlsOf st protocol) ptr = none) :
    mapGet (revisionsToUrlsOf (pre.foldl (serviceBody env ord) st) protocol) ptr = none := by
  induction pre generalizing st with
  | nil => exact hmiss
  | cons e rest ih =>
    rw [List.foldl_cons]
    exact ih _ (fun e' he' => hne e' (List.mem_cons_of_mem _ he'))
      (serviceBody_keeps_miss env ord st e protocol ptr (hne e (List.mem_cons_self _ _)) hmiss)

end ownsets

/-- No hit in the first publication, for every input: in the publication that follows the
instances of the first service name (lines 107-129 run from the empty table of line 69),
the lookup of line 113 misses for every `ServiceInfo`, whatever revisions its set holds: each
entry that the loop reaches finds no URL list under the address of its set, so a list is built
for each `ServiceInfo` and none is reused. -/
theorem first_publish_all_miss (env : Env) (ord : RangeOrder) (w : World) (ServiceName : String)
    (Instances instances : List ServiceInstance) (st1 : Pass)
    (hb : rangeInstances env ord instances (startPass w ServiceName Instances) = .next st1)
    (pre post : List (ServiceInfo × (Nat × List String)))
    (entry : ServiceInfo × (Nat × List String))
    (hsplit : ord.pick (publishRevisions st1).tick (publishRevisions st1).localServiceToRevisions
      = pre ++ entry :: post) :
    mapGet (revisionsToUrlsOf
        (pre.foldl (serviceBody env ord)
          { publishRevisions st1 with tick := (publishRevisions st1).tick + 1 })
        entry.1.Protocol) entry.2.1 = none := by
  have hstart : OwnSets (startPass w ServiceName Instances) :=
    ⟨List.nodup_nil, fun a ha => by cases ha⟩
  have hown : OwnSets st1 := rangeInstances_ownSets env ord instances _ st1 hstart hb
  have hq := rangeInstances_quiet env ord instances (startPass w ServiceName Instances)
  rw [hb] at hq
  have htable : st1.protocolRevisionsToUrls = [] := hq.2.2.2
  have hperm : (setAddrs (pre ++ entry :: post)).Perm (setAddrs st1.localServiceToRevisions) := by
    rw [← hsplit]
    exact (ord.perm _ _).map _
  have hnodup : (setAddrs (pre ++ entry :: post)).Nodup := hperm.nodup_iff.2 hown.1
  apply foldl_serviceBody_miss
  · intro e he heq
    unfold setAddrs at hnodup
    rw [List.map_append, List.map_cons] at hnodup
    have hdis := (List.nodup_append.1 hnodup).2.2
    exact hdis (List.mem_map.2 ⟨e, he, rfl⟩) (heq ▸ List.mem_cons_self _ _)
  · show mapGet ((mapGet st1.protocolRevisionsToUrls entry.1.Protocol).getD []) entry.2.1 = none
    rw [htable]
    rfl

set_option maxRecDepth 8000 in
/-- An instance of `first_publish_all_miss`: instance A of revision `r1`, which exports
`Foo:1.0` and `Bar:1.0`; when the loop reaches the entry of `Foo:1.0`, after that of
`Bar:1.0`, the table holds no list under the address of its set. -/
theorem first_publish_all_miss_witness :
    mapGet (revisionsToUrlsOf
        ([(barOfR1, ((1 : Nat), ["r1"]))].foldl
          (serviceBody (tableEnv twoServicesTable) RangeOrder.stored)
          { publishRevisions (rangeInstances (tableEnv twoServicesTable) RangeOrder.stored
                [instA] (startPass (freshWorld ["S"]) "S" [instA])).pass with
            tick := (publishRevisions (rangeInstances (tableEnv twoServicesTable)
              RangeOrder.stored [instA] (startPass (freshWorld ["S"]) "S" [instA])).pass).tick + 1 })
        fooOfR1.Protocol) 0 = none :=
  first_publish_all_miss (tableEnv twoServicesTable) RangeOrder.stored (freshWorld ["S"]) "S"
    [instA] [instA] _ rfl [(barOfR1, (1, ["r1"]))] [] (fooOfR1, (0, ["r1"])) (by decide)

/-! ## C16, C17 and C18: the acceptance filter, the resolver and other events -/

/-- C16 (acceptance filter): `Accept` answers true exactly for a
`ServiceInstancesChangedEvent` whose service name is in `ServiceNames`, and false for every
event of another type.  The function reads the listener and assigns nothing, which the
embedding records by returning the Boolean alone. -/
theorem accept_iff_watched (w : World) (e : Event) :
    (Accept w e = true ↔
      ∃ ServiceName Instances, e = .ServiceInstancesChangedEvent ServiceName Instances ∧
        ServiceName ∈ w.lstn.ServiceNames) ∧
    (∀ tag, Accept w (.otherEvent tag) = false) := by
  refine ⟨?_, fun _ => rfl⟩
  cases e with
  | ServiceInstancesChangedEvent name insts =>
    constructor
    · intro h
      exact ⟨name, insts, rfl, of_decide_eq_true h⟩
    · rintro ⟨n, i, he, hm⟩
      cases he
      exact decide_eq_true hm
  | otherEvent tag =>
    constructor
    · intro h; cases h
    · rintro ⟨n, i, he, _⟩; cases he

/-- The storage type read by lines 147-152 is `"remote"`. -/
theorem remote_iff (inst : ServiceInstance) :
    (match inst.Metadata with
      | none => DEFAULT_METADATA_STORAGE_TYPE
      | some md => (mapGet md METADATA_STORAGE_TYPE_PROPERTY_NAME).getD "")
        = REMOTE_METADATA_STORAGE_TYPE ↔
      ∃ md, inst.Metadata = some md ∧
        mapGet md METADATA_STORAGE_TYPE_PROPERTY_NAME = some "remote" := by
  cases hm : inst.Metadata with
  | none =>
    simp only [false_and, exists_false, iff_false]
    decide
  | some md =>
    cases hg : mapGet md METADATA_STORAGE_TYPE_PROPERTY_NAME with
    | none =>
      simp only [Option.getD_none, Option.some.injEq, exists_eq_left', hg, iff_false]
      decide
    | some v =>
      simp only [Option.getD_some, Option.some.injEq, exists_eq_left', hg,
        REMOTE_METADATA_STORAGE_TYPE]

/-- C17 (resolver strategy selection): when the metadata of the instance carries the
storage type `"remote"`, `getMetadataInfo` returns the error of obtaining the remote
metadata service if that fails and otherwise what `GetMetadata(instance)` of the remote
service returns; in every other case (another value, no such key, nil metadata) it returns
what `GetMetadataInfo(revision)` of the local proxy returns.  An error of the chosen backend
is returned as it is, with no `MetadataInfo`. -/
theorem getMetadataInfo_strategy (env : Env) (inst : ServiceInstance)
    (metadataInfo : Option MetadataInfo) (revision : String) :
    ((∃ md, inst.Metadata = some md ∧
          mapGet md METADATA_STORAGE_TYPE_PROPERTY_NAME = some "remote") →
        (∀ err, env.GetRemoteMetadataService = .error err →
          getMetadataInfo env inst metadataInfo revision = .error err) ∧
        (env.GetRemoteMetadataService = .ok () →
          getMetadataInfo env inst metadataInfo revision = env.GetMetadata inst)) ∧
    ((¬ ∃ md, inst.Metadata = some md ∧
          mapGet md METADATA_STORAGE_TYPE_PROPERTY_NAME = some "remote") →
        getMetadataInfo env inst metadataInfo revision = env.GetMetadataInfo inst revision) := by
  constructor
  · intro h
    have hr := (remote_iff inst).2 h
    constructor
    · intro err he
      unfold getMetadataInfo
      dsimp only
      split
      · rw [he]
      · next hneg => exact absurd hr hneg
    · intro he
      unfold getMetadataInfo
      dsimp only
      split
      · rw [he]
        cases env.GetMetadata inst <;> rfl
      · next hneg => exact absurd hr hneg
  · intro h
    unfold getMetadataInfo
    dsimp only
    split
    · next hpos => exact absurd ((remote_iff inst).1 hpos) h
    · cases env.GetMetadataInfo inst revision <;> rfl

/-- Witness of `getMetadataInfo_strategy`: with two backends that answer differently, the
instance of storage type `"remote"` gets the answer of the remote service, instance A, which
names no storage type, and instance N, whose metadata is nil, get that of the local proxy. -/
theorem getMetadataInfo_strategy_witness :
    getMetadataInfo twoBackendsEnv instR none "r1" = .ok (some ⟨"from the remote store", []⟩) ∧
    getMetadataInfo twoBackendsEnv instA none "r1" = .error "local proxy unreachable" ∧
    getMetadataInfo twoBackendsEnv instN none "r1" = .error "local proxy unreachable" :=
  ⟨((getMetadataInfo_strategy twoBackendsEnv instR none "r1").1 ⟨_, rfl, by decide⟩).2 rfl,
    (getMetadataInfo_strategy twoBackendsEnv instA none "r1").2
      (by rintro ⟨md, hmd, hr⟩; cases hmd; revert hr; decide),
    (getMetadataInfo_strategy twoBackendsEnv instN none "r1").2
      (by rintro ⟨md, hmd, _⟩; cases hmd)⟩

/-- C18 (unexpected event types are ignored): for an event that is no
`ServiceInstancesChangedEvent`, `OnEvent` returns nil and leaves the whole world as it was:
the instance table, the revision cache, the URL table and the listeners are unchanged, the
resolver log and the notification log get no entry. -/
theorem onEvent_ignores_other_events (env : Env) (ord : RangeOrder) (w : World) (e : Event)
    (hother : ∀ ServiceName Instances, e ≠ .ServiceInstancesChangedEvent ServiceName Instances) :
    OnEvent env ord w e = ⟨.returned none, w⟩ := by
  cases e with
  | ServiceInstancesChangedEvent name insts => exact absurd rfl (hother name insts)
  | otherEvent tag => rfl

/-- Witness of `onEvent_ignores_other_events`: an event of another type sent to the listener
that stores instance A under `S1`. -/
theorem onEvent_ignores_other_events_witness :
    OnEvent (tableEnv upgradeTable) RangeOrder.stored worldWithS1 (.otherEvent "heartbeat")
      = ⟨.returned none, worldWithS1⟩ :=
  onEvent_ignores_other_events (tableEnv upgradeTable) RangeOrder.stored worldWithS1
    (.otherEvent "heartbeat") (fun _ _ h => Event.noConfusion h)

end RegistryEvent

namespace RouterScript

open RegistryEvent (mapGet EventType Err)

/-! ## The script instance: when no program is stored -/

/-- Whether `Compile` returns an error does not depend on the instance. -/
theorem compile_error_eq (env : Env) (i j : jsInstances) (key rawScript : String) :
    (i.Compile env key rawScript).1 = (j.Compile env key rawScript).1 := by
  unfold jsInstances.Compile
  cases env.Compile (key ++ "_jsScriptRoute") (js_script_perfix ++ rawScript) true <;> rfl

/-- A `Compile` call that returns an error leaves the instance as it was. -/
theorem compile_failed_keeps (env : Env) (i : jsInstances) (key rawScript : String)
    (h : (i.Compile env key rawScript).1 ≠ none) : (i.Compile env key rawScript).2 = i := by
  unfold jsInstances.Compile at h ⊢
  cases hc : env.Compile (key ++ "_jsScriptRoute") (js_script_perfix ++ rawScript) true with
  | error err => rfl
  | ok pg => rw [hc] at h; exact absurd rfl h

/-- Operations without a successful `Compile` store no program. -/
theorem foldl_apply_none (env : Env) (ops : List InstanceOp) (i : jsInstances)
    (hi : i.program = none) (hops : ∀ op ∈ ops, ¬ SuccessfulCompile env op) :
    (ops.foldl (InstanceOp.apply env) i).program = none := by
  induction ops generalizing i with
  | nil => exact hi
  | cons op rest ih =>
    rw [List.foldl_cons]
    apply ih _ _ (fun o ho => hops o (List.mem_cons_of_mem _ ho))
    cases op with
    | Destroy => rfl
    | Compile key rawScript =>
      have hfail : (i.Compile env key rawScript).1 ≠ none := by
        intro hs
        apply hops (.Compile key rawScript) (List.mem_cons_self _ _)
        exact ⟨key, rawScript, rfl, (compile_error_eq env newJsInstances i key rawScript).trans hs⟩
      show ((i.Compile env key rawScript).2).program = none
      rw [compile_failed_keeps env i key rawScript hfail]
      exact hi

/-- A history in which no program is stored leaves the instance without a program. -/
theorem afterOps_program (env : Env) (ops : List InstanceOp) (h : NoProgramStored env ops) :
    (afterOps env ops).program = none := by
  rcases h with h | ⟨before, after, rfl, h⟩
  · exact foldl_apply_none env ops newJsInstances rfl h
  · unfold afterOps
    rw [List.foldl_append, List.foldl_cons]
    exact foldl_apply_none env after _ rfl h

/-- C20 (`RunScript` is the identity when no program is stored): if the instance has never
had a successful `Compile`, or `Destroy` was called after the last successful `Compile`, then
for every invoker list, invocation and script string `RunScript` returns its `invokers`
argument with a nil error, and makes no call to the script engine. -/
theorem runScript_identity_without_program (env : Env) (ops : List InstanceOp)
    (rawScript : String) (invokers : Option (List Invoker)) (invocation : Invocation)
    (h : NoProgramStored env ops) :
    (afterOps env ops).RunScript env rawScript invokers invocation
      = (.returned invokers none, []) := by
  unfold jsInstances.RunScript
  rw [afterOps_program env ops h]

/-- Witness of `runScript_identity_without_program`: a successful `Compile`, then `Destroy`,
then a `Compile` of a script that does not compile. -/
theorem runScript_identity_without_program_witness :
    NoProgramStored sampleEnv
        [.Compile "demo-app" "invokers.slice(0, 1)", .Destroy, .Compile "demo-app" "invokers.slice("] ∧
      (afterOps sampleEnv
          [.Compile "demo-app" "invokers.slice(0, 1)", .Destroy,
            .Compile "demo-app" "invokers.slice("]).RunScript sampleEnv "invokers.slice(0, 1)"
          threeInvokers sayHello = (.returned threeInvokers none, []) :=
  have hno : NoProgramStored sampleEnv
      [.Compile "demo-app" "invokers.slice(0, 1)", .Destroy,
        .Compile "demo-app" "invokers.slice("] :=
    Or.inr ⟨[.Compile "demo-app" "invokers.slice(0, 1)"], [.Compile "demo-app" "invokers.slice("],
      rfl, by
        intro op hop
        rw [List.mem_singleton] at hop
        subst hop
        rintro ⟨key, rawScript, he, hs⟩
        cases he
        revert hs
        decide⟩
  ⟨hno, runScript_identity_without_program sampleEnv _ _ _ _ hno⟩

/-- While a program is stored `RunScript` does run it: after a successful `Compile` the
sample instance runs the program on the three invokers, and the value the engine hands back
fails the type assertion of line 100. -/
theorem runScript_with_program :
    (afterOps sampleEnv [.Compile "demo-app" "invokers.slice(0, 1)"]).RunScript sampleEnv
        "invokers.slice(0, 1)" threeInvokers sayHello
      = (.panicked,
          [.run ⟨"demo-app_jsScriptRoute", js_script_perfix ++ "invokers.slice(0, 1)"⟩
            threeInvokers sayHello]) := by
  decide

/-! ## Route -/

/-- When `RunScript` returns an error, the list it returns is nil. -/
theorem runScript_error_nil (env : Env) (i : jsInstances) (rawScript : String)
    (invokers : Option (List Invoker)) (invocation : Invocation)
    (res : Option (List Invoker)) (err : Err)
    (h : (i.RunScript env rawScript invokers invocation).1 = .returned res (some err)) :
    res = none := by
  unfold jsInstances.RunScript at h
  cases hp : i.program with
  | none => rw [hp] at h; cases h
  | some pg =>
    rw [hp] at h
    dsimp only at h
    split at h
    · dsimp only at h
      unfold runProgram at h
      split at h
      · cases h; rfl
      · cases h
      · split at h <;> cases h
    · cases h

/-- When `runScript` returns an error, the list it returns is nil. -/
theorem routerRunScript_error_nil (env : Env) (w : World) (scriptType rawScript : String)
    (invokers : Option (List Invoker)) (invocation : Invocation)
    (res : Option (List Invoker)) (err : Err)
    (h : (runScript env w scriptType rawScript invokers invocation).1 = .returned res (some err)) :
    res = none := by
  unfold runScript at h
  split at h
  · cases h; rfl
  · exact runScript_error_nil env _ rawScript invokers invocation res err h

/-- `Route` on a list that is neither nil nor empty, for an enabled router. -/
theorem route_enabled (env : Env) (w : World) (invokers : Option (List Invoker))
    (url : Option RegistryEvent.URL) (invocation : Invocation)
    (hlen : len invokers ≠ 0) (hon : w.router.enabled = true) :
    Route env w invokers url invocation =
      (routed (runScript env w w.router.scriptType w.router.rawScript invokers invocation).1,
        (runScript env w w.router.scriptType w.router.rawScript invokers invocation).2) := by
  have hnil : invokers ≠ none := by
    intro h; subst h; exact hlen rfl
  unfold Route
  rw [if_neg (by simp [hnil, hlen]), if_neg (by simp [hon])]

/-- `Route` on a list that is neither nil nor empty, for a disabled router. -/
theorem route_disabled (env : Env) (w : World) (invokers : Option (List Invoker))
    (url : Option RegistryEvent.URL) (invocation : Invocation)
    (hlen : len invokers ≠ 0) (hoff : w.router.enabled = false) :
    Route env w invokers url invocation = (.returned invokers, w) := by
  have hnil : invokers ≠ none := by
    intro h; subst h; exact hlen rfl
  unfold Route
  rw [if_neg (by simp [hnil, hlen]), if_pos hoff]

/-- `Route` on a nil or empty list. -/
theorem route_empty (env : Env) (w : World) (invokers : Option (List Invoker))
    (url : Option RegistryEvent.URL) (invocation : Invocation) (hlen : len invokers = 0) :
    Route env w invokers url invocation = (.returned (some []), w) := by
  unfold Route
  rw [if_pos (Or.inr hlen)]

/-- C12 (script failure), as the code has it: for every invoker list that is neither nil nor
empty, when the router is enabled and `runScript` returns an error, `Route` returns the nil
list. -/
theorem route_failure_returns_nil (env : Env) (w : World) (invokers : Option (List Invoker))
    (url : Option RegistryEvent.URL) (invocation : Invocation)
    (res : Option (List Invoker)) (err : Err)
    (hlen : len invokers ≠ 0) (hon : w.router.enabled = true)
    (hfail : (runScript env w w.router.scriptType w.router.rawScript invokers invocation).1
      = .returned res (some err)) :
    (Route env w invokers url invocation).1 = .returned none := by
  rw [route_enabled env w invokers url invocation hlen hon]
  have hres := routerRunScript_error_nil env w _ _ invokers invocation res err hfail
  subst hres
  show routed _ = _
  rw [hfail]
  rfl

set_option maxRecDepth 8000 in
/-- Witness of `route_failure_returns_nil`: the enabled router whose script throws when it
runs. -/
theorem route_failure_returns_nil_witness :
    len threeInvokers ≠ 0 ∧ throwingWorld.router.enabled = true ∧
      (runScript sampleEnv throwingWorld throwingWorld.router.scriptType
          throwingWorld.router.rawScript threeInvokers sayHello).1
        = .returned none (some "ReferenceError: undefinedFunction is not defined") ∧
      (Route sampleEnv throwingWorld threeInvokers none sayHello).1 = .returned none :=
  ⟨by decide, by decide, by decide,
    route_failure_returns_nil sampleEnv throwingWorld threeInvokers none sayHello none
      "ReferenceError: undefinedFunction is not defined" (by decide) (by decide) (by decide)⟩

set_option maxRecDepth 8000 in
/-- C12 as stated fails.  The router is enabled and the invoker list has three elements.
When the script throws at run time, `runScript` returns an error and `Route` returns the
nil list, not the input; when no instance is registered for the script type, `runScript`
returns the error of `GetInstances` and `Route` returns the nil list as well. -/
theorem route_failure_drops_invokers :
    (throwingWorld.router.enabled = true ∧
      (runScript sampleEnv throwingWorld throwingWorld.router.scriptType
          throwingWorld.router.rawScript threeInvokers sayHello).1
        = .returned none (some "ReferenceError: undefinedFunction is not defined") ∧
      (Route sampleEnv throwingWorld threeInvokers none sayHello).1 = .returned none ∧
      (Route sampleEnv throwingWorld threeInvokers none sayHello).1 ≠ .returned threeInvokers) ∧
    (unregisteredWorld.router.enabled = true ∧
      GetInstances unregisteredWorld unregisteredWorld.router.scriptType
        = .error "script type lua not be loaded" ∧
      (runScript sampleEnv unregisteredWorld unregisteredWorld.router.scriptType
          unregisteredWorld.router.rawScript threeInvokers sayHello).1
        = .returned none (some "script type lua not be loaded") ∧
      (Route sampleEnv unregisteredWorld threeInvokers none sayHello).1 = .returned none ∧
      (Route sampleEnv unregisteredWorld threeInvokers none sayHello).1
        ≠ .returned threeInvokers) := by
  refine ⟨⟨by decide, by decide, by decide, by decide⟩, by decide, rfl, by decide, by decide,
    by decide⟩

/-! ## Process -/

/-- `checkConfig` on a configuration that lacks a required field or belongs to another
application. -/
theorem checkConfig_invalid (env : Env) (cfg : RouterConfig)
    (hbad : cfg.ScriptType = "" ∨ cfg.Script = "" ∨ cfg.Key = "" ∨ cfg.Key ≠ env.ApplicationName) :
    checkConfig env cfg = some false := by
  unfold checkConfig
  by_cases h1 : "" = cfg.ScriptType
  · rw [if_pos h1]
  · rw [if_neg h1]
    by_cases h2 : "" = cfg.Script
    · rw [if_pos h2]
    · rw [if_neg h2]
      by_cases h3 : "" = cfg.Key
      · rw [if_pos h3]
      · rw [if_neg h3]
        by_cases h4 : cfg.Key ≠ env.ApplicationName
        · rw [if_pos h4]
        · rcases hbad with h | h | h | h
          · exact absurd h.symm h1
          · exact absurd h.symm h2
          · exact absurd h.symm h3
          · exact absurd h h4

/-- `checkConfig` on a valid configuration: true when the enabled flag is present, a nil
dereference when it is not. -/
theorem checkConfig_valid (env : Env) (cfg : RouterConfig) (hv : ValidConfig env cfg) :
    checkConfig env cfg = cfg.Enabled.map (fun _ => true) := by
  obtain ⟨h1, h2, h3, h4⟩ := hv
  unfold checkConfig
  rw [if_neg (fun h => h1 h.symm), if_neg (fun h => h2 h.symm), if_neg (fun h => h3 h.symm),
    if_neg (fun h => h h4)]
  cases cfg.Enabled <;> rfl

/-- `Process` on an add or update event whose value decodes to `cfg`. -/
theorem process_configure (env : Env) (w : World) (event : ConfigChangeEvent)
    (rawConf : String) (cfg : RouterConfig)
    (hkind : event.ConfigType = .EventTypeAdd ∨ event.ConfigType = .EventTypeUpdate)
    (hvalue : event.Value = .str rawConf) (hparse : parseRoute env rawConf = .ok cfg) :
    Process env w event = configure env w cfg := by
  unfold Process
  rw [hvalue]
  dsimp only
  rw [hparse]
  dsimp only
  rcases hkind with h | h <;> rw [h]

/-- C14 (invalid configuration is rejected atomically): for an add or update event whose
document decodes to a configuration with an empty type, an empty script, an empty key or a
key that is not the application name, `Process` completes and leaves the world as it was:
`scriptType`, `rawScript` and `enabled` keep their values, no instance loses or gets a
program and no call reaches the script engine. -/
theorem process_rejects_invalid (env : Env) (w : World) (event : ConfigChangeEvent)
    (rawConf : String) (cfg : RouterConfig)
    (hkind : event.ConfigType = .EventTypeAdd ∨ event.ConfigType = .EventTypeUpdate)
    (hvalue : event.Value = .str rawConf) (hparse : parseRoute env rawConf = .ok cfg)
    (hbad : cfg.ScriptType = "" ∨ cfg.Script = "" ∨ cfg.Key = "" ∨ cfg.Key ≠ env.ApplicationName) :
    Process env w event = ⟨.completed, w⟩ := by
  rw [process_configure env w event rawConf cfg hkind hvalue hparse]
  unfold configure
  rw [checkConfig_invalid env cfg hbad]

set_option maxRecDepth 8000 in
/-- Witness of `process_rejects_invalid`: the enabled router receives an update whose key is
another application. -/
theorem process_rejects_invalid_witness :
    parseRoute sampleEnv otherKeyDocument
        = .ok ⟨"javascript", "invokers.slice(0, 1)", "other-app", some true⟩ ∧
      enabledWorld.router.enabled = true ∧
      Process sampleEnv enabledWorld (updateEvent otherKeyDocument) = ⟨.completed, enabledWorld⟩ :=
  ⟨rfl, by decide,
    process_rejects_invalid sampleEnv enabledWorld (updateEvent otherKeyDocument) otherKeyDocument
      ⟨"javascript", "invokers.slice(0, 1)", "other-app", some true⟩ (Or.inr rfl) rfl rfl
      (Or.inr (Or.inr (Or.inr (by decide))))⟩

/-- What `applyConfig` assigns to `enabled`, however it ends. -/
theorem applyConfig_enabled (env : Env) (w : World) (cfg : RouterConfig) (enabled : Bool)
    (he : cfg.Enabled = some enabled) :
    (applyConfig env w cfg).world.router.enabled = enabled := by
  unfold applyConfig
  rw [he]
  dsimp only
  split
  · rfl
  · split <;> rfl

/-- C15 (a disabled router is the identity): when `enabled` is false, `Route` returns the
given list for every list that is neither nil nor empty and every invocation, and leaves the
world as it was, so no script is run; `enabled` is false in a new router, and after an add or
update event with a valid document whose enabled flag is false; for a nil or empty list
`Route` returns the empty list whatever the state of the router. -/
theorem route_disabled_identity (env : Env) (w : World) (invokers : Option (List Invoker))
    (url : Option RegistryEvent.URL) (invocation : Invocation) :
    (w.router.enabled = false → len invokers ≠ 0 →
      Route env w invokers url invocation = (.returned invokers, w)) ∧
    (len invokers = 0 → Route env w invokers url invocation = (.returned (some []), w)) ∧
    (NewScriptRouter env).enabled = false ∧
    (∀ (event : ConfigChangeEvent) (rawConf : String) (cfg : RouterConfig),
      (event.ConfigType = .EventTypeAdd ∨ event.ConfigType = .EventTypeUpdate) →
      event.Value = .str rawConf → parseRoute env rawConf = .ok cfg → ValidConfig env cfg →
      cfg.Enabled = some false →
      (Process env w event).world.router.enabled = false ∧
        (len invokers ≠ 0 →
          Route env (Process env w event).world invokers url invocation
            = (.returned invokers, (Process env w event).world))) := by
  refine ⟨fun hoff hlen => route_disabled env w invokers url invocation hlen hoff,
    route_empty env w invokers url invocation, rfl, ?_⟩
  intro event rawConf cfg hkind hvalue hparse hv he
  have hoff : (Process env w event).world.router.enabled = false := by
    rw [process_configure env w event rawConf cfg hkind hvalue hparse]
    unfold configure
    rw [checkConfig_valid env cfg hv, he]
    exact applyConfig_enabled env w cfg false he
  exact ⟨hoff, fun hlen => route_disabled env _ invokers url invocation hlen hoff⟩

set_option maxRecDepth 8000 in
/-- The cases of `route_disabled_identity` on samples: the new router, the enabled router after
the update that sets the enabled flag to false, and an enabled router given the nil and the
empty list; given three invokers the enabled router runs its script, whose result fails the
type assertion of line 100. -/
theorem route_disabled_samples :
    Route sampleEnv startWorld threeInvokers none sayHello = (.returned threeInvokers, startWorld) ∧
    (Process sampleEnv enabledWorld (updateEvent disabledDocument)).outcome = .completed ∧
    (Process sampleEnv enabledWorld (updateEvent disabledDocument)).world.router.enabled = false ∧
    Route sampleEnv (Process sampleEnv enabledWorld (updateEvent disabledDocument)).world
        threeInvokers none sayHello
      = (.returned threeInvokers,
          (Process sampleEnv enabledWorld (updateEvent disabledDocument)).world) ∧
    Route sampleEnv enabledWorld none none sayHello = (.returned (some []), enabledWorld) ∧
    Route sampleEnv enabledWorld (some []) none sayHello = (.returned (some []), enabledWorld) ∧
    (Route sampleEnv enabledWorld threeInvokers none sayHello).1 = .panicked := by
  decide

set_option maxRecDepth 8000 in
/-- Witness of `route_disabled_identity`: the new router given three invokers, and the enabled
router after the update that sets the enabled flag to false. -/
theorem route_disabled_identity_witness :
    startWorld.router.enabled = false ∧ len threeInvokers ≠ 0 ∧
      Route sampleEnv startWorld threeInvokers none sayHello
        = (.returned threeInvokers, startWorld) ∧
      enabledWorld.router.enabled = true ∧
      (Process sampleEnv enabledWorld (updateEvent disabledDocument)).world.router.enabled
        = false ∧
      Route sampleEnv (Process sampleEnv enabledWorld (updateEvent disabledDocument)).world
          threeInvokers none sayHello
        = (.returned threeInvokers,
            (Process sampleEnv enabledWorld (updateEvent disabledDocument)).world) :=
  have hlen : len threeInvokers ≠ 0 := by decide
  have hupd := (route_disabled_identity sampleEnv enabledWorld threeInvokers none sayHello).2.2.2
    (updateEvent disabledDocument) disabledDocument
    ⟨"javascript", "invokers.slice(0, 1)", "demo-app", some false⟩ (Or.inr rfl) rfl rfl
    ⟨by decide, by decide, by decide, rfl⟩ rfl
  ⟨by decide, hlen,
    (route_disabled_identity sampleEnv startWorld threeInvokers none sayHello).1 (by decide) hlen,
    by decide, hupd.1, hupd.2 hlen⟩

/-- After `destroyAll` no instance has a program. -/
theorem destroyAll_programs (w : World) :
    ∀ entry ∈ (destroyAll w).instances, entry.2.program = none := by
  intro entry he
  unfold destroyAll at he
  simp only [List.mem_map] at he
  obtain ⟨e0, _, rfl⟩ := he
  rfl

/-- The delete event whose value decodes: `Process` completes, the router is disabled with
empty `rawScript` and `scriptType`, no instance keeps a program, and every later `Route` call
returns a list that is neither nil nor empty as it is. -/
theorem process_delete_decoded (env : Env) (w : World) (event : ConfigChangeEvent)
    (rawConf : String) (cfg : RouterConfig)
    (hkind : event.ConfigType = .EventTypeDel)
    (hvalue : event.Value = .str rawConf) (hparse : parseRoute env rawConf = .ok cfg) :
    (Process env w event).outcome = .completed ∧
      (Process env w event).world.router.enabled = false ∧
      (Process env w event).world.router.rawScript = "" ∧
      (Process env w event).world.router.scriptType = "" ∧
      (∀ entry ∈ (Process env w event).world.instances, entry.2.program = none) ∧
      ∀ (invokers : Option (List Invoker)) (url : Option RegistryEvent.URL)
        (invocation : Invocation), len invokers ≠ 0 →
        Route env (Process env w event).world invokers url invocation
          = (.returned invokers, (Process env w event).world) := by
  have hp : Process env w event = ⟨.completed, destroyAll (disable w)⟩ := by
    unfold Process
    rw [hvalue]
    dsimp only
    rw [hparse]
    dsimp only
    rw [hkind]
  rw [hp]
  refine ⟨rfl, rfl, rfl, rfl, destroyAll_programs _, ?_⟩
  intro invokers url invocation hlen
  exact route_disabled env _ invokers url invocation hlen rfl

/-- An event whose value does not decode, a delete event included: `Process` returns at
line 80 and the world is what it was. -/
theorem process_undecoded (env : Env) (w : World) (event : ConfigChangeEvent)
    (rawConf : String) (err : Err)
    (hvalue : event.Value = .str rawConf) (hparse : parseRoute env rawConf = .error err) :
    Process env w event = ⟨.completed, w⟩ := by
  unfold Process
  rw [hvalue]
  dsimp only
  rw [hparse]

set_option maxRecDepth 8000 in
/-- C13 (delete disables routing), evaluated where the code departs from it.  The router is
enabled and the program of its script is stored.  A delete event with the empty string as its
value, which the decoder rejects, leaves the whole world as it was: the router is still
enabled with its script and the program is still stored; the next `Route` call on three
invokers runs the program again and does not return the three invokers (the value the engine
hands back fails the type assertion of line 100).  A delete event whose value is a text that
is no configuration does the same.  For the router whose script throws, the next `Route` call
after such a delete event returns the nil list.  The delete event that carries the document
again disables the router, and the next `Route` call returns the three invokers. -/
theorem process_delete_keeps_routing :
    (enabledWorld.router = ⟨"javascript", "demo-app", true, "invokers.slice(0, 1)"⟩ ∧
      enabledWorld.instances
        = [("javascript",
            ⟨some ⟨"demo-app_jsScriptRoute", js_script_perfix ++ "invokers.slice(0, 1)"⟩⟩)]) ∧
    (parseRoute sampleEnv "" = .error "EOF" ∧
      Process sampleEnv enabledWorld (deleteEvent "") = ⟨.completed, enabledWorld⟩ ∧
      (Process sampleEnv enabledWorld (deleteEvent "")).world.router.enabled = true ∧
      (Route sampleEnv (Process sampleEnv enabledWorld (deleteEvent "")).world threeInvokers none
        sayHello).1 ≠ .returned threeInvokers ∧
      (Route sampleEnv (Process sampleEnv enabledWorld (deleteEvent "")).world threeInvokers none
        sayHello).1 = .panicked ∧
      (Route sampleEnv (Process sampleEnv enabledWorld (deleteEvent "")).world threeInvokers none
        sayHello).2.calls
        = enabledWorld.calls ++
          [.run ⟨"demo-app_jsScriptRoute", js_script_perfix ++ "invokers.slice(0, 1)"⟩
            threeInvokers sayHello]) ∧
    (parseRoute sampleEnv "deleted" = .error "yaml: unmarshal errors" ∧
      Process sampleEnv enabledWorld (deleteEvent "deleted") = ⟨.completed, enabledWorld⟩) ∧
    (throwingWorld.router.enabled = true ∧
      Process sampleEnv throwingWorld (deleteEvent "") = ⟨.completed, throwingWorld⟩ ∧
      (Route sampleEnv (Process sampleEnv throwingWorld (deleteEvent "")).world threeInvokers none
        sayHello).1 = .returned none) ∧
    ((Process sampleEnv enabledWorld (deleteEvent keepFirstDocument)).world.router
        = ⟨"", "demo-app", false, ""⟩ ∧
      (Route sampleEnv (Process sampleEnv enabledWorld (deleteEvent keepFirstDocument)).world
        threeInvokers none sayHello).1 = .returned threeInvokers) := by
  refine ⟨⟨by decide, by decide⟩, ⟨rfl, by decide, by decide, by decide, by decide, by decide⟩,
    ⟨rfl, by decide⟩, ⟨by decide, by decide, by decide⟩, by decide, by decide⟩

/-- Where `Process` is free of panics: an add or update event with a valid document that has
the enabled flag, for a script type with a registered instance, completes. -/
theorem process_completes_registered (env : Env) (w : World) (event : ConfigChangeEvent)
    (rawConf : String) (cfg : RouterConfig) (enabled : Bool) (i : jsInstances)
    (hkind : event.ConfigType = .EventTypeAdd ∨ event.ConfigType = .EventTypeUpdate)
    (hvalue : event.Value = .str rawConf) (hparse : parseRoute env rawConf = .ok cfg)
    (hv : ValidConfig env cfg) (he : cfg.Enabled = some enabled)
    (hreg : GetInstances w cfg.ScriptType = .ok i) :
    (Process env w event).outcome = .completed := by
  rw [process_configure env w event rawConf cfg hkind hvalue hparse]
  unfold configure
  rw [checkConfig_valid env cfg hv, he]
  show (applyConfig env w cfg).outcome = .completed
  unfold applyConfig
  rw [he]
  dsimp only
  rw [hreg]
  dsimp only
  split <;> rfl

/-- A valid document without the enabled flag makes `Process` panic at line 99, the world
unchanged. -/
theorem process_panics_without_enabled (env : Env) (w : World) (event : ConfigChangeEvent)
    (rawConf : String) (cfg : RouterConfig)
    (hkind : event.ConfigType = .EventTypeAdd ∨ event.ConfigType = .EventTypeUpdate)
    (hvalue : event.Value = .str rawConf) (hparse : parseRoute env rawConf = .ok cfg)
    (hv : ValidConfig env cfg) (he : cfg.Enabled = none) :
    Process env w event = ⟨.panicked, w⟩ := by
  rw [process_configure env w event rawConf cfg hkind hvalue hparse]
  unfold configure
  rw [checkConfig_valid env cfg hv, he]
  rfl

/-- A valid document of a script type without a registered instance makes `Process` panic at
the method call on the nil instance, after the fields of the router are assigned. -/
theorem process_panics_unregistered (env : Env) (w : World) (event : ConfigChangeEvent)
    (rawConf : String) (cfg : RouterConfig) (enabled : Bool) (err : Err)
    (hkind : event.ConfigType = .EventTypeAdd ∨ event.ConfigType = .EventTypeUpdate)
    (hvalue : event.Value = .str rawConf) (hparse : parseRoute env rawConf = .ok cfg)
    (hv : ValidConfig env cfg) (he : cfg.Enabled = some enabled)
    (hreg : GetInstances w cfg.ScriptType = .error err) :
    Process env w event = ⟨.panicked, assignConfig w cfg enabled⟩ := by
  rw [process_configure env w event rawConf cfg hkind hvalue hparse]
  unfold configure
  rw [checkConfig_valid env cfg hv, he]
  show applyConfig env w cfg = _
  unfold applyConfig
  rw [he]
  dsimp only
  rw [hreg]

set_option maxRecDepth 8000 in
/-- C19 (`Process` is panic-free on valid documents), evaluated where the code departs from
it.  The documents decode to configurations with a type, a script and the key of the
application.  The document without an `enabled` field makes `Process` panic, as an add and
as an update event; so does the document of type `lua`, for which no instance is registered,
with the enabled flag true or false.  The document of the registered type that has the flag
is processed to the end. -/
theorem process_panics_on_valid_documents :
    (parseRoute sampleEnv noEnabledDocument
        = .ok ⟨"javascript", "invokers.slice(0, 1)", "demo-app", none⟩ ∧
      sampleEnv.ApplicationName = "demo-app" ∧
      Process sampleEnv startWorld (addEvent noEnabledDocument) = ⟨.panicked, startWorld⟩ ∧
      Process sampleEnv startWorld (updateEvent noEnabledDocument) = ⟨.panicked, startWorld⟩) ∧
    (parseRoute sampleEnv luaDocument = .ok ⟨"lua", "return invokers", "demo-app", some true⟩ ∧
      GetInstances startWorld "lua" = .error "script type lua not be loaded" ∧
      (Process sampleEnv startWorld (addEvent luaDocument)).outcome = .panicked ∧
      (Process sampleEnv startWorld (updateEvent luaDocument)).outcome = .panicked ∧
      (Process sampleEnv startWorld (addEvent luaDisabledDocument)).outcome = .panicked ∧
      (Process sampleEnv startWorld (updateEvent luaDisabledDocument)).outcome = .panicked) ∧
    (Process sampleEnv startWorld (addEvent keepFirstDocument)).outcome = .completed := by
  refine ⟨⟨rfl, rfl, by decide, by decide⟩, ⟨rfl, rfl, by decide, by decide, by decide, by decide⟩,
    by decide⟩

end RouterScript
